import Mathlib

/-!
# Trestle: fragmentation, reassembly, the learning switch and the listener

A shallow embedding of the packet plane of `lucasl0st/trestle`
(`internal/peer.go`, `internal/switch.go`, `internal/listener.go`,
`internal/util`, and the port validation of `pkg/config.go`), followed by the
properties proved about it.

Conventions of the embedding:

* Go `uint32` values are natural numbers kept below `2 ^ 32` by an explicit
  `% 2 ^ 32` where the source increments or subtracts; Go `uint` is reduced
  modulo `2 ^ 64`.
* `util.SafeMap` is a finite map; it is embedded as a function into `Option`.
  Go leaves the iteration order of a map unspecified, so every `Range` takes the
  key snapshot returned by `Keys()` as an explicit argument and the theorems
  quantify over all snapshots.
* A call that blocks on a full queue is reported as such, together with the
  state in which the caller is parked.
* A failed Go type assertion (a run-time panic) is an explicit result.
* What the environment decides (the UUID generated, whether a socket write
  succeeds, the datagram received) is an explicit argument; what the program
  does to its environment (datagrams written, ports registered or closed) is
  recorded in the state.
-/

namespace Trestle

/-! ## Basic types -/

/-- One byte of a frame or of a payload. -/
abbrev Byte := Fin 256

/-- The type `ethernet.Frame`: a byte slice. -/
abbrev Frame := List Byte

/-- Modulus of Go `uint32` arithmetic. -/
def u32 : Nat := 2 ^ 32

/-- Modulus of Go `uint` arithmetic on the 64-bit targets the program runs on. -/
def u64 : Nat := 2 ^ 64

/-- The Go slice expression `frame[i:e]` for `i ≤ e ≤ len(frame)`. -/
def slice (frame : List Byte) (i e : Nat) : List Byte :=
  (frame.drop i).take (e - i)

/-! ## util.SafeMap -/

/-- The type `util.SafeMap[K, V]`, a map from keys to values. -/
def SafeMap (K V : Type) : Type := K → Option V

namespace SafeMap

variable {K V : Type}

/-- `NewSafeMap`: the empty map. -/
def empty : SafeMap K V := fun _ => none

/-- `Get`: the value stored under `key`, if any. -/
def Get (m : SafeMap K V) (key : K) : Option V := m key

/-- `Set`: store `value` under `key`, replacing a previous binding. -/
def Set [DecidableEq K] (m : SafeMap K V) (key : K) (value : V) : SafeMap K V :=
  fun k => if k = key then some value else m k

/-- `Delete`: remove the binding of `key`. -/
def Delete [DecidableEq K] (m : SafeMap K V) (key : K) : SafeMap K V :=
  fun k => if k = key then none else m k

/-- A list `keys` is a possible result of `Keys()` on `m`: every key of the map
exactly once, in any order. -/
def IsKeys (m : SafeMap K V) (keys : List K) : Prop :=
  keys.Nodup ∧ ∀ k, k ∈ keys ↔ (m k).isSome = true

end SafeMap

/-! ## util.Queue -/

/-- The type `util.Queue[T]`: the stored items and the capacity `maxItems`
(a Go `int`). The locks and condition variables carry no data. -/
structure Queue (T : Type) where
  items : List T
  maxItems : Int
deriving DecidableEq

/-- `NewQueue`: an empty queue of the given capacity. -/
def NewQueue {T : Type} (maxItems : Int) : Queue T :=
  { items := [], maxItems := maxItems }

/-- `Queue.Add`: append the item. While `len(q.items) >= q.maxItems` the caller
waits; `none` reports that the call cannot proceed in the present state. -/
def Queue.Add {T : Type} (q : Queue T) (item : T) : Option (Queue T) :=
  if (q.items.length : Int) ≥ q.maxItems then none
  else some { q with items := q.items ++ [item] }

/-! ## The wire packet -/

/-- The enum `packet.PacketType`. -/
inductive PacketType where
  | HELO
  | INITIATE_SESSION
  | ACK_SESSION
  | FRAGMENTED_DATA
deriving DecidableEq, Repr

/-- The message `packet.FragmentedData`; the three counters are `uint32`. -/
structure FragmentedData where
  Id : Nat
  Fragment : Nat
  FragmentMax : Nat
  Payload : List Byte
deriving DecidableEq, Repr

/-- The one-of `Packet.Payload`: unset, or one of the four wrapper variants
`Packet_Helo`, `Packet_InitiateSession`, `Packet_AckSession`,
`Packet_FragmentedData`. -/
inductive PacketPayload where
  | unset
  | Helo
  | InitiateSession (Mtu NetworkMtu : Nat)
  | AckSession (Id : String)
  | FragmentedData (fd : FragmentedData)
deriving DecidableEq, Repr

/-- The message `packet.Packet`. -/
structure Packet where
  type : PacketType
  Payload : PacketPayload
deriving DecidableEq, Repr

/-- The type assertion `pack.Payload.(*packet.Packet_FragmentedData)`; `none`
stands for the panic of a failed assertion. -/
def Packet.fragmentedData (pack : Packet) : Option FragmentedData :=
  match pack.Payload with
  | .FragmentedData fd => some fd
  | _ => none

/-! ## Encoded size of a packet -/

/-- Modelled from the spec: the number of bytes of a base-128 varint, the
integer encoding of the "standard Protocol Buffers encoding" named in the
external-interface section (`proto.Marshal` and the generated `pkg/packet` are
not among the sources). Covers every value below `2 ^ 64`. -/
def varintSize (n : Nat) : Nat :=
  if n < 2 ^ 7 then 1
  else if n < 2 ^ 14 then 2
  else if n < 2 ^ 21 then 3
  else if n < 2 ^ 28 then 4
  else if n < 2 ^ 35 then 5
  else if n < 2 ^ 42 then 6
  else if n < 2 ^ 49 then 7
  else if n < 2 ^ 56 then 8
  else if n < 2 ^ 63 then 9
  else 10

/-- Modelled from the spec: size of a varint field with a one-byte tag (all
field numbers of the schema are below 16); a zero value is left out of the
encoding. -/
def varintFieldSize (n : Nat) : Nat :=
  if n = 0 then 0 else 1 + varintSize n

/-- Modelled from the spec: size of a length-delimited field (bytes, string)
with a one-byte tag; an empty value is left out of the encoding. -/
def bytesFieldSize (len : Nat) : Nat :=
  if len = 0 then 0 else 1 + varintSize len + len

/-- Modelled from the spec: size of a set one-of member holding a message of
`len` bytes: tag, length, body. A set member is written even when empty. -/
def messageFieldSize (len : Nat) : Nat :=
  1 + varintSize len + len

/-- Modelled from the spec: the numeric value of a `PacketType`
(`HELO=1, INITIATE_SESSION=2, ACK_SESSION=3, FRAGMENTED_DATA=4`). -/
def PacketType.number : PacketType → Nat
  | .HELO => 1
  | .INITIATE_SESSION => 2
  | .ACK_SESSION => 3
  | .FRAGMENTED_DATA => 4

/-- Modelled from the spec: encoded size of the body of a `FragmentedData`
message `{ id: u32, fragment: u32, fragment_max: u32, payload: bytes }`. -/
def FragmentedData.encodedSize (fd : FragmentedData) : Nat :=
  varintFieldSize fd.Id + varintFieldSize fd.Fragment + varintFieldSize fd.FragmentMax
    + bytesFieldSize fd.Payload.length

/-- Modelled from the spec: encoded size of the one-of member of a packet. -/
def PacketPayload.encodedSize : PacketPayload → Nat
  | .unset => 0
  | .Helo => messageFieldSize 0
  | .InitiateSession mtu networkMtu =>
      messageFieldSize (varintFieldSize mtu + varintFieldSize networkMtu)
  | .AckSession id => messageFieldSize (bytesFieldSize id.utf8ByteSize)
  | .FragmentedData fd => messageFieldSize fd.encodedSize

/-- Modelled from the spec: `len(proto.Marshal(p))`, the size of the datagram
that carries the packet `{ type, payload: one-of }`. -/
def Packet.encodedSize (p : Packet) : Nat :=
  varintFieldSize p.type.number + p.Payload.encodedSize

/-! ## internal/peer.go -/

/-- `math.MaxInt32`. -/
def maxInt32 : Nat := 2 ^ 31 - 1

/-- The packet that `maxPayloadSize` serialises to measure the header. -/
def headerProbe : Packet :=
  { type := .FRAGMENTED_DATA
    Payload := .FragmentedData
      { Id := maxInt32, Fragment := maxInt32, FragmentMax := maxInt32, Payload := [] } }

/-- `maxPayloadSize`: `int(networkMTU - uint32(len(b)))`, a `uint32`
subtraction (it wraps around when the header is larger than the MTU). -/
def maxPayloadSize (networkMTU : Nat) : Nat :=
  (networkMTU % u32 + u32 - headerProbe.encodedSize % u32) % u32

/-- The struct `peer`. The listener it reads from is represented by the stream
of packets handed to `Read`. The field `maxPayloadSize` is a Go `int` that
`NewPeer`, its only constructor, fills from a `uint32`, hence a natural
number. -/
structure peer where
  id : String
  maxPayloadSize : Nat
  fragmentedPackets : SafeMap Nat (List Packet)
  packedId : Nat

/-- `NewPeer`. -/
def NewPeer (id : String) (networkMTU : Nat) : peer :=
  { id := id
    maxPayloadSize := maxPayloadSize networkMTU
    fragmentedPackets := SafeMap.empty
    packedId := 0 }

/-- The slicing loop of `peer.fragment`
(`for i := 0; i < len(frame); i += p.maxPayloadSize`), with loop variables `i`,
`k` and the list `fragments` built so far. It returns the fragments and the
final `k`. The first argument bounds the number of iterations; `none` means the
bound was reached. -/
def fragmentLoop (maxPayload : Nat) (frame : Frame) (packetId : Nat) :
    Nat → Nat → Nat → List Packet → Option (List Packet × Nat)
  | 0, _, _, _ => none
  | fuel + 1, i, k, fragments =>
    if i < frame.length then
      let e := if i + maxPayload > frame.length then frame.length else i + maxPayload
      let fragment : Packet :=
        { type := .FRAGMENTED_DATA
          Payload := .FragmentedData
            { Id := packetId, Fragment := k, FragmentMax := 0, Payload := slice frame i e } }
      fragmentLoop maxPayload frame packetId fuel (i + maxPayload) ((k + 1) % u32)
        (fragments ++ [fragment])
    else some (fragments, k)

/-- Apply a step that may panic to every element in order; the first panic
aborts the whole loop. -/
def forEach {α β : Type} (f : α → Option β) : List α → Option (List β)
  | [] => some []
  | a :: rest =>
    match f a with
    | none => none
    | some b =>
      match forEach f rest with
      | none => none
      | some bs => some (b :: bs)

/-- The second loop of `peer.fragment`: store `k` in `FragmentMax`. A payload of
another variant would make the type assertion panic (`none`). -/
def setFragmentMax (k : Nat) (fragment : Packet) : Option Packet :=
  match fragment.Payload with
  | .FragmentedData fd =>
      some { fragment with Payload := .FragmentedData { fd with FragmentMax := k } }
  | _ => none

/-- `peer.fragment`: the peer after the call (its packet-id counter advanced)
and the fragments. The slicing loop needs at most `len(frame)` iterations when
the max payload is positive; with a max payload of zero and a non-empty frame
it never ends, which is the result `none`. -/
def peer.fragment (p : peer) (frame : Frame) : Option (peer × List Packet) :=
  let packetId := p.packedId
  let p1 := { p with packedId := (p.packedId + 1) % u32 }
  match fragmentLoop p.maxPayloadSize frame packetId (frame.length + 1) 0 0 [] with
  | none => none
  | some (fragments, k) =>
    match forEach (setFragmentMax k) fragments with
    | none => none
    | some fragments => some (p1, fragments)

/-- The send loop of `peer.Write`: the packets passed to `listener.Write`, in
order, and whether all sends succeeded; the loop stops at the first failed
send. -/
def writeLoop (sendOk : Packet → Bool) : List Packet → List Packet × Bool
  | [] => ([], true)
  | fragment :: rest =>
    if sendOk fragment then
      let r := writeLoop sendOk rest
      (fragment :: r.1, r.2)
    else ([fragment], false)

/-- `peer.Write`: fragment the frame and send the fragments in order. The
result holds the peer afterwards, the packets passed to `listener.Write` and
whether `Write` returns a nil error; `sendOk` tells which sends succeed. -/
def peer.Write (p : peer) (frame : Frame) (sendOk : Packet → Bool) :
    Option (peer × List Packet × Bool) :=
  match p.fragment frame with
  | none => none
  | some (p1, fragments) => some (p1, writeLoop sendOk fragments)

/-- Number of chunks of at most `maxPayload` bytes in `len` bytes:
`⌈len / maxPayload⌉`. -/
def fragmentCount (maxPayload len : Nat) : Nat := (len + maxPayload - 1) / maxPayload

/-- The `FragmentedData` record of the fragment of index `t` of a frame, with
`fragmentMax` as its `FragmentMax`. -/
def fragmentDataAt (maxPayload : Nat) (frame : Frame) (packetId fragmentMax t : Nat) :
    FragmentedData :=
  { Id := packetId, Fragment := t % u32, FragmentMax := fragmentMax,
    Payload := (frame.drop (t * maxPayload)).take maxPayload }

/-- The fragment of index `t` of a frame: the closed form of what the loops of
`peer.fragment` build. -/
def fragmentAt (maxPayload : Nat) (frame : Frame) (packetId fragmentMax t : Nat) : Packet :=
  { type := .FRAGMENTED_DATA
    Payload := .FragmentedData (fragmentDataAt maxPayload frame packetId fragmentMax t) }

/-- The `FragmentedData` record of a packet, with an all-zero record for a
packet of another variant. -/
def Packet.fragmentedDataD (pack : Packet) : FragmentedData :=
  (pack.fragmentedData).getD { Id := 0, Fragment := 0, FragmentMax := 0, Payload := [] }

/-- The completion test of `findCompleteFrame` on one buffer entry: the entry is
non-empty and `uint32(len(fragments))` is at least the `FragmentMax` of its
first fragment. -/
def entryComplete (fragments : List Packet) : Bool :=
  match fragments with
  | [] => false
  | first :: _ =>
    match first.fragmentedData with
    | none => false
    | some fd => decide (fragments.length % u32 ≥ fd.FragmentMax)

/-- The payload bytes carried by a list of packets, in list order. -/
def payloadsOf (packets : List Packet) : List Byte :=
  ((packets.filterMap Packet.fragmentedData).map FragmentedData.Payload).flatten

/-- The visitor of `findCompleteFrame` run over the key snapshot `keys`: the
first packet-id whose entry is non-empty and holds at least `FragmentMax`
fragments (`FragmentMax` read from the first buffered fragment). The outer
`none` is the panic of a failed type assertion. -/
def findCompleteEntry (m : SafeMap Nat (List Packet)) :
    List Nat → Option (Option (Nat × List Packet))
  | [] => some none
  | packetId :: rest =>
    match m.Get packetId with
    | none => findCompleteEntry m rest
    | some [] => findCompleteEntry m rest
    | some (first :: more) =>
      match first.fragmentedData with
      | none => none
      | some fd =>
        if (first :: more).length % u32 ≥ fd.FragmentMax then
          some (some (packetId, first :: more))
        else findCompleteEntry m rest

/-- The comparison of `sort.Slice` in `deFragmentFrame`: ascending `Fragment`. -/
def fragmentLE (a b : FragmentedData) : Prop := a.Fragment ≤ b.Fragment

instance : DecidableRel fragmentLE := fun a b => Nat.decLe a.Fragment b.Fragment

/-- `peer.deFragmentFrame`: sort by fragment index, concatenate the payloads,
delete the buffer entry. `none` is the panic of a failed type assertion.
`sort.Slice` is not stable; it is embedded as insertion sort, and the theorems
use only that the result is ordered and a permutation of the input. The frame
starts as the nil slice (`var frame ethernet.Frame`) and `append` of no bytes
leaves it nil, so the frame `[]` is Go's nil frame. -/
def peer.deFragmentFrame (p : peer) (packetId : Nat) (fragments : List Packet) :
    Option (Frame × peer) :=
  match forEach Packet.fragmentedData fragments with
  | none => none
  | some fds =>
    let sorted := fds.insertionSort fragmentLE
    let frame : Frame := (sorted.map FragmentedData.Payload).flatten
    some (frame, { p with fragmentedPackets := p.fragmentedPackets.Delete packetId })

/-- `peer.findCompleteFrame` for the key snapshot `keys`: the frame and the
peer afterwards; the `none` is a panic. The frame `[]` is Go's `nil`: it is
returned when no entry is complete, and it is also what `deFragmentFrame`
returns for a complete entry whose payloads hold no byte at all. -/
def peer.findCompleteFrame (p : peer) (keys : List Nat) : Option (Frame × peer) :=
  match findCompleteEntry p.fragmentedPackets keys with
  | none => none
  | some none => some ([], p)
  | some (some (packetId, fragments)) => p.deFragmentFrame packetId fragments

/-- Result of `peer.Read` on a finite stream of arrivals. -/
inductive ReadResult where
  | frame (f : Frame) (p : peer) (rest : List (Packet × List Nat))
  | waiting (p : peer)
  | panicked

/-- The first half of `peer.Read`: append the arrived packet, whose payload is
`payload`, to the buffer entry of its packet-id. -/
def peer.buffer (p : peer) (pack : Packet) (payload : FragmentedData) : peer :=
  let fragments := (p.fragmentedPackets.Get payload.Id).getD []
  let fragments := fragments ++ [pack]
  { p with fragmentedPackets := p.fragmentedPackets.Set payload.Id fragments }

/-- `peer.Read`. Each arrival is the packet that `listener.Read` hands over
together with the key snapshot that the subsequent `Range` observes. The packet
is appended to the buffer entry of its packet-id; if `findCompleteFrame`
delivers a frame other than `nil` it is returned, otherwise (`frame == nil`)
`Read` calls itself on the next arrival, with the buffer as `findCompleteFrame`
left it. With no arrival left the call waits on the queue. (`listener.Read`
fails only for a peer-id without a queue; the stream stands for the queue of a
registered peer.) -/
def peer.Read : peer → List (Packet × List Nat) → ReadResult
  | p, [] => .waiting p
  | p, (pack, keys) :: rest =>
    match pack.fragmentedData with
    | none => .panicked
    | some payload =>
      match (p.buffer pack payload).findCompleteFrame keys with
      | none => .panicked
      | some (frame, p2) => if frame = [] then peer.Read p2 rest else .frame frame p2 rest

/-- The frame a `Read` result delivers, if any. -/
def ReadResult.delivered : ReadResult → Option Frame
  | .frame f _ _ => some f
  | _ => none

/-- A fragment with packet-id 7 of a frame cut into three fragments. -/
def exampleFragment (index : Nat) (payload : List Byte) : Packet :=
  { type := .FRAGMENTED_DATA
    Payload := .FragmentedData { Id := 7, Fragment := index, FragmentMax := 3, Payload := payload } }

/-- A receiving peer that has buffered fragments 2 and 0 of packet-id 7, in
this order of arrival. -/
def exampleReceiver : peer :=
  { NewPeer "peer" 30 with
    fragmentedPackets :=
      (SafeMap.empty.Set 7 [exampleFragment 2 [3]]).Set 7
        [exampleFragment 2 [3], exampleFragment 0 [1]] }

/-! ## internal/switch.go -/

/-- A hexadecimal digit, as in the table `"0123456789abcdef"` used by
`net.HardwareAddr.String`. -/
def hexDigit (n : Nat) : Char :=
  if n < 10 then Char.ofNat (48 + n) else Char.ofNat (87 + n)

/-- The characters of `net.HardwareAddr.String()`: two hexadecimal digits per
byte, bytes separated by colons. -/
def hardwareAddrChars : List Byte → List Char
  | [] => []
  | [b] => [hexDigit (b.val / 16), hexDigit (b.val % 16)]
  | b :: c :: rest =>
    hexDigit (b.val / 16) :: hexDigit (b.val % 16) :: ':' :: hardwareAddrChars (c :: rest)

/-- The key of the MAC table: `net.HardwareAddr.String()`. -/
def hardwareAddrString (a : List Byte) : String := String.mk (hardwareAddrChars a)

/-- `ethernet.Frame.Destination`: the first six bytes. The frame is assumed to
hold a full pair of addresses (at least 12 bytes). -/
def Destination (frame : Frame) : List Byte := frame.take 6

/-- `ethernet.Frame.Source`: bytes 6 to 11. -/
def Source (frame : Frame) : List Byte := (frame.drop 6).take 6

/-- The variable `broadcastMac`. -/
def broadcastMac : List Byte := [0xff, 0xff, 0xff, 0xff, 0xff, 0xff]

/-- A value of the interface `Port`; ports are told apart by a number. -/
abbrev Port := Nat

/-- The struct `ethernetSwitch`. The extra field `closed` records the ports on
which `Close()` has been called, in order. -/
structure ethernetSwitch where
  name : String
  ports : SafeMap Nat Port
  portActive : SafeMap Nat Bool
  hardwareAddr : SafeMap String Nat
  outgoingFrames : SafeMap Nat (Queue Frame)
  portId : Nat
  closed : List Port

/-- `NewSwitch`. -/
def NewSwitch (name : String) : ethernetSwitch :=
  { name := name
    ports := SafeMap.empty
    portActive := SafeMap.empty
    hardwareAddr := SafeMap.empty
    outgoingFrames := SafeMap.empty
    portId := 0
    closed := [] }

/-- `AddPort`: take the next port-id, mark it active and give it an egress
queue of capacity 500. The reader and writer goroutines it starts are not part
of the state. Returns the switch afterwards and the port-id. -/
def ethernetSwitch.AddPort (e : ethernetSwitch) (_port : Port) : ethernetSwitch × Nat :=
  let portId := e.portId
  ({ e with
      portId := (e.portId + 1) % u64
      portActive := e.portActive.Set portId true
      outgoingFrames := e.outgoingFrames.Set portId (NewQueue 500) }, portId)

/-- `RemovePort`: mark the port inactive, delete its egress queue, and close
the port found in `e.ports`, if there is one. -/
def ethernetSwitch.RemovePort (e : ethernetSwitch) (portId : Nat) : ethernetSwitch :=
  let e1 := { e with
    portActive := e.portActive.Set portId false
    outgoingFrames := e.outgoingFrames.Delete portId }
  match e1.ports.Get portId with
  | none => e1
  | some port => { e1 with closed := e1.closed ++ [port] }

/-- How a call that may wait on a full queue ends: it returns, or it is parked
on a full queue; either way with the switch state reached. -/
inductive Outcome where
  | done (e : ethernetSwitch)
  | blocked (e : ethernetSwitch)

/-- The switch state carried by an outcome. -/
def Outcome.state : Outcome → ethernetSwitch
  | .done e => e
  | .blocked e => e

/-- `broadcastFrame`: `outgoingFrames.Range` over the key snapshot with the
visitor that skips the source port and adds the frame to every other queue. A
key whose entry has gone in the meantime is skipped by `Range`. -/
def broadcastFrame (frame : Frame) (sourcePortId : Nat) :
    List Nat → ethernetSwitch → Outcome
  | [], e => .done e
  | portId :: rest, e =>
    match e.outgoingFrames.Get portId with
    | none => broadcastFrame frame sourcePortId rest e
    | some queue =>
      if portId = sourcePortId then broadcastFrame frame sourcePortId rest e
      else
        match queue.Add frame with
        | none => .blocked e
        | some queue1 =>
          broadcastFrame frame sourcePortId rest
            { e with outgoingFrames := e.outgoingFrames.Set portId queue1 }

/-- `singlecastFrame`: forward to the port the MAC table gives for the
destination, unless that is missing, is the source port, or has no queue. -/
def ethernetSwitch.singlecastFrame (e : ethernetSwitch) (frame : Frame) (sourcePortId : Nat) :
    Outcome :=
  match e.hardwareAddr.Get (hardwareAddrString (Destination frame)) with
  | none => .done e
  | some targetPortId =>
    if targetPortId = sourcePortId then .done e
    else
      match e.outgoingFrames.Get targetPortId with
      | none => .done e
      | some queue =>
        match queue.Add frame with
        | none => .blocked e
        | some queue1 =>
          .done { e with outgoingFrames := e.outgoingFrames.Set targetPortId queue1 }

/-- `transportFrame`: learn the source address, then flood a broadcast frame
or forward a unicast one. `keys` is the key snapshot of `outgoingFrames` that a
broadcast iterates over. -/
def ethernetSwitch.transportFrame (e : ethernetSwitch) (frame : Frame) (sourcePortId : Nat)
    (keys : List Nat) : Outcome :=
  let e1 := { e with
    hardwareAddr := e.hardwareAddr.Set (hardwareAddrString (Source frame)) sourcePortId }
  if Destination frame = broadcastMac then broadcastFrame frame sourcePortId keys e1
  else e1.singlecastFrame frame sourcePortId

/-- One operation on a switch: the three entry points that change its state.
A `transport` carries the frame, the source port-id and the key snapshot. -/
inductive SwitchOp where
  | addPort (port : Port)
  | removePort (portId : Nat)
  | transport (frame : Frame) (sourcePortId : Nat) (keys : List Nat)

/-- The state after one operation; for a transport parked on a full queue,
the state in which it is parked. -/
def ethernetSwitch.apply (e : ethernetSwitch) : SwitchOp → ethernetSwitch
  | .addPort port => (e.AddPort port).1
  | .removePort portId => e.RemovePort portId
  | .transport frame sourcePortId keys => (e.transportFrame frame sourcePortId keys).state

/-- The state reached from `NewSwitch` by a sequence of operations. -/
def runOps (name : String) (ops : List SwitchOp) : ethernetSwitch :=
  ops.foldl ethernetSwitch.apply (NewSwitch name)

/-- The port on which the address `key` was last seen as a source among the
transported frames of `ops`, if it was seen at all. -/
def lastObserved (key : String) (ops : List SwitchOp) : Option Nat :=
  ops.foldl (fun seen op =>
    match op with
    | .transport frame sourcePortId _ =>
      if hardwareAddrString (Source frame) = key then some sourcePortId else seen
    | _ => seen) none

/-- The frame of a transport holds both addresses (at least 12 bytes). -/
def SwitchOp.headerComplete : SwitchOp → Bool
  | .transport frame _ _ => decide (12 ≤ frame.length)
  | _ => true

/-- A broadcast frame `ff:ff:ff:ff:ff:ff ← 02:00:00:00:00:01`. -/
def exampleBroadcast : Frame := [0xff, 0xff, 0xff, 0xff, 0xff, 0xff, 2, 0, 0, 0, 0, 1, 8, 0]

/-- A unicast frame `02:00:00:00:00:01 ← 02:00:00:00:00:02`. -/
def exampleUnicast : Frame := [2, 0, 0, 0, 0, 1, 2, 0, 0, 0, 0, 2, 8, 0]

/-- A frame whose source address is the broadcast address. -/
def exampleBroadcastSource : Frame := [2, 0, 0, 0, 0, 1, 0xff, 0xff, 0xff, 0xff, 0xff, 0xff, 8, 0]

/-- A switch with three ports 0, 1, 2. -/
def exampleSwitch : ethernetSwitch :=
  runOps "sw" [.addPort 10, .addPort 11, .addPort 12]

/-- The same switch after port 1 has sent a broadcast frame from
`02:00:00:00:00:01`. -/
def exampleLearned : ethernetSwitch :=
  runOps "sw" [.addPort 10, .addPort 11, .addPort 12, .transport exampleBroadcast 1 [0, 1, 2]]

/-- `ethernetSwitch.Close`: `e.ports.Range` over the key snapshot `keys` with
the visitor that removes each port found in `e.ports`. -/
def ethernetSwitch.Close (e : ethernetSwitch) : List Nat → ethernetSwitch
  | [] => e
  | portId :: rest =>
    match e.ports.Get portId with
    | none => ethernetSwitch.Close e rest
    | some _ => ethernetSwitch.Close (e.RemovePort portId) rest

/-- Successive `AddPort` calls, one per port of the list: the switch afterwards
and the port-ids returned, in call order. -/
def ethernetSwitch.addPorts (e : ethernetSwitch) : List Port → ethernetSwitch × List Nat
  | [] => (e, [])
  | port :: rest =>
    let r := (e.AddPort port).1.addPorts rest
    (r.1, (e.AddPort port).2 :: r.2)

/-- The number of `AddPort` calls in a sequence of operations. -/
def addPortCount : List SwitchOp → Nat
  | [] => 0
  | .addPort _ :: rest => addPortCount rest + 1
  | _ :: rest => addPortCount rest

/-! ## util.Queue as a transition system -/

/-- `Queue.Grab`: remove and return the first item. While the queue is empty
the caller waits; `none` reports that the call cannot proceed in the present
state. -/
def Queue.Grab {T : Type} (q : Queue T) : Option (T × Queue T) :=
  match q.items with
  | [] => none
  | i :: rest => some (i, { q with items := rest })

/-- `Queue.IsEmpty`. -/
def Queue.IsEmpty {T : Type} (q : Queue T) : Bool := q.items.length == 0

/-- One step on a queue. -/
inductive QueueOp (T : Type) where
  | add (item : T)
  | grab

/-- A sequence of steps, each taken in a state in which it is enabled (`Add`
with the queue not full, `Grab` with the queue not empty): the queue afterwards
and the items returned by the `Grab` steps, in order. A step that is not
enabled does not take place, and the sequence is then not a run (`none`). -/
def Queue.run {T : Type} (q : Queue T) : List (QueueOp T) → Option (Queue T × List T)
  | [] => some (q, [])
  | .add item :: rest =>
    match q.Add item with
    | none => none
    | some q1 => q1.run rest
  | .grab :: rest =>
    match q.Grab with
    | none => none
    | some (i, q1) =>
      match q1.run rest with
      | none => none
      | some (q2, out) => some (q2, i :: out)

/-- The items of the `Add` steps of a sequence, in order. -/
def addedItems {T : Type} : List (QueueOp T) → List T
  | [] => []
  | .add item :: rest => item :: addedItems rest
  | .grab :: rest => addedItems rest

/-! ## pkg/config.go -/

namespace Config

/-- The struct `TAPNIC`. -/
structure TAPNIC where
  Name : String
deriving DecidableEq

/-- The struct `Peer`; `Port` is a `uint16`. -/
structure Peer where
  Name : String
  Hostname : String
  Port : Nat
deriving DecidableEq

/-- The struct `Port` of the configuration: both variants are always present
as values; a variant counts as defined when its name is not empty. -/
structure Port where
  TAPNIC : TAPNIC
  Peer : Peer
deriving DecidableEq

/-- `TAPNIC.Validate`; `none` is the nil error. -/
def TAPNIC.Validate (t : TAPNIC) : Option String :=
  if t.Name = "" then some "name is empty" else none

/-- `Peer.Validate`; `none` is the nil error. -/
def Peer.Validate (p : Peer) : Option String :=
  if p.Name = "" then some "name is empty"
  else if p.Hostname = "" then some "hostname is empty"
  else if p.Port = 0 then some "port is 0"
  else none

/-- `Port.Validate`; `none` is the nil error. -/
def Port.Validate (p : Port) : Option String :=
  if p.TAPNIC.Name ≠ "" ∧ p.Peer.Name ≠ "" then
    some "both tapnic and peer defined, choose one"
  else if p.TAPNIC.Name ≠ "" then
    match p.TAPNIC.Validate with
    | some err => some ("failed to validate tapnic with error: " ++ err)
    | none => none
  else if p.Peer.Name ≠ "" then
    match p.Peer.Validate with
    | some err => some ("failed to validate peer with error: " ++ err)
    | none => none
  else some "neither tapnic or peer name defined"

/-- Following the spec's wording ("exactly one of the two must be populated"):
the TAP variant of a port entry is populated when it is not the zero value,
that is, when its one field is set. -/
def TAPNIC.populated (t : TAPNIC) : Bool := decide (t.Name ≠ "")

/-- Following the spec's wording: the Peer variant of a port entry is populated
when it is not the zero value, that is, when one of its fields is set. -/
def Peer.populated (p : Peer) : Bool :=
  decide (p.Name ≠ "" ∨ p.Hostname ≠ "" ∨ p.Port ≠ 0)

/-- A port entry with a TAP name and a peer section that has a hostname and a
port but no name. -/
def examplePortBoth : Port :=
  { TAPNIC := { Name := "tap0" }, Peer := { Name := "", Hostname := "10.0.0.2", Port := 4000 } }

/-- The struct `Listener` of the configuration; `Port` is a `uint16`. -/
structure Listener where
  Hostname : String
  Port : Nat
deriving DecidableEq

/-- `Listener.Validate`; `none` is the nil error. -/
def Listener.Validate (l : Listener) : Option String :=
  if l.Hostname = "" then some "hostname is empty" else none

/-- The struct `Switch` of the configuration; `MTU` and `NetworkMTU` are
`uint16`. -/
structure Switch where
  Name : String
  MTU : Nat
  NetworkMTU : Nat
  Listener : Listener
  Ports : List Port
deriving DecidableEq

/-- The loop `for i, port := range s.Ports` of `Switch.Validate`, from index
`i` on: the first port error, with its index. -/
def validatePorts : Nat → List Port → Option String
  | _, [] => none
  | i, port :: rest =>
    match port.Validate with
    | some err =>
      some ("failed to validate port at index " ++ toString i ++ " with error: " ++ err)
    | none => validatePorts (i + 1) rest

/-- `Switch.Validate`; `none` is the nil error. -/
def Switch.Validate (s : Switch) : Option String :=
  if s.Name = "" then some "name is empty"
  else if s.MTU = 0 then some "mtu is 0"
  else if s.NetworkMTU = 0 then some "network_mtu is 0"
  else
    match s.Listener.Validate with
    | some err => some ("failed to validate listener with error: " ++ err)
    | none =>
      if s.Ports.length = 0 then some "no ports defined"
      else validatePorts 0 s.Ports

/-- A switch entry with one TAP port and the given network MTU. -/
def exampleSwitchConfig (networkMTU : Nat) : Switch :=
  { Name := "sw", MTU := 1500, NetworkMTU := networkMTU
    Listener := { Hostname := "0.0.0.0", Port := 4000 }
    Ports := [{ TAPNIC := { Name := "tap0" }, Peer := { Name := "", Hostname := "", Port := 0 } }] }

end Config

/-! ## internal/listener.go -/

/-- The errors that arise inside the receive loop and the session functions;
the loop logs them. -/
inductive ListenError where
  | unmarshal
  | mtuMismatch (got want : Nat)
  | networkMtuMismatch (got want : Nat)
  | invalidAckPayload
  | write
deriving DecidableEq, Repr

/-- The struct `listener`. The socket and the peer receiver are represented by
two records: `sent` holds the datagrams written to the socket (destination
address and packet), `registered` the Peer ports handed to
`receiver.AddPort`, both in order. `mtu` and `networkMTU` are `uint16`. -/
structure listener where
  mtu : Nat
  networkMTU : Nat
  alive : Bool
  addressToPeerId : SafeMap String String
  peerIdToAddress : SafeMap String String
  incomingPackages : SafeMap String (Queue Packet)
  sent : List (String × Packet)
  registered : List peer

/-- `NewListener`, once the address is resolved and the socket is open. -/
def NewListener (mtu networkMTU : Nat) : listener :=
  { mtu := mtu
    networkMTU := networkMTU
    alive := true
    addressToPeerId := SafeMap.empty
    peerIdToAddress := SafeMap.empty
    incomingPackages := SafeMap.empty
    sent := []
    registered := [] }

/-- `proto.Marshal` followed by `l.conn.WriteToUDP(b, addr)`; `sendOk` tells
whether the write succeeds. Marshalling a well-formed packet does not fail. -/
def listener.writeToUDP (l : listener) (sendOk : String → Packet → Bool) (addr : String)
    (p : Packet) : listener × Option ListenError :=
  if sendOk addr p then ({ l with sent := l.sent ++ [(addr, p)] }, none)
  else (l, some .write)

/-- `listener.Connect`: send one `HELO` to the (resolved) address. -/
def listener.Connect (l : listener) (sendOk : String → Packet → Bool) (addr : String) :
    listener × Option ListenError :=
  l.writeToUDP sendOk addr { type := .HELO, Payload := .Helo }

/-- `listener.establishSession`: send `INITIATE_SESSION` with the local MTUs. -/
def listener.establishSession (l : listener) (sendOk : String → Packet → Bool)
    (addr : String) : listener × Option ListenError :=
  l.writeToUDP sendOk addr
    { type := .INITIATE_SESSION, Payload := .InitiateSession l.mtu l.networkMTU }

/-- `listener.initiateSession`. `uuid` is the value of `uuid.New().String()`.
The payload is taken by an unchecked type assertion: `none` is its panic. -/
def listener.initiateSession (l : listener) (uuid : String)
    (sendOk : String → Packet → Bool) (p : Packet) (addr : String) :
    Option (listener × Option ListenError) :=
  match p.Payload with
  | .InitiateSession mtu networkMtu =>
    if mtu ≠ l.mtu then some (l, some (.mtuMismatch mtu l.mtu))
    else if networkMtu ≠ l.networkMTU then
      some (l, some (.networkMtuMismatch networkMtu l.networkMTU))
    else
      match l.writeToUDP sendOk addr { type := .ACK_SESSION, Payload := .AckSession uuid } with
      | (l1, some err) => some (l1, some err)
      | (l1, none) =>
        match l1.addressToPeerId.Get addr with
        | none => some (l1.establishSession sendOk addr)
        | some _ => some (l1, none)
  | _ => none

/-- `listener.ackSession`: the payload is taken by a checked type assertion;
on success the session is entered into the three maps and a Peer port is
handed to the receiver. -/
def listener.ackSession (l : listener) (p : Packet) (addr : String) :
    listener × Option ListenError :=
  match p.Payload with
  | .AckSession peerId =>
    ({ l with
        addressToPeerId := l.addressToPeerId.Set addr peerId
        peerIdToAddress := l.peerIdToAddress.Set peerId addr
        incomingPackages := l.incomingPackages.Set peerId (NewQueue 512)
        registered := l.registered ++ [NewPeer peerId l.networkMTU] }, none)
  | _ => (l, some .invalidAckPayload)

/-- What the receive loop gets from one `ReadFromUDP`: the sender's address, the
result of `proto.Unmarshal` (`none` when it fails), and what the environment
would answer during the iteration: the value of `uuid.New().String()` and
which socket writes succeed. -/
structure Datagram where
  addr : String
  packet : Option Packet
  uuid : String
  sendOk : String → Packet → Bool

/-- How one iteration of the receive loop ends: it reaches `continue` or the
end of the loop body (with the error it logged, if any), it is parked in
`queue.Add` on a full incoming queue, or it panics. -/
inductive Iteration where
  | next (l : listener) (err : Option ListenError)
  | blocked (l : listener)
  | panicked

/-- The body of the `for l.alive` loop of `listener.Listen` for one received
datagram. A type tag that is neither `ACK_SESSION`, `INITIATE_SESSION` nor
`HELO` takes the last branch, as `FRAGMENTED_DATA` does. -/
def listener.iteration (l : listener) (d : Datagram) : Iteration :=
  match d.packet with
  | none => .next l (some .unmarshal)
  | some p =>
    if p.type = .ACK_SESSION then
      .next (l.ackSession p d.addr).1 (l.ackSession p d.addr).2
    else if p.type = .INITIATE_SESSION then
      match l.initiateSession d.uuid d.sendOk p d.addr with
      | none => .panicked
      | some (l1, err) => .next l1 err
    else
      match l.addressToPeerId.Get d.addr with
      | none =>
        .next (l.establishSession d.sendOk d.addr).1 (l.establishSession d.sendOk d.addr).2
      | some peerId =>
        if p.type = .HELO then
          .next (l.establishSession d.sendOk d.addr).1 (l.establishSession d.sendOk d.addr).2
        else
          match l.incomingPackages.Get peerId with
          | none => .next l none
          | some queue =>
            match queue.Add p with
            | none => .blocked l
            | some queue1 =>
              .next { l with incomingPackages := l.incomingPackages.Set peerId queue1 } none

/-- The listener state in which `listener.Listen` stands after the given
datagrams have been received: the loop runs while `alive` holds and goes no
further once an iteration has panicked or is parked on a full queue. -/
def listener.Listen : listener → List Datagram → listener
  | l, [] => l
  | l, d :: rest =>
    if l.alive then
      match l.iteration d with
      | .next l1 _ => listener.Listen l1 rest
      | .blocked l1 => l1
      | .panicked => l
    else l

/-- The sessions acknowledged by a sequence of datagrams: address and peer-id
of every `ACK_SESSION` packet that carries an `AckSession` payload. -/
def acknowledged : List Datagram → List (String × String)
  | [] => []
  | d :: rest =>
    match d.packet with
    | some { type := .ACK_SESSION, Payload := .AckSession peerId } =>
      (d.addr, peerId) :: acknowledged rest
    | _ => acknowledged rest

/-- Modelled from the spec: what `proto.Unmarshal(buf[:n], &p)` makes of a
datagram that carries the encoding of `p`, after `ReadFromUDP` has read it into
`buf := make([]byte, l.networkMTU)`. A datagram that fits the buffer decodes to
`p`. A longer one is cut to `networkMTU` bytes. In the encoding a packet is its
type field (two bytes, every type tag being non-zero) followed by its one-of
member, a field that holds its own length: a cut after two bytes leaves a
packet with that type and no payload, a cut anywhere else falls inside a field
and fails to decode. (A buffer of no bytes, which the configuration rejects, is
outside the model.) -/
def listener.unmarshal (l : listener) (p : Packet) : Option Packet :=
  if p.encodedSize ≤ l.networkMTU then some p
  else if l.networkMTU = 2 then some { type := p.type, Payload := .unset }
  else none

/-- Two listeners joined by a link that delivers every datagram, in order:
the datagrams in flight towards each side. `addrA` and `addrB` are the
addresses under which each side sees the other. -/
structure Link where
  A : listener
  B : listener
  toA : List Packet
  toB : List Packet

/-- The packets a listener has written to `addr` since its `sent` record had
`before` entries. -/
def listener.sentSince (l : listener) (before : Nat) (addr : String) : List Packet :=
  ((l.sent.drop before).filter (fun x => x.1 == addr)).map Prod.snd

/-- One delivery on the link: the oldest datagram in flight is received by its
destination (towards `B` first, should both directions hold one) into its
buffer of `networkMTU` bytes, and what the receiver writes back is put in
flight. `uuid` is the receiver's next UUID. With nothing in flight, or when the
receiving iteration does not complete, the link stays as it is. -/
def Link.step (addrA addrB : String) (uuid : String) (n : Link) : Link :=
  match n.toB with
  | p :: rest =>
    match n.B.iteration
        { addr := addrA, packet := n.B.unmarshal p, uuid := uuid, sendOk := fun _ _ => true } with
    | .next b _ =>
      { n with B := b, toB := rest, toA := n.toA ++ b.sentSince n.B.sent.length addrA }
    | _ => n
  | [] =>
    match n.toA with
    | p :: rest =>
      match n.A.iteration
          { addr := addrB, packet := n.A.unmarshal p, uuid := uuid, sendOk := fun _ _ => true } with
      | .next a _ =>
        { n with A := a, toA := rest, toB := n.toB ++ a.sentSince n.A.sent.length addrB }
      | _ => n
    | [] => n

/-- The link after `k` deliveries, the `i`-th of which has `uuids i` as the
receiver's next UUID. -/
def Link.run (addrA addrB : String) (uuids : Nat → String) : Nat → Link → Link
  | 0, n => n
  | k + 1, n => Link.step addrA addrB (uuids k) (Link.run addrA addrB uuids k n)

/-- The link after `A`, freshly created like `B` with the same MTUs, has called
`Connect(B)`. -/
def Link.connected (mtu networkMTU : Nat) (addrB : String) : Link :=
  { A := ((NewListener mtu networkMTU).Connect (fun _ _ => true) addrB).1
    B := NewListener mtu networkMTU
    toA := []
    toB := (((NewListener mtu networkMTU).Connect (fun _ _ => true) addrB).1).sentSince 0 addrB }

/-- The state of an exchange in which no `ACK_SESSION` has been decoded: both
listeners have the given MTUs, neither holds a session for the other nor has
registered a port, and one direction is empty while the other holds `HELO`
(towards `B`), `INITIATE_SESSION`, or an `ACK_SESSION` with a 36-byte id
followed by `INITIATE_SESSION`. -/
def Link.Unacknowledged (mtu networkMTU : Nat) (addrA addrB : String) (n : Link) : Prop :=
  n.A.mtu = mtu ∧ n.A.networkMTU = networkMTU ∧ n.B.mtu = mtu ∧ n.B.networkMTU = networkMTU
  ∧ n.A.addressToPeerId.Get addrB = none ∧ n.B.addressToPeerId.Get addrA = none
  ∧ n.A.registered = [] ∧ n.B.registered = []
  ∧ ((n.toA = [] ∧ n.toB = [{ type := .HELO, Payload := .Helo }])
    ∨ (n.toA = []
        ∧ n.toB = [{ type := .INITIATE_SESSION, Payload := .InitiateSession mtu networkMTU }])
    ∨ (n.toA = [] ∧ ∃ id : String, id.utf8ByteSize = 36
        ∧ n.toB = [{ type := .ACK_SESSION, Payload := .AckSession id },
                   { type := .INITIATE_SESSION, Payload := .InitiateSession mtu networkMTU }])
    ∨ (n.toB = []
        ∧ n.toA = [{ type := .INITIATE_SESSION, Payload := .InitiateSession mtu networkMTU }])
    ∨ (n.toB = [] ∧ ∃ id : String, id.utf8ByteSize = 36
        ∧ n.toA = [{ type := .ACK_SESSION, Payload := .AckSession id },
                   { type := .INITIATE_SESSION, Payload := .InitiateSession mtu networkMTU }]))

/-- Two values of `uuid.New().String()` for the two sides of a handshake (the
second and the fourth delivery), and a third for every other delivery. -/
def exampleUuids (i : Nat) : String :=
  if i = 1 then "6ba7b810-9dad-41d1-80b4-00c04fd430c8"
  else if i = 3 then "6ba7b813-9dad-41d1-80b4-00c04fd430c8"
  else "6ba7b811-9dad-41d1-80b4-00c04fd430c8"

/-- A datagram carrying `ACK_SESSION(id)` from `addr`, in an environment where
every write succeeds. -/
def ackDatagram (addr id : String) : Datagram :=
  { addr := addr
    packet := some { type := .ACK_SESSION, Payload := .AckSession id }
    uuid := "00000000-0000-4000-8000-000000000000"
    sendOk := fun _ _ => true }

/-- The two address maps of a listener are inverse to each other, and every
session they hold is one of `sessions`. -/
def listener.MapsInverse (l : listener) (sessions : List (String × String)) : Prop :=
  (∀ a id, l.addressToPeerId.Get a = some id →
      (a, id) ∈ sessions ∧ l.peerIdToAddress.Get id = some a)
  ∧ (∀ id a, l.peerIdToAddress.Get id = some a →
      (a, id) ∈ sessions ∧ l.addressToPeerId.Get a = some id)

/-! ## Successive writes on a peer -/

/-- Successive calls of `peer.Write`, one per frame: the peer afterwards and,
for each call, the packets it passed to `listener.Write`. The switch goes on
to the next frame only when the call has returned; a failed send ends that
`Write` early but is not the end of the sequence here. -/
def peer.Writes (p : peer) (sendOk : Packet → Bool) :
    List Frame → Option (peer × List (List Packet))
  | [] => some (p, [])
  | frame :: rest =>
    match p.Write frame sendOk with
    | none => none
    | some (p1, sent, _) =>
      match peer.Writes p1 sendOk rest with
      | none => none
      | some (p2, more) => some (p2, sent :: more)

/-! # Theorems -/

/-! ## `SafeMap` -/

theorem SafeMap.Get_Set_self {K V : Type} [DecidableEq K] (m : SafeMap K V) (key : K) (value : V) :
    (m.Set key value).Get key = some value := by
  simp [SafeMap.Get, SafeMap.Set]

theorem SafeMap.Get_Set_ne {K V : Type} [DecidableEq K] (m : SafeMap K V) {key k : K} (value : V)
    (h : k ≠ key) : (m.Set key value).Get k = m.Get k := by
  simp [SafeMap.Get, SafeMap.Set, h]

theorem SafeMap.Get_Delete_self {K V : Type} [DecidableEq K] (m : SafeMap K V) (key : K) :
    (m.Delete key).Get key = none := by
  simp [SafeMap.Get, SafeMap.Delete]

theorem SafeMap.Get_Delete_ne {K V : Type} [DecidableEq K] (m : SafeMap K V) {key k : K}
    (h : k ≠ key) : (m.Delete key).Get k = m.Get k := by
  simp [SafeMap.Get, SafeMap.Delete, h]

theorem SafeMap.Delete_Set {K V : Type} [DecidableEq K] (m : SafeMap K V) (key : K) (value : V) :
    (m.Set key value).Delete key = m.Delete key := by
  funext k
  by_cases h : k = key <;> simp [SafeMap.Delete, SafeMap.Set, h]

theorem SafeMap.Delete_absent {K V : Type} [DecidableEq K] (m : SafeMap K V) (key : K)
    (h : m.Get key = none) : m.Delete key = m := by
  funext k
  by_cases hk : k = key
  · subst hk
    simpa [SafeMap.Delete, SafeMap.Get] using h.symm
  · simp [SafeMap.Delete, hk]

/-! ## Fragmentation: the closed form of `peer.fragment` -/

theorem slice_chunk (frame : List Byte) (i m : Nat) :
    slice frame i (if i + m > frame.length then frame.length else i + m)
      = (frame.drop i).take m := by
  unfold slice
  split
  · rw [List.take_of_length_le (by simp), List.take_of_length_le (by simp; omega)]
  · congr 1
    omega

theorem lt_fragmentCount {m : Nat} (hm : 0 < m) (len j : Nat) :
    j < fragmentCount m len ↔ j * m < len := by
  unfold fragmentCount
  rw [Nat.lt_iff_add_one_le, Nat.le_div_iff_mul_le hm, Nat.add_mul]
  omega

theorem fragmentCount_le {m : Nat} (hm : 0 < m) (len : Nat) : fragmentCount m len ≤ len := by
  unfold fragmentCount
  have h1 : len ≤ len * m := Nat.le_mul_of_pos_right len hm
  have h2 : (len + m - 1) / m < len + 1 := by
    rw [Nat.div_lt_iff_lt_mul hm, Nat.add_mul]
    omega
  omega

theorem fragmentLoop_eq (m : Nat) (frame : Frame) (packetId : Nat) (hm : 0 < m) :
    ∀ (fuel j : Nat) (acc : List Packet), fragmentCount m frame.length - j < fuel →
      j ≤ fragmentCount m frame.length →
      fragmentLoop m frame packetId fuel (j * m) (j % u32) acc
        = some (acc ++ (List.range' j (fragmentCount m frame.length - j)).map
                  (fragmentAt m frame packetId 0),
                fragmentCount m frame.length % u32) := by
  intro fuel
  induction fuel with
  | zero =>
    intro j acc hfuel hj
    omega
  | succ fuel ih =>
    intro j acc hfuel hj
    unfold fragmentLoop
    by_cases hlt : j * m < frame.length
    · have hjlt : j < fragmentCount m frame.length := (lt_fragmentCount hm _ j).mpr hlt
      rw [if_pos hlt]
      simp only []
      have hstep : j * m + m = (j + 1) * m := by rw [Nat.add_mul]; omega
      have hk : (j % u32 + 1) % u32 = (j + 1) % u32 := by
        rw [Nat.add_mod, Nat.mod_mod, ← Nat.add_mod]
      rw [slice_chunk, hstep, hk, ih (j + 1) _ (by omega) (by omega)]
      have hcnt : fragmentCount m frame.length - j
          = (fragmentCount m frame.length - (j + 1)) + 1 := by omega
      rw [hcnt, List.range'_succ, List.map_cons, List.append_assoc]
      rfl
    · rw [if_neg hlt]
      have hge : ¬ j < fragmentCount m frame.length :=
        (lt_fragmentCount hm _ j).not.mpr hlt
      have hjeq : j = fragmentCount m frame.length := by omega
      rw [← hjeq]
      simp

theorem forEach_setFragmentMax (m : Nat) (frame : Frame) (packetId k : Nat) (ts : List Nat) :
    forEach (setFragmentMax k) (ts.map (fragmentAt m frame packetId 0))
      = some (ts.map (fragmentAt m frame packetId k)) := by
  induction ts with
  | nil => rfl
  | cons t ts ih =>
    simp only [List.map_cons, forEach, ih]
    rfl

/-- Closed form of `peer.fragment` for a positive max payload: the call returns,
advances the packet-id counter and yields the fragments of indices
`0 .. ⌈len / m⌉ - 1`. -/
theorem fragment_eq (p : peer) (frame : Frame) (hm : 0 < p.maxPayloadSize) :
    p.fragment frame
      = some ({ p with packedId := (p.packedId + 1) % u32 },
          (List.range (fragmentCount p.maxPayloadSize frame.length)).map
            (fragmentAt p.maxPayloadSize frame p.packedId
              (fragmentCount p.maxPayloadSize frame.length % u32))) := by
  have h := fragmentLoop_eq p.maxPayloadSize frame p.packedId hm (frame.length + 1) 0 []
    (by have := fragmentCount_le hm frame.length; omega) (Nat.zero_le _)
  simp only [Nat.zero_mul, Nat.zero_mod, Nat.sub_zero, List.nil_append] at h
  unfold peer.fragment
  simp only [h, forEach_setFragmentMax, List.range_eq_range']

/-- An empty frame never enters the slicing loop. -/
theorem fragment_nil (p : peer) :
    p.fragment [] = some ({ p with packedId := (p.packedId + 1) % u32 }, []) := by
  rfl

theorem fragmentCount_eq_one {m len : Nat} (hm : 0 < m) (h0 : 0 < len) (h1 : len ≤ m) :
    fragmentCount m len = 1 := by
  have a := lt_fragmentCount hm len 0
  have b := lt_fragmentCount hm len 1
  omega

theorem fragmentCount_eq_two {m len : Nat} (hm : 0 < m) (h0 : m < len) (h1 : len ≤ 2 * m) :
    fragmentCount m len = 2 := by
  have a := lt_fragmentCount hm len 1
  have b := lt_fragmentCount hm len 2
  omega

theorem fragmentCount_bounds {m len : Nat} (hm : 0 < m) (h0 : 0 < len) :
    (fragmentCount m len - 1) * m < len ∧ len ≤ fragmentCount m len * m := by
  have a := lt_fragmentCount hm len (fragmentCount m len - 1)
  have b := lt_fragmentCount hm len (fragmentCount m len)
  have c := lt_fragmentCount hm len 0
  omega

theorem flatten_chunks (frame : List Byte) (m n : Nat) :
    ((List.range n).map (fun t => (frame.drop (t * m)).take m)).flatten
      = frame.take (n * m) := by
  induction n with
  | zero => simp
  | succ n ih =>
    rw [List.range_succ, List.map_append, List.flatten_append, ih, Nat.add_mul, Nat.one_mul,
      List.take_add]
    simp

theorem payloadsOf_fragments (m : Nat) (frame : Frame) (packetId k : Nat) (ts : List Nat) :
    payloadsOf (ts.map (fragmentAt m frame packetId k))
      = (ts.map (fun t => (frame.drop (t * m)).take m)).flatten := by
  unfold payloadsOf
  congr 1
  induction ts with
  | nil => rfl
  | cons t ts ih =>
    simp only [List.map_cons, List.filterMap_cons]
    rw [show (fragmentAt m frame packetId k t).fragmentedData
        = some (fragmentDataAt m frame packetId k t) from rfl]
    simp only [List.map_cons, ih, fragmentDataAt]

theorem payloadsOf_fragment_list {m : Nat} (hm : 0 < m) (frame : Frame) (packetId k : Nat) :
    payloadsOf ((List.range (fragmentCount m frame.length)).map (fragmentAt m frame packetId k))
      = frame := by
  rw [payloadsOf_fragments, flatten_chunks]
  apply List.take_of_length_le
  by_cases h0 : 0 < frame.length
  · exact (fragmentCount_bounds hm h0).2
  · omega

/-! ## Claims on `peer.fragment` -/

/-- C3, as stated, fails: for the zero-length frame a peer built by
`NewPeer` for a network MTU of 1400 returns the empty list, not one packet with
an empty payload and `fragment_max = 1`; the slicing loop is never entered. -/
theorem zero_length_frame_not_one_fragment :
    ((NewPeer "peer" 1400).fragment []).map Prod.snd = some []
    ∧ ¬ ∃ (p1 : peer) (fd : FragmentedData),
        (NewPeer "peer" 1400).fragment []
            = some (p1, [{ type := .FRAGMENTED_DATA, Payload := .FragmentedData fd }])
          ∧ fd.Payload = [] ∧ fd.FragmentMax = 1 := by
  refine ⟨rfl, ?_⟩
  rintro ⟨p1, fd, h, -⟩
  rw [fragment_nil] at h
  simp at h

/-- C3, amended: for a zero-length frame `peer.fragment` returns no packet
at all (the packet-id counter still advances), and `peer.Write` passes nothing
to the listener and returns a nil error. -/
theorem zero_length_frame_no_fragment (p : peer) (sendOk : Packet → Bool) :
    p.fragment [] = some ({ p with packedId := (p.packedId + 1) % u32 }, [])
      ∧ p.Write [] sendOk = some ({ p with packedId := (p.packedId + 1) % u32 }, [], true) :=
  ⟨rfl, rfl⟩

/-- C4: with max payload `m ≥ 1` and a frame of `L ≥ 1` bytes,
`peer.fragment` returns and yields exactly `⌈L / m⌉` fragments, that is the
number `n = (L + m - 1) / m` with `(n - 1) * m < L ≤ n * m`; a frame of exactly
`m` bytes yields one fragment with `fragment_max = 1`, a frame of `m + 1` bytes
yields two fragments. -/
theorem fragment_count (p : peer) (frame : Frame) (hm : 1 ≤ p.maxPayloadSize)
    (hL : 1 ≤ frame.length) :
    ∃ (p1 : peer) (fragments : List Packet),
      p.fragment frame = some (p1, fragments)
      ∧ fragments.length = (frame.length + p.maxPayloadSize - 1) / p.maxPayloadSize
      ∧ (fragments.length - 1) * p.maxPayloadSize < frame.length
      ∧ frame.length ≤ fragments.length * p.maxPayloadSize
      ∧ (frame.length = p.maxPayloadSize →
          ∃ fd, fragments = [{ type := .FRAGMENTED_DATA, Payload := .FragmentedData fd }]
            ∧ fd.FragmentMax = 1)
      ∧ (frame.length = p.maxPayloadSize + 1 → fragments.length = 2) := by
  refine ⟨_, _, fragment_eq p frame hm, ?_, ?_, ?_, ?_, ?_⟩
  · simp [fragmentCount]
  · simpa using (fragmentCount_bounds hm hL).1
  · simpa using (fragmentCount_bounds hm hL).2
  · intro h
    rw [fragmentCount_eq_one hm hL (by omega)]
    exact ⟨_, rfl, rfl⟩
  · intro h
    rw [fragmentCount_eq_two hm (by omega) (by omega)]
    rfl

/-- Witness for C4: a network MTU of 30 gives a max payload of 8, and a frame
of 17 bytes is cut into 3 fragments. -/
theorem fragment_count_witness :
    ∃ (p1 : peer) (fragments : List Packet),
      (NewPeer "peer" 30).fragment (List.replicate 17 0) = some (p1, fragments)
      ∧ fragments.length = (17 + 8 - 1) / 8
      ∧ (fragments.length - 1) * 8 < 17
      ∧ 17 ≤ fragments.length * 8
      ∧ ((17 : Nat) = 8 →
          ∃ fd, fragments = [{ type := .FRAGMENTED_DATA, Payload := .FragmentedData fd }]
            ∧ fd.FragmentMax = 1)
      ∧ ((17 : Nat) = 8 + 1 → fragments.length = 2) :=
  fragment_count (NewPeer "peer" 30) (List.replicate 17 0) (by decide) (by decide)

/-- C5, as stated, fails once the fragment counter wraps: with a max payload
of 1 (network MTU 23) a frame of `2 ^ 32` bytes is cut into `2 ^ 32` fragments,
and the `uint32` counter `k` stored into `fragment_max` has wrapped to 0, so
every packet carries `fragment_max = 0`, not the length of the list. -/
theorem fragment_max_wraps :
    ∃ (p1 : peer) (fragments : List Packet),
      (NewPeer "peer" 23).fragment (List.replicate (2 ^ 32) 0) = some (p1, fragments)
      ∧ fragments.length = 2 ^ 32
      ∧ ∀ pack ∈ fragments, ∃ fd, pack.fragmentedData = some fd ∧ fd.FragmentMax = 0 := by
  have hm : (NewPeer "peer" 23).maxPayloadSize = 1 := by decide
  have hcnt : fragmentCount 1 (List.replicate (2 ^ 32) (0 : Byte)).length = 2 ^ 32 := by
    rw [List.length_replicate]
    simp [fragmentCount]
  refine ⟨_, _, fragment_eq _ _ (by rw [hm]; decide), ?_, ?_⟩
  · rw [hm, hcnt, List.length_map, List.length_range]
  · intro pack hpack
    rw [hm, hcnt] at hpack
    obtain ⟨t, -, rfl⟩ := List.mem_map.mp hpack
    exact ⟨_, rfl, by norm_num [fragmentDataAt, u32]⟩

/-- C5, amended: with max payload `m ≥ 1` and a frame cut into fewer than
`2 ^ 32` fragments, `peer.fragment` returns a list in which the packet at
position `i` is a `FRAGMENTED_DATA` packet with the peer's current packet-id,
fragment index `i`, `fragment_max` equal to the length of the list and a
payload of at most `m` bytes, and the payloads concatenated in list order are
the frame. -/
theorem fragment_list_shape (p : peer) (frame : Frame) (hm : 1 ≤ p.maxPayloadSize)
    (hcount : (frame.length + p.maxPayloadSize - 1) / p.maxPayloadSize < 2 ^ 32) :
    ∃ (p1 : peer) (fragments : List Packet),
      p.fragment frame = some (p1, fragments)
      ∧ (∀ (i : Nat) (h : i < fragments.length), ∃ fd,
          fragments[i] = { type := .FRAGMENTED_DATA, Payload := .FragmentedData fd }
          ∧ fd.Id = p.packedId ∧ fd.Fragment = i ∧ fd.FragmentMax = fragments.length
          ∧ fd.Payload.length ≤ p.maxPayloadSize)
      ∧ payloadsOf fragments = frame := by
  refine ⟨_, _, fragment_eq p frame hm, ?_, payloadsOf_fragment_list hm frame _ _⟩
  intro i h
  have hi : i < fragmentCount p.maxPayloadSize frame.length := by simpa using h
  have hc : fragmentCount p.maxPayloadSize frame.length < u32 := hcount
  refine ⟨fragmentDataAt p.maxPayloadSize frame p.packedId
      (fragmentCount p.maxPayloadSize frame.length % u32) i, ?_, rfl, ?_, ?_, ?_⟩
  · rw [List.getElem_map, List.getElem_range]
    rfl
  · exact Nat.mod_eq_of_lt (by omega)
  · simp only [List.length_map, List.length_range]
    exact Nat.mod_eq_of_lt hc
  · simp only [fragmentDataAt, List.length_take]
    omega

/-- Witness for C5: max payload 8 (network MTU 30), a frame of 17 bytes. -/
theorem fragment_list_shape_witness :
    ∃ (p1 : peer) (fragments : List Packet),
      (NewPeer "peer" 30).fragment (List.replicate 17 0) = some (p1, fragments)
      ∧ (∀ (i : Nat) (h : i < fragments.length), ∃ fd,
          fragments[i] = { type := .FRAGMENTED_DATA, Payload := .FragmentedData fd }
          ∧ fd.Id = 0 ∧ fd.Fragment = i ∧ fd.FragmentMax = fragments.length
          ∧ fd.Payload.length ≤ 8)
      ∧ payloadsOf fragments = List.replicate 17 0 :=
  fragment_list_shape (NewPeer "peer" 30) (List.replicate 17 0) (by decide) (by decide)

/-! ## Reassembly: `findCompleteFrame`, `deFragmentFrame`, `Read` -/

theorem forEach_eq_map {α β : Type} (f : α → Option β) (g : α → β) :
    ∀ l : List α, (∀ x ∈ l, f x = some (g x)) → forEach f l = some (l.map g) := by
  intro l
  induction l with
  | nil => intro _; rfl
  | cons a l ih =>
    intro h
    simp only [forEach, h a (List.mem_cons_self a l),
      ih (fun x hx => h x (List.mem_cons_of_mem a hx)), List.map_cons]

theorem forEach_fragmentedData (l : List Packet)
    (h : ∀ x ∈ l, (x.fragmentedData).isSome = true) :
    forEach Packet.fragmentedData l = some (l.map Packet.fragmentedDataD) := by
  apply forEach_eq_map
  intro x hx
  have := h x hx
  unfold Packet.fragmentedDataD
  cases hfd : x.fragmentedData with
  | none => rw [hfd] at this; cases this
  | some fd => rfl

theorem forEach_some_map {α β : Type} (f : α → Option β) :
    ∀ (l : List α) (l2 : List β), forEach f l = some l2 → l.map f = l2.map some := by
  intro l
  induction l with
  | nil =>
    intro l2 h
    simp only [forEach, Option.some.injEq] at h
    subst h
    rfl
  | cons a l ih =>
    intro l2 h
    unfold forEach at h
    cases hfa : f a with
    | none => rw [hfa] at h; cases h
    | some b =>
      rw [hfa] at h
      cases hrest : forEach f l with
      | none => rw [hrest] at h; cases h
      | some bs =>
        rw [hrest] at h
        simp only [Option.some.injEq] at h
        subst h
        simp only [List.map_cons, hfa, ih bs hrest]

theorem findCompleteEntry_cons (m : SafeMap Nat (List Packet)) (k : Nat) (rest : List Nat) :
    findCompleteEntry m (k :: rest)
      = match m.Get k with
        | none => findCompleteEntry m rest
        | some [] => findCompleteEntry m rest
        | some (first :: more) =>
          match first.fragmentedData with
          | none => none
          | some fd =>
            if (first :: more).length % u32 ≥ fd.FragmentMax then
              some (some (k, first :: more))
            else findCompleteEntry m rest := rfl

/-- What `findCompleteEntry` hands to `deFragmentFrame` is a complete entry of
the buffer, stored under one of the visited keys. -/
theorem findCompleteEntry_sound (m : SafeMap Nat (List Packet)) :
    ∀ (keys : List Nat) (packetId : Nat) (fragments : List Packet),
      findCompleteEntry m keys = some (some (packetId, fragments)) →
      packetId ∈ keys ∧ m.Get packetId = some fragments ∧ entryComplete fragments = true := by
  intro keys
  induction keys with
  | nil => intro packetId fragments h; simp [findCompleteEntry] at h
  | cons k rest ih =>
    intro packetId fragments h
    rw [findCompleteEntry_cons] at h
    cases hget : m.Get k with
    | none =>
      rw [hget] at h
      obtain ⟨h1, h2⟩ := ih _ _ h
      exact ⟨List.mem_cons_of_mem _ h1, h2⟩
    | some entry =>
      rw [hget] at h
      cases entry with
      | nil =>
        obtain ⟨h1, h2⟩ := ih _ _ h
        exact ⟨List.mem_cons_of_mem _ h1, h2⟩
      | cons first more =>
        simp only [] at h
        cases hfd : first.fragmentedData with
        | none => rw [hfd] at h; cases h
        | some fd =>
          rw [hfd] at h
          simp only [] at h
          by_cases hc : (first :: more).length % u32 ≥ fd.FragmentMax
          · rw [if_pos hc] at h
            simp only [Option.some.injEq, Prod.mk.injEq] at h
            obtain ⟨rfl, rfl⟩ := h
            refine ⟨List.mem_cons_self _ _, hget, ?_⟩
            simp only [entryComplete, hfd]
            exact decide_eq_true hc
          · rw [if_neg hc] at h
            obtain ⟨h1, h2⟩ := ih _ _ h
            exact ⟨List.mem_cons_of_mem _ h1, h2⟩

/-- With only `FRAGMENTED_DATA` packets at the head of the entries, the scan
does not panic; it finds nothing exactly when no visited entry is complete. -/
theorem findCompleteEntry_complete (m : SafeMap Nat (List Packet))
    (hfd : ∀ k first more, m.Get k = some (first :: more) →
      (first.fragmentedData).isSome = true) :
    ∀ keys : List Nat,
      ((∀ k ∈ keys, ∀ fragments, m.Get k = some fragments → entryComplete fragments = false) →
        findCompleteEntry m keys = some none)
      ∧ ((∃ k ∈ keys, ∃ fragments, m.Get k = some fragments ∧ entryComplete fragments = true) →
        ∃ packetId fragments, findCompleteEntry m keys = some (some (packetId, fragments))) := by
  intro keys
  induction keys with
  | nil =>
    refine ⟨fun _ => rfl, ?_⟩
    rintro ⟨k, hk, -⟩
    cases hk
  | cons k rest ih =>
    have hstep : (∃ fragments, m.Get k = some fragments ∧ entryComplete fragments = true
          ∧ findCompleteEntry m (k :: rest) = some (some (k, fragments)))
        ∨ ((∀ fragments, m.Get k = some fragments → entryComplete fragments = false)
          ∧ findCompleteEntry m (k :: rest) = findCompleteEntry m rest) := by
      rw [findCompleteEntry_cons]
      cases hget : m.Get k with
      | none => exact Or.inr ⟨fun _ h => (by cases h), rfl⟩
      | some entry =>
        cases entry with
        | nil =>
          refine Or.inr ⟨fun _ h => ?_, rfl⟩
          simp only [Option.some.injEq] at h
          subst h
          rfl
        | cons first more =>
          have h1 := hfd k first more hget
          simp only []
          cases hf : first.fragmentedData with
          | none => rw [hf] at h1; cases h1
          | some fd =>
            simp only []
            by_cases hc : (first :: more).length % u32 ≥ fd.FragmentMax
            · refine Or.inl ⟨_, rfl, ?_, ?_⟩
              · simp only [entryComplete, hf]
                exact decide_eq_true hc
              · rw [if_pos hc]
            · refine Or.inr ⟨fun _ h => ?_, ?_⟩
              · simp only [Option.some.injEq] at h
                subst h
                simp only [entryComplete, hf]
                exact decide_eq_false hc
              · rw [if_neg hc]
    rcases hstep with ⟨fragments, hget, hcomp, hres⟩ | ⟨hk, hres⟩
    · refine ⟨fun hall => ?_, fun _ => ⟨_, _, hres⟩⟩
      have := hall k (List.mem_cons_self _ _) fragments hget
      rw [this] at hcomp
      cases hcomp
    · rw [hres]
      refine ⟨fun hall => ih.1 (fun k2 hk2 => hall k2 (List.mem_cons_of_mem _ hk2)), ?_⟩
      rintro ⟨k2, hk2, fragments, hget, hcomp⟩
      rcases List.mem_cons.mp hk2 with rfl | hk2
      · rw [hk fragments hget] at hcomp
        cases hcomp
      · exact ih.2 ⟨k2, hk2, fragments, hget, hcomp⟩

theorem findCompleteFrame_none (p : peer) (keys : List Nat)
    (h : findCompleteEntry p.fragmentedPackets keys = some none) :
    p.findCompleteFrame keys = some ([], p) := by
  simp only [peer.findCompleteFrame, h]

theorem findCompleteFrame_some (p : peer) (keys : List Nat) (packetId : Nat)
    (fragments : List Packet)
    (h : findCompleteEntry p.fragmentedPackets keys = some (some (packetId, fragments)))
    (hall : ∀ x ∈ fragments, (x.fragmentedData).isSome = true) :
    p.findCompleteFrame keys
      = some ((((fragments.map Packet.fragmentedDataD).insertionSort fragmentLE).map
            FragmentedData.Payload).flatten,
          { p with fragmentedPackets := p.fragmentedPackets.Delete packetId }) := by
  simp only [peer.findCompleteFrame, h, peer.deFragmentFrame, forEach_fragmentedData _ hall]

theorem read_cons_frame (p : peer) (pack : Packet) (fd : FragmentedData) (keys : List Nat)
    (rest : List (Packet × List Nat)) (frame : Frame) (p2 : peer)
    (hpack : pack.fragmentedData = some fd)
    (h : (p.buffer pack fd).findCompleteFrame keys = some (frame, p2)) (hframe : frame ≠ []) :
    p.Read ((pack, keys) :: rest) = .frame frame p2 rest := by
  simp only [peer.Read, hpack, h, if_neg hframe]

theorem read_cons_none (p : peer) (pack : Packet) (fd : FragmentedData) (keys : List Nat)
    (rest : List (Packet × List Nat)) (p2 : peer)
    (hpack : pack.fragmentedData = some fd)
    (h : (p.buffer pack fd).findCompleteFrame keys = some ([], p2)) :
    p.Read ((pack, keys) :: rest) = p2.Read rest := by
  simp only [peer.Read, hpack, h, if_true]

theorem entryComplete_iff (fragments : List Packet) :
    entryComplete fragments = true ↔
      ∃ first more fd, fragments = first :: more ∧ first.fragmentedData = some fd
        ∧ fd.FragmentMax ≤ fragments.length % u32 := by
  constructor
  · intro h
    cases fragments with
    | nil => simp [entryComplete] at h
    | cons first more =>
      cases hfd : first.fragmentedData with
      | none => simp [entryComplete, hfd] at h
      | some fd =>
        simp only [entryComplete, hfd, decide_eq_true_eq] at h
        exact ⟨first, more, fd, rfl, hfd, h⟩
  · rintro ⟨first, more, fd, rfl, hfd, h⟩
    simp only [entryComplete, hfd, decide_eq_true_eq]
    exact h

/-- The fragments of one frame, in any order, sort back into index order. -/
theorem insertionSort_fragments (m : Nat) (frame : Frame) (packetId k n : Nat) (hn : n ≤ u32)
    (l : List FragmentedData)
    (hperm : l.Perm ((List.range n).map (fragmentDataAt m frame packetId k))) :
    l.insertionSort fragmentLE = (List.range n).map (fragmentDataAt m frame packetId k) := by
  haveI : IsTotal FragmentedData fragmentLE := ⟨fun a b => Nat.le_total a.Fragment b.Fragment⟩
  haveI : IsTrans FragmentedData fragmentLE :=
    ⟨fun a b c (h1 : a.Fragment ≤ b.Fragment) (h2 : b.Fragment ≤ c.Fragment) =>
      Nat.le_trans h1 h2⟩
  haveI : IsAntisymm FragmentedData (fun a b => a.Fragment < b.Fragment) :=
    ⟨fun a b h1 h2 => absurd h1 (Nat.lt_asymm h2)⟩
  have hs1 : (l.insertionSort fragmentLE).Pairwise fragmentLE :=
    List.sorted_insertionSort fragmentLE l
  have hp1 : (l.insertionSort fragmentLE).Perm
      ((List.range n).map (fragmentDataAt m frame packetId k)) :=
    (List.perm_insertionSort fragmentLE l).trans hperm
  have hcs : ((List.range n).map (fragmentDataAt m frame packetId k)).Pairwise
      (fun a b => a.Fragment < b.Fragment) := by
    rw [List.pairwise_map]
    refine (List.pairwise_lt_range n).imp_of_mem ?_
    intro a b ha hb hab
    have ha2 := List.mem_range.mp ha
    have hb2 := List.mem_range.mp hb
    show a % u32 < b % u32
    rw [Nat.mod_eq_of_lt (by omega), Nat.mod_eq_of_lt (by omega)]
    exact hab
  have hne : ((List.range n).map (fragmentDataAt m frame packetId k)).Pairwise
      (fun a b => a.Fragment ≠ b.Fragment) := hcs.imp (fun h => Nat.ne_of_lt h)
  have hne1 : (l.insertionSort fragmentLE).Pairwise (fun a b => a.Fragment ≠ b.Fragment) :=
    (hp1.pairwise_iff (fun h => Ne.symm h)).mpr hne
  have hs2 : (l.insertionSort fragmentLE).Pairwise (fun a b => a.Fragment < b.Fragment) :=
    (hs1.and hne1).imp (fun h => Nat.lt_of_le_of_ne h.1 h.2)
  exact List.eq_of_perm_of_sorted hp1 hs2 hcs

theorem payloads_fragmentDataAt {m : Nat} (hm : 0 < m) (frame : Frame) (packetId k : Nat) :
    (((List.range (fragmentCount m frame.length)).map
        (fragmentDataAt m frame packetId k)).map FragmentedData.Payload).flatten = frame := by
  have h := payloadsOf_fragment_list hm frame packetId k
  rw [payloadsOf_fragments] at h
  rw [List.map_map]
  exact h

/-- The scan of a buffer in which only the entry of `packetId` can be complete:
that entry is found as soon as it holds `n` fragments and its key is visited. -/
theorem findCompleteEntry_target (B : SafeMap Nat (List Packet)) (packetId n : Nat)
    (got : List Packet) (hne : got ≠ [])
    (hB : ∀ k first more, k ≠ packetId → B.Get k = some (first :: more) →
      ∃ fd, first.fragmentedData = some fd ∧ (first :: more).length % u32 < fd.FragmentMax)
    (hgot : ∀ x ∈ got, ∃ fd, x.fragmentedData = some fd ∧ fd.FragmentMax = n)
    (hlen : got.length < u32) :
    ∀ keys : List Nat,
      findCompleteEntry (B.Set packetId got) keys
        = if n ≤ got.length ∧ packetId ∈ keys then some (some (packetId, got)) else some none := by
  intro keys
  induction keys with
  | nil => simp [findCompleteEntry]
  | cons k rest ih =>
    rw [findCompleteEntry_cons]
    by_cases hk : k = packetId
    · subst hk
      rw [SafeMap.Get_Set_self]
      cases got with
      | nil => exact absurd rfl hne
      | cons first more =>
        obtain ⟨fd, hfd, hmax⟩ := hgot first (List.mem_cons_self _ _)
        have hmod : (more.length + 1) % u32 = more.length + 1 :=
          Nat.mod_eq_of_lt (by simpa using hlen)
        simp only [hfd, hmax, List.length_cons, hmod, ge_iff_le]
        simp only [List.length_cons] at ih
        by_cases hc : n ≤ more.length + 1
        · simp [hc]
        · simp [hc, ih]
    · rw [SafeMap.Get_Set_ne _ _ hk, ih]
      have hmem : (packetId ∈ k :: rest) ↔ packetId ∈ rest := by
        simp [List.mem_cons, Ne.symm hk]
      cases hget : B.Get k with
      | none => simp only [hmem]
      | some entry =>
        cases entry with
        | nil => simp only [hmem]
        | cons first more =>
          obtain ⟨fd, hfd, hlt⟩ := hB k first more hk hget
          simp only [hfd, hmem]
          rw [if_neg (by omega)]

/-- Reassembly of the fragments of one frame arriving in any order: `Read`
buffers them until the last one arrives and then returns the frame. -/
theorem read_collects {m : Nat} (hm : 0 < m) (frame : Frame) (packetId n : Nat)
    (hn : n = fragmentCount m frame.length) (hn32 : n < u32) :
    ∀ (arrivals : List (Packet × List Nat)) (got : List Packet) (r : peer),
      (r.fragmentedPackets.Get packetId).getD [] = got →
      (∀ k first more, k ≠ packetId → r.fragmentedPackets.Get k = some (first :: more) →
        ∃ fd, first.fragmentedData = some fd ∧ (first :: more).length % u32 < fd.FragmentMax) →
      (got ++ arrivals.map Prod.fst).Perm ((List.range n).map (fragmentAt m frame packetId n)) →
      (∀ a ∈ arrivals, packetId ∈ a.2) →
      arrivals ≠ [] →
      r.Read arrivals
        = .frame frame { r with fragmentedPackets := r.fragmentedPackets.Delete packetId } [] := by
  intro arrivals
  induction arrivals with
  | nil => intro got r _ _ _ _ hne; exact absurd rfl hne
  | cons a rest ih =>
    obtain ⟨pack, keys⟩ := a
    intro got r hget hothers hperm hsnap _
    have hcanon : ∀ x ∈ got ++ [pack] ++ rest.map Prod.fst,
        ∃ fd, x.fragmentedData = some fd ∧ fd.FragmentMax = n ∧ fd.Id = packetId := by
      intro x hx
      have hx2 : x ∈ (List.range n).map (fragmentAt m frame packetId n) := by
        apply hperm.subset
        simpa using hx
      obtain ⟨t, -, rfl⟩ := List.mem_map.mp hx2
      exact ⟨_, rfl, rfl, rfl⟩
    obtain ⟨fd, hpack, -, hid⟩ := hcanon pack (by simp)
    have hlen : (got ++ [pack]).length + rest.length = n := by
      have := hperm.length_eq
      simp only [List.length_append, List.length_map, List.length_cons, List.length_range] at this
      simp only [List.length_append, List.length_cons, List.length_nil]
      omega
    have hbuf : (r.buffer pack fd).fragmentedPackets
        = r.fragmentedPackets.Set packetId (got ++ [pack]) := by
      simp only [peer.buffer, hid, hget]
    have hentry := findCompleteEntry_target r.fragmentedPackets packetId n (got ++ [pack])
      (by simp) hothers
      (fun x hx => by
        obtain ⟨fd2, h1, h2, -⟩ := hcanon x (by simp at hx ⊢; tauto)
        exact ⟨fd2, h1, h2⟩)
      (by omega) keys
    rw [← hbuf] at hentry
    cases rest with
    | nil =>
      have hk : packetId ∈ keys := hsnap (pack, keys) (List.mem_cons_self _ _)
      rw [if_pos ⟨by simp at hlen ⊢; omega, hk⟩] at hentry
      have hall : ∀ x ∈ got ++ [pack], (x.fragmentedData).isSome = true := by
        intro x hx
        obtain ⟨fd2, h1, -⟩ := hcanon x (by simp at hx ⊢; tauto)
        rw [h1]
        rfl
      have hfind := findCompleteFrame_some (r.buffer pack fd) keys packetId (got ++ [pack])
        hentry hall
      have hperm2 : ((got ++ [pack]).map Packet.fragmentedDataD).Perm
          ((List.range n).map (fragmentDataAt m frame packetId n)) := by
        have h1 : (got ++ [pack]).Perm ((List.range n).map (fragmentAt m frame packetId n)) := by
          simpa using hperm
        have h2 := h1.map Packet.fragmentedDataD
        rw [List.map_map] at h2
        exact h2
      rw [insertionSort_fragments m frame packetId n n (by omega) _ hperm2, hn,
        payloads_fragmentDataAt hm] at hfind
      have hframe : frame ≠ [] := by
        intro h0
        have hz : fragmentCount m frame.length = 0 := by
          rw [h0]
          exact Nat.le_zero.mp (fragmentCount_le hm 0)
        simp only [List.length_append, List.length_cons, List.length_nil] at hlen
        omega
      rw [read_cons_frame r pack fd keys [] _ _ hpack hfind hframe, hbuf, SafeMap.Delete_Set]
      rfl
    | cons b rest2 =>
      rw [if_neg (by simp at hlen ⊢; omega)] at hentry
      have hfind := findCompleteFrame_none (r.buffer pack fd) keys hentry
      rw [read_cons_none r pack fd keys _ _ hpack hfind]
      have hstep := ih (got ++ [pack]) (r.buffer pack fd)
        (by rw [hbuf, SafeMap.Get_Set_self]; rfl)
        (fun k first more hk hg => by
          rw [hbuf, SafeMap.Get_Set_ne _ _ hk] at hg
          exact hothers k first more hk hg)
        (by simpa using hperm)
        (fun a ha => hsnap a (List.mem_cons_of_mem _ ha))
        (by simp)
      rw [hstep, hbuf, SafeMap.Delete_Set]
      rfl

/-! ## Claims on reassembly -/

/-- C1, as stated, fails for the empty byte sequence: `peer.fragment` returns
no packet for it, so nothing can be fed to the receiving peer and `Read`
delivers no frame. -/
theorem empty_sequence_not_delivered :
    ((NewPeer "sender" 1400).fragment []).map Prod.snd = some []
    ∧ ((NewPeer "receiver" 1400).Read []).delivered = none
    ∧ ¬ ∃ (p1 r : peer) (fragments : List Packet) (arrivals rest : List (Packet × List Nat)),
        (NewPeer "sender" 1400).fragment [] = some (p1, fragments)
        ∧ (arrivals.map Prod.fst).Perm fragments
        ∧ (NewPeer "receiver" 1400).Read arrivals = .frame [] r rest := by
  refine ⟨rfl, rfl, ?_⟩
  rintro ⟨p1, r, fragments, arrivals, rest, hfrag, hperm, hread⟩
  rw [fragment_nil] at hfrag
  simp only [Option.some.injEq, Prod.mk.injEq] at hfrag
  obtain ⟨-, rfl⟩ := hfrag
  have harr : arrivals = [] := by
    have := hperm.eq_nil
    simpa using this
  subst harr
  simp [peer.Read] at hread

/-- C1, amended: for every byte sequence of length between 1 and 64 KiB and
every sending peer with max payload at least 1, `peer.fragment` returns, and
when the returned packets arrive at a receiving peer in any permutation
(each key snapshot containing, as every result of `Keys()` does, the packet-id
just stored) `Read` consumes all of them and delivers exactly the original
sequence, leaving the receiver as it was. The receiver's buffer holds no entry
for this packet-id beforehand and none of its entries is complete. -/
theorem fragment_read_roundtrip (sender receiver : peer) (frame : Frame)
    (hm : 1 ≤ sender.maxPayloadSize) (h1 : 1 ≤ frame.length) (hlen : frame.length ≤ 65536)
    (hfresh : receiver.fragmentedPackets.Get sender.packedId = none)
    (hincomplete : ∀ k first more, receiver.fragmentedPackets.Get k = some (first :: more) →
      ∃ fd, first.fragmentedData = some fd ∧ (first :: more).length % u32 < fd.FragmentMax) :
    ∃ (p1 : peer) (fragments : List Packet),
      sender.fragment frame = some (p1, fragments)
      ∧ ∀ arrivals : List (Packet × List Nat),
          (arrivals.map Prod.fst).Perm fragments →
          (∀ a ∈ arrivals, sender.packedId ∈ a.2) →
          receiver.Read arrivals = .frame frame receiver [] := by
  refine ⟨_, _, fragment_eq sender frame hm, ?_⟩
  intro arrivals hperm hsnap
  have hle := fragmentCount_le hm frame.length
  have hpos : 0 < fragmentCount sender.maxPayloadSize frame.length :=
    (lt_fragmentCount hm frame.length 0).mpr (by omega)
  have hn32 : fragmentCount sender.maxPayloadSize frame.length < u32 := by
    have : (65536 : Nat) < u32 := by decide
    omega
  rw [Nat.mod_eq_of_lt hn32] at hperm
  have hne : arrivals ≠ [] := by
    intro h
    subst h
    have := hperm.length_eq
    simp only [List.map_nil, List.length_nil, List.length_map, List.length_range] at this
    omega
  have h := read_collects hm frame sender.packedId _ rfl hn32 arrivals [] receiver
    (by rw [hfresh]; rfl)
    (fun k first more _ hg => hincomplete k first more hg)
    (by simpa using hperm) hsnap hne
  rw [h, SafeMap.Delete_absent _ _ hfresh]

/-- Witness for C1: a 17-byte sequence, max payload 8 (network MTU 30), a
receiver with an empty buffer. -/
theorem fragment_read_roundtrip_witness :
    ∃ (p1 : peer) (fragments : List Packet),
      (NewPeer "sender" 30).fragment (List.replicate 17 5) = some (p1, fragments)
      ∧ ∀ arrivals : List (Packet × List Nat),
          (arrivals.map Prod.fst).Perm fragments →
          (∀ a ∈ arrivals, (NewPeer "sender" 30).packedId ∈ a.2) →
          (NewPeer "receiver" 30).Read arrivals
            = .frame (List.replicate 17 5) (NewPeer "receiver" 30) [] :=
  fragment_read_roundtrip (NewPeer "sender" 30) (NewPeer "receiver" 30) (List.replicate 17 5)
    (by decide) (by decide) (by decide) rfl (fun k first more h => by cases h)

/-- C6: one round of `peer.Read`. The arrived fragment is appended to the
buffer entry of its packet-id. If no entry of the buffer is then complete (none
holds, counted as `uint32`, at least the `fragment_max` of its first fragment),
no frame is returned in this round: `Read` goes on with the next arrival on the
buffer as it stands. If some entry is complete, one complete entry is taken:
its payloads are concatenated in ascending fragment-index order, whatever
order they arrived in, the entry is deleted and every other entry is unchanged;
the concatenation is the frame that `Read` returns, unless it holds no byte at
all, which is Go's nil frame: then no frame is returned in this round either
and `Read` goes on with the next arrival on the buffer without that entry. So
a frame is returned in the round only for a packet-id with at least
`fragment_max` buffered fragments, and it is their ordered concatenation. -/
theorem read_reassembly (p : peer) (pack : Packet) (fd : FragmentedData) (keys : List Nat)
    (rest : List (Packet × List Nat))
    (hpack : pack.fragmentedData = some fd)
    (hkeys : (p.buffer pack fd).fragmentedPackets.IsKeys keys)
    (hfd : ∀ k fragments, p.fragmentedPackets.Get k = some fragments →
      ∀ x ∈ fragments, (x.fragmentedData).isSome = true) :
    ((∃ k fragments, (p.buffer pack fd).fragmentedPackets.Get k = some fragments
          ∧ entryComplete fragments = true) →
      ∃ (packetId : Nat) (fragments : List Packet) (fds sorted : List FragmentedData) (p2 : peer),
        (p.buffer pack fd).fragmentedPackets.Get packetId = some fragments
        ∧ fragments.map Packet.fragmentedData = fds.map some
        ∧ (∃ first, fds.head? = some first ∧ first.FragmentMax ≤ fragments.length)
        ∧ sorted.Perm fds
        ∧ sorted.Pairwise (fun a b => a.Fragment ≤ b.Fragment)
        ∧ p2.fragmentedPackets.Get packetId = none
        ∧ (∀ k, k ≠ packetId →
            p2.fragmentedPackets.Get k = (p.buffer pack fd).fragmentedPackets.Get k)
        ∧ ((sorted.map FragmentedData.Payload).flatten ≠ [] →
            p.Read ((pack, keys) :: rest)
              = .frame ((sorted.map FragmentedData.Payload).flatten) p2 rest)
        ∧ ((sorted.map FragmentedData.Payload).flatten = [] →
            p.Read ((pack, keys) :: rest) = p2.Read rest))
    ∧ ((∀ k fragments, (p.buffer pack fd).fragmentedPackets.Get k = some fragments →
          entryComplete fragments = false) →
      p.Read ((pack, keys) :: rest) = (p.buffer pack fd).Read rest) := by
  have hfd1 : ∀ k fragments, (p.buffer pack fd).fragmentedPackets.Get k = some fragments →
      ∀ x ∈ fragments, (x.fragmentedData).isSome = true := by
    intro k fragments hg x hx
    by_cases hk : k = fd.Id
    · subst hk
      simp only [peer.buffer, SafeMap.Get_Set_self, Option.some.injEq] at hg
      subst hg
      rcases List.mem_append.mp hx with hx | hx
      · cases hold : p.fragmentedPackets.Get fd.Id with
        | none => rw [hold] at hx; cases hx
        | some old =>
          rw [hold] at hx
          exact hfd _ old hold x hx
      · rw [List.mem_singleton.mp hx, hpack]
        rfl
    · simp only [peer.buffer, SafeMap.Get_Set_ne _ _ hk] at hg
      exact hfd k fragments hg x hx
  have hscan := findCompleteEntry_complete (p.buffer pack fd).fragmentedPackets
    (fun k first more hg => hfd1 k _ hg first (List.mem_cons_self _ _)) keys
  constructor
  · rintro ⟨k, fragments, hg, hc⟩
    have hk : k ∈ keys := (hkeys.2 k).mpr (by
      have : (p.buffer pack fd).fragmentedPackets k = some fragments := hg
      rw [this]
      rfl)
    obtain ⟨packetId, found, hfound⟩ := hscan.2 ⟨k, hk, fragments, hg, hc⟩
    obtain ⟨-, hget, hcomp⟩ := findCompleteEntry_sound _ keys packetId found hfound
    have hall := hfd1 packetId found hget
    have hfind := findCompleteFrame_some (p.buffer pack fd) keys packetId found hfound hall
    haveI : IsTotal FragmentedData fragmentLE := ⟨fun a b => Nat.le_total a.Fragment b.Fragment⟩
    haveI : IsTrans FragmentedData fragmentLE :=
      ⟨fun a b c (h1 : a.Fragment ≤ b.Fragment) (h2 : b.Fragment ≤ c.Fragment) =>
        Nat.le_trans h1 h2⟩
    refine ⟨packetId, found, found.map Packet.fragmentedDataD,
      (found.map Packet.fragmentedDataD).insertionSort fragmentLE,
      { p.buffer pack fd with
        fragmentedPackets := (p.buffer pack fd).fragmentedPackets.Delete packetId },
      hget, ?_, ?_,
      List.perm_insertionSort _ _, List.sorted_insertionSort fragmentLE _,
      SafeMap.Get_Delete_self _ _, fun k hk => SafeMap.Get_Delete_ne _ hk, ?_, ?_⟩
    · exact forEach_some_map _ _ _ (forEach_fragmentedData found hall)
    · obtain ⟨first, more, fd0, rfl, hfd0, hmax⟩ := (entryComplete_iff found).mp hcomp
      refine ⟨fd0, ?_, le_trans hmax (Nat.mod_le _ _)⟩
      simp [Packet.fragmentedDataD, hfd0]
    · intro hne
      exact read_cons_frame p pack fd keys rest _ _ hpack hfind hne
    · intro hnil
      rw [hnil] at hfind
      exact read_cons_none p pack fd keys rest _ hpack hfind
  · intro hnone
    have hentry := hscan.1 (fun k _ fragments hg => hnone k fragments hg)
    rw [read_cons_none p pack fd keys rest _ hpack (findCompleteFrame_none _ keys hentry)]

/-- Witness for C6: fragments 2 and 0 of packet-id 7 are buffered, fragment 1
arrives last; `Read` returns the payloads in index order. A lone fragment with
`fragment_max` 1 and no payload byte completes its entry and is not returned. -/
theorem read_reassembly_witness :
    (exampleReceiver.Read [(exampleFragment 1 [2], [7])]).delivered = some [1, 2, 3]
    ∧ ((NewPeer "peer" 30).Read
        [({ type := .FRAGMENTED_DATA
            Payload := .FragmentedData { Id := 7, Fragment := 0, FragmentMax := 1, Payload := [] } },
          [7])]).delivered = none
    ∧ (((∃ k fragments,
          (exampleReceiver.buffer (exampleFragment 1 [2])
              { Id := 7, Fragment := 1, FragmentMax := 3, Payload := [2] }).fragmentedPackets.Get k
            = some fragments ∧ entryComplete fragments = true) →
        ∃ (packetId : Nat) (fragments : List Packet) (fds sorted : List FragmentedData)
          (p2 : peer),
          (exampleReceiver.buffer (exampleFragment 1 [2])
                { Id := 7, Fragment := 1, FragmentMax := 3, Payload := [2] }).fragmentedPackets.Get
              packetId = some fragments
          ∧ fragments.map Packet.fragmentedData = fds.map some
          ∧ (∃ first, fds.head? = some first ∧ first.FragmentMax ≤ fragments.length)
          ∧ sorted.Perm fds
          ∧ sorted.Pairwise (fun a b => a.Fragment ≤ b.Fragment)
          ∧ p2.fragmentedPackets.Get packetId = none
          ∧ (∀ k, k ≠ packetId →
              p2.fragmentedPackets.Get k
                = (exampleReceiver.buffer (exampleFragment 1 [2])
                    { Id := 7, Fragment := 1, FragmentMax := 3,
                      Payload := [2] }).fragmentedPackets.Get k)
          ∧ ((sorted.map FragmentedData.Payload).flatten ≠ [] →
              exampleReceiver.Read [(exampleFragment 1 [2], [7])]
                = .frame ((sorted.map FragmentedData.Payload).flatten) p2 [])
          ∧ ((sorted.map FragmentedData.Payload).flatten = [] →
              exampleReceiver.Read [(exampleFragment 1 [2], [7])] = p2.Read []))
      ∧ ((∀ k fragments,
          (exampleReceiver.buffer (exampleFragment 1 [2])
              { Id := 7, Fragment := 1, FragmentMax := 3, Payload := [2] }).fragmentedPackets.Get k
            = some fragments → entryComplete fragments = false) →
        exampleReceiver.Read [(exampleFragment 1 [2], [7])]
          = (exampleReceiver.buffer (exampleFragment 1 [2])
              { Id := 7, Fragment := 1, FragmentMax := 3, Payload := [2] }).Read [])) :=
  ⟨by decide, by decide,
   read_reassembly exampleReceiver (exampleFragment 1 [2])
    { Id := 7, Fragment := 1, FragmentMax := 3, Payload := [2] } [7] [] rfl
    ⟨by decide, fun k => by
      by_cases hk : k = 7
      · subst hk
        simp [peer.buffer, SafeMap.Set]
      · simp [peer.buffer, exampleReceiver, NewPeer, SafeMap.Set, SafeMap.empty, hk]⟩
    (fun k fragments hg x hx => by
      by_cases hk : k = 7
      · subst hk
        simp only [exampleReceiver, SafeMap.Get_Set_self, Option.some.injEq] at hg
        subst hg
        simp only [List.mem_cons, List.mem_singleton, List.not_mem_nil, or_false] at hx
        rcases hx with rfl | rfl <;> rfl
      · simp [exampleReceiver, NewPeer, SafeMap.Get, SafeMap.Set, SafeMap.empty, hk] at hg)⟩

/-! ## Encoded size of the fragments -/

theorem headerProbe_encodedSize : headerProbe.encodedSize = 22 := by decide

theorem maxPayloadSize_eq {networkMTU : Nat} (h1 : 22 ≤ networkMTU) (h2 : networkMTU < 2 ^ 32) :
    maxPayloadSize networkMTU = networkMTU - 22 := by
  unfold maxPayloadSize
  rw [headerProbe_encodedSize]
  simp only [u32]
  omega

theorem varintSize_le (x : Nat) :
    1 ≤ varintSize x ∧ (x < 2 ^ 7 → varintSize x ≤ 1) ∧ (x < 2 ^ 14 → varintSize x ≤ 2)
      ∧ (x < 2 ^ 21 → varintSize x ≤ 3) ∧ (x < 2 ^ 35 → varintSize x ≤ 5) := by
  unfold varintSize
  split_ifs <;> omega

theorem varintFieldSize_le (x : Nat) :
    (x < 2 ^ 7 → varintFieldSize x ≤ 2) ∧ (x < 2 ^ 14 → varintFieldSize x ≤ 3)
      ∧ (x < 2 ^ 21 → varintFieldSize x ≤ 4) ∧ (x < 2 ^ 35 → varintFieldSize x ≤ 6) := by
  have h := varintSize_le x
  unfold varintFieldSize
  split_ifs <;> omega

theorem bytesFieldSize_le (len : Nat) :
    (len < 2 ^ 7 → bytesFieldSize len ≤ 2 + len) ∧ (len < 2 ^ 14 → bytesFieldSize len ≤ 3 + len)
      ∧ (len < 2 ^ 21 → bytesFieldSize len ≤ 4 + len) := by
  have h := varintSize_le len
  unfold bytesFieldSize
  split_ifs <;> omega

/-- The arithmetic behind the header budget of 22 bytes: for a frame of at most
64 KiB the indices are small enough to leave room for the tag and length of the
payload field and for the longer length of the enclosing message. -/
theorem fragment_size_bound (id t n plen m len : Nat) (hid : id < 2 ^ 32) (hlen : len ≤ 65536)
    (ht : t * m < len) (hn : (n - 1) * m < len) (hplen : plen ≤ m) (hm : 1 ≤ m)
    (hmtu : m + 22 < 2 ^ 16) :
    2 + messageFieldSize (varintFieldSize id + varintFieldSize t + varintFieldSize n
        + bytesFieldSize plen) ≤ m + 22 := by
  have hA := (varintFieldSize_le id).2.2.2 (by omega)
  have hB := varintFieldSize_le t
  have hC := varintFieldSize_le n
  have hD := bytesFieldSize_le plen
  have hS := varintSize_le (varintFieldSize id + varintFieldSize t + varintFieldSize n
        + bytesFieldSize plen)
  unfold messageFieldSize
  have ht1 : t * 1 ≤ t * m := Nat.mul_le_mul_left t hm
  have hn1 : (n - 1) * 1 ≤ (n - 1) * m := Nat.mul_le_mul_left _ hm
  by_cases c1 : m ≤ 4
  · have := hB.2.2.1 (by omega)
    have := hC.2.2.1 (by omega)
    have := hD.1 (by omega)
    have := hS.2.1 (by omega)
    omega
  · by_cases c2 : m ≤ 516
    · have ht5 : t * 5 ≤ t * m := Nat.mul_le_mul_left t (by omega)
      have hn5 : (n - 1) * 5 ≤ (n - 1) * m := Nat.mul_le_mul_left _ (by omega)
      have := hB.2.1 (by omega)
      have := hC.2.1 (by omega)
      have := hD.2.1 (by omega)
      have := hS.2.2.1 (by omega)
      omega
    · have ht5 : t * 517 ≤ t * m := Nat.mul_le_mul_left t (by omega)
      have hn5 : (n - 1) * 517 ≤ (n - 1) * m := Nat.mul_le_mul_left _ (by omega)
      have := hB.1 (by omega)
      have := hC.1 (by omega)
      have := hD.2.2 (by omega)
      have := hS.2.2.2.1 (by omega)
      omega

theorem encodedSize_fragmentAt (m : Nat) (frame : Frame) (packetId k t : Nat) :
    (fragmentAt m frame packetId k t).encodedSize
      = 2 + messageFieldSize (varintFieldSize packetId + varintFieldSize (t % u32)
          + varintFieldSize k
          + bytesFieldSize ((frame.drop (t * m)).take m).length) := rfl

/-- C2, as stated, fails in two ways. (1) For a network MTU below the 22
header bytes the `uint32` subtraction of `maxPayloadSize` wraps around: with
network MTU 10 the max payload is 4294967284 and a 64-byte frame leaves as one
packet of 72 bytes. (2) The header is measured with an empty payload, so the tag
and length of the payload field are not counted: with network MTU 23 (max
payload 1), packet-id counter `2 ^ 28` and a frame of `2 ^ 28` bytes, the
last fragment takes 24 bytes. -/
theorem fragment_exceeds_network_mtu :
    (∃ (p1 : peer) (pack : Packet),
        (NewPeer "peer" 10).fragment (List.replicate 64 0) = some (p1, [pack])
        ∧ pack.encodedSize = 72)
    ∧ ∃ (p1 : peer) (fragments : List Packet) (pack : Packet),
        ({ NewPeer "peer" 23 with packedId := 2 ^ 28 } : peer).fragment
            (List.replicate (2 ^ 28) 0) = some (p1, fragments)
        ∧ pack ∈ fragments ∧ pack.encodedSize = 24 := by
  constructor
  · have hm : (NewPeer "peer" 10).maxPayloadSize = 4294967284 := by decide
    have hc : fragmentCount 4294967284 (List.replicate 64 (0 : Byte)).length = 1 :=
      fragmentCount_eq_one (by omega) (by simp) (by simp)
    refine ⟨{ NewPeer "peer" 10 with packedId := ((NewPeer "peer" 10).packedId + 1) % u32 },
      fragmentAt 4294967284 (List.replicate 64 0) 0 1 0, ?_, ?_⟩
    · rw [fragment_eq _ _ (by rw [hm]; omega), hm, hc]
      rfl
    · have hplen : (((List.replicate 64 (0 : Byte)).drop (0 * 4294967284)).take
          4294967284).length = 64 := by
        rw [List.length_take, List.length_drop, List.length_replicate]
        norm_num
      rw [encodedSize_fragmentAt, hplen]
      norm_num [messageFieldSize, varintFieldSize, bytesFieldSize, varintSize, u32]
  · have hm : ({ NewPeer "peer" 23 with packedId := 2 ^ 28 } : peer).maxPayloadSize = 1 := by
      decide
    have hcnt : fragmentCount 1 (List.replicate (2 ^ 28) (0 : Byte)).length = 2 ^ 28 := by
      rw [List.length_replicate]
      simp [fragmentCount]
    have hplen : (((List.replicate (2 ^ 28) (0 : Byte)).drop ((2 ^ 28 - 1) * 1)).take 1).length
        = 1 := by
      rw [List.length_take, List.length_drop, List.length_replicate]
      norm_num
    refine ⟨_, _, fragmentAt 1 (List.replicate (2 ^ 28) 0) (2 ^ 28) (2 ^ 28 % u32) (2 ^ 28 - 1),
      fragment_eq _ _ (by rw [hm]; omega), ?_, ?_⟩
    · rw [hm, hcnt]
      exact List.mem_map.mpr ⟨2 ^ 28 - 1, List.mem_range.mpr (by norm_num), rfl⟩
    · rw [encodedSize_fragmentAt, hplen]
      norm_num [messageFieldSize, varintFieldSize, bytesFieldSize, varintSize, u32]

/-- C2, amended: for a network MTU from 23 to 65535 (so that the max payload
`networkMTU - 22` is at least 1), any `uint32` packet-id counter and any frame
of at most 64 KiB, `peer.fragment` returns and every packet it emits has an
encoded size of at most `networkMTU` bytes, so it fits the receive buffer of
`Listen`. -/
theorem fragment_fits_network_mtu (p : peer) (networkMTU : Nat) (frame : Frame)
    (hlow : 23 ≤ networkMTU) (hhigh : networkMTU < 2 ^ 16)
    (hp : p.maxPayloadSize = maxPayloadSize networkMTU) (hid : p.packedId < 2 ^ 32)
    (hlen : frame.length ≤ 65536) :
    ∃ (p1 : peer) (fragments : List Packet),
      p.fragment frame = some (p1, fragments)
      ∧ ∀ pack ∈ fragments, pack.encodedSize ≤ networkMTU := by
  have hmeq : p.maxPayloadSize = networkMTU - 22 := by
    rw [hp, maxPayloadSize_eq (by omega) (by omega)]
  have hm : 0 < p.maxPayloadSize := by omega
  refine ⟨_, _, fragment_eq p frame hm, ?_⟩
  intro pack hpack
  obtain ⟨t, ht, rfl⟩ := List.mem_map.mp hpack
  have ht2 := List.mem_range.mp ht
  have hle := fragmentCount_le hm frame.length
  have htm := (lt_fragmentCount hm frame.length t).mp ht2
  have hnm := (lt_fragmentCount hm frame.length
    (fragmentCount p.maxPayloadSize frame.length - 1)).mp (by omega)
  have h32 : (65536 : Nat) < u32 := by decide
  rw [encodedSize_fragmentAt, Nat.mod_eq_of_lt (by omega), Nat.mod_eq_of_lt (by omega)]
  have := fragment_size_bound p.packedId t (fragmentCount p.maxPayloadSize frame.length)
    ((frame.drop (t * p.maxPayloadSize)).take p.maxPayloadSize).length p.maxPayloadSize
    frame.length hid hlen htm hnm (by simp only [List.length_take]; omega) hm (by omega)
  omega

/-- Witness for C2: network MTU 1400 and a frame of 4000 bytes. -/
theorem fragment_fits_network_mtu_witness :
    ∃ (p1 : peer) (fragments : List Packet),
      (NewPeer "peer" 1400).fragment (List.replicate 4000 0) = some (p1, fragments)
      ∧ ∀ pack ∈ fragments, pack.encodedSize ≤ 1400 :=
  fragment_fits_network_mtu (NewPeer "peer" 1400) 1400 (List.replicate 4000 0)
    (by decide) (by decide) rfl (by decide) (by rw [List.length_replicate]; omega)

/-! ## The learning switch -/

theorem Queue.Add_of_room {T : Type} (q : Queue T) (item : T)
    (h : (q.items.length : Int) < q.maxItems) :
    q.Add item = some { q with items := q.items ++ [item] } := by
  unfold Queue.Add
  rw [if_neg (by omega)]

theorem broadcastFrame_cons (frame : Frame) (sourcePortId portId : Nat) (rest : List Nat)
    (e : ethernetSwitch) :
    broadcastFrame frame sourcePortId (portId :: rest) e
      = match e.outgoingFrames.Get portId with
        | none => broadcastFrame frame sourcePortId rest e
        | some queue =>
          if portId = sourcePortId then broadcastFrame frame sourcePortId rest e
          else
            match queue.Add frame with
            | none => .blocked e
            | some queue1 =>
              broadcastFrame frame sourcePortId rest
                { e with outgoingFrames := e.outgoingFrames.Set portId queue1 } := rfl

/-- Flooding over a duplicate-free key snapshot whose queues have room: the
call returns, every visited queue other than the source's has the frame
appended once, and nothing else changes. -/
theorem broadcastFrame_done (frame : Frame) (src : Nat) :
    ∀ (keys : List Nat) (e : ethernetSwitch), keys.Nodup →
      (∀ k ∈ keys, ∀ queue, k ≠ src → e.outgoingFrames.Get k = some queue →
        (queue.items.length : Int) < queue.maxItems) →
      ∃ e2, broadcastFrame frame src keys e = .done e2
        ∧ e2.hardwareAddr = e.hardwareAddr
        ∧ ∀ k, e2.outgoingFrames.Get k
            = if k ∈ keys ∧ k ≠ src then
                (e.outgoingFrames.Get k).map (fun q => { q with items := q.items ++ [frame] })
              else e.outgoingFrames.Get k := by
  intro keys
  induction keys with
  | nil =>
    intro e _ _
    exact ⟨e, rfl, rfl, fun k => by simp⟩
  | cons k rest ih =>
    intro e hnd hroom
    have hk : k ∉ rest := (List.nodup_cons.mp hnd).1
    have hnd2 : rest.Nodup := (List.nodup_cons.mp hnd).2
    have hroom2 : ∀ j ∈ rest, ∀ queue, j ≠ src → e.outgoingFrames.Get j = some queue →
        (queue.items.length : Int) < queue.maxItems :=
      fun j hj => hroom j (List.mem_cons_of_mem _ hj)
    rw [broadcastFrame_cons]
    cases hget : e.outgoingFrames.Get k with
    | none =>
      obtain ⟨e2, h1, h2, h3⟩ := ih e hnd2 hroom2
      refine ⟨e2, h1, h2, fun j => ?_⟩
      rw [h3 j]
      by_cases hj : j = k
      · subst hj
        simp [hk, hget]
      · simp [hj]
    | some queue =>
      by_cases hs : k = src
      · simp only [hs, if_true]
        obtain ⟨e2, h1, h2, h3⟩ := ih e hnd2 hroom2
        refine ⟨e2, h1, h2, fun j => ?_⟩
        rw [h3 j]
        by_cases hj : j = src
        · simp [hj]
        · simp [hj]
      · simp only [if_neg hs]
        rw [Queue.Add_of_room queue frame (hroom k (List.mem_cons_self _ _) queue hs hget)]
        obtain ⟨e2, h1, h2, h3⟩ := ih
          { e with outgoingFrames :=
              e.outgoingFrames.Set k ({ queue with items := queue.items ++ [frame] }) } hnd2
          (fun j hj q hjs hq => by
            have hjk : j ≠ k := fun h => hk (h ▸ hj)
            rw [SafeMap.Get_Set_ne _ _ hjk] at hq
            exact hroom2 j hj q hjs hq)
        refine ⟨e2, h1, h2, fun j => ?_⟩
        rw [h3 j]
        by_cases hj : j = k
        · subst hj
          simp [hk, hs, hget, SafeMap.Get_Set_self]
        · simp [hj, SafeMap.Get_Set_ne _ _ hj]

theorem Queue.Add_some {T : Type} (q q1 : Queue T) (item : T) (h : q.Add item = some q1) :
    q1 = { q with items := q.items ++ [item] } := by
  unfold Queue.Add at h
  split at h
  · cases h
  · exact (Option.some.inj h).symm

/-- Flooding in any state, full queues included: wherever the call stands
(returned, or parked on a full queue), each queue is either untouched or, for a
visited port other than the source, its old content followed by the frame. -/
theorem broadcastFrame_safe (frame : Frame) (src : Nat) :
    ∀ (keys : List Nat) (e : ethernetSwitch), keys.Nodup → ∀ k,
      (broadcastFrame frame src keys e).state.outgoingFrames.Get k = e.outgoingFrames.Get k
      ∨ (k ≠ src ∧ k ∈ keys ∧ ∃ queue, e.outgoingFrames.Get k = some queue
          ∧ (broadcastFrame frame src keys e).state.outgoingFrames.Get k
              = some { queue with items := queue.items ++ [frame] }) := by
  intro keys
  induction keys with
  | nil => intro e _ k; exact Or.inl rfl
  | cons k0 rest ih =>
    intro e hnd k
    have hk0 : k0 ∉ rest := (List.nodup_cons.mp hnd).1
    have hnd2 : rest.Nodup := (List.nodup_cons.mp hnd).2
    have hlift : ∀ e1 : ethernetSwitch, e1.outgoingFrames.Get k = e.outgoingFrames.Get k →
        ((broadcastFrame frame src rest e1).state.outgoingFrames.Get k = e.outgoingFrames.Get k
        ∨ (k ≠ src ∧ k ∈ k0 :: rest ∧ ∃ queue, e.outgoingFrames.Get k = some queue
            ∧ (broadcastFrame frame src rest e1).state.outgoingFrames.Get k
                = some { queue with items := queue.items ++ [frame] })) := by
      intro e1 he1
      rcases ih e1 hnd2 k with h | ⟨h1, h2, queue, h3, h4⟩
      · exact Or.inl (h.trans he1)
      · exact Or.inr ⟨h1, List.mem_cons_of_mem _ h2, queue, he1 ▸ h3, h4⟩
    rw [broadcastFrame_cons]
    cases hget : e.outgoingFrames.Get k0 with
    | none => exact hlift e rfl
    | some queue =>
      by_cases hs : k0 = src
      · simp only [if_pos hs]
        exact hlift e rfl
      · simp only [if_neg hs]
        cases hadd : queue.Add frame with
        | none => exact Or.inl rfl
        | some q1 =>
          have hq1 := Queue.Add_some queue q1 frame hadd
          by_cases hk : k = k0
          · subst hk
            rcases ih { e with outgoingFrames := e.outgoingFrames.Set k q1 } hnd2 k with
              h | ⟨-, h2, -⟩
            · refine Or.inr ⟨hs, List.mem_cons_self _ _, queue, hget, ?_⟩
              rw [h, SafeMap.Get_Set_self, hq1]
            · exact absurd h2 hk0
          · exact hlift { e with outgoingFrames := e.outgoingFrames.Set k0 q1 }
              (SafeMap.Get_Set_ne _ _ hk)

theorem broadcastFrame_hardwareAddr (frame : Frame) (src : Nat) :
    ∀ (keys : List Nat) (e : ethernetSwitch),
      (broadcastFrame frame src keys e).state.hardwareAddr = e.hardwareAddr := by
  intro keys
  induction keys with
  | nil => intro e; rfl
  | cons k rest ih =>
    intro e
    rw [broadcastFrame_cons]
    cases e.outgoingFrames.Get k with
    | none => exact ih e
    | some queue =>
      simp only []
      split
      · exact ih e
      · cases queue.Add frame with
        | none => rfl
        | some q1 => exact ih _

theorem singlecastFrame_hardwareAddr (e : ethernetSwitch) (frame : Frame) (src : Nat) :
    (e.singlecastFrame frame src).state.hardwareAddr = e.hardwareAddr := by
  unfold ethernetSwitch.singlecastFrame
  repeat' split
  all_goals rfl

/-- Whether it returns or is parked on a full queue, `transportFrame` changes
the MAC table by exactly one `Set`. -/
theorem transportFrame_hardwareAddr (e : ethernetSwitch) (frame : Frame) (src : Nat)
    (keys : List Nat) :
    (e.transportFrame frame src keys).state.hardwareAddr
      = e.hardwareAddr.Set (hardwareAddrString (Source frame)) src := by
  unfold ethernetSwitch.transportFrame
  simp only []
  split
  · rw [broadcastFrame_hardwareAddr]
  · rw [singlecastFrame_hardwareAddr]

theorem apply_hardwareAddr (e : ethernetSwitch) (op : SwitchOp) :
    (e.apply op).hardwareAddr
      = match op with
        | .transport frame src _ => e.hardwareAddr.Set (hardwareAddrString (Source frame)) src
        | _ => e.hardwareAddr := by
  cases op with
  | addPort port => rfl
  | removePort portId =>
    simp only [ethernetSwitch.apply, ethernetSwitch.RemovePort]
    split <;> rfl
  | transport frame src keys => exact transportFrame_hardwareAddr e frame src keys

theorem foldl_apply_hardwareAddr (key : String) :
    ∀ (ops : List SwitchOp) (e : ethernetSwitch) (seen : Option Nat),
      e.hardwareAddr.Get key = seen →
      (ops.foldl ethernetSwitch.apply e).hardwareAddr.Get key
        = ops.foldl (fun seen op =>
            match op with
            | .transport frame sourcePortId _ =>
              if hardwareAddrString (Source frame) = key then some sourcePortId else seen
            | _ => seen) seen := by
  intro ops
  induction ops with
  | nil => intro e seen h; exact h
  | cons op rest ih =>
    intro e seen h
    simp only [List.foldl_cons]
    apply ih
    rw [apply_hardwareAddr]
    cases op with
    | addPort port => exact h
    | removePort portId => exact h
    | transport frame src keys =>
      simp only []
      by_cases hk : hardwareAddrString (Source frame) = key
      · rw [if_pos hk, ← hk, SafeMap.Get_Set_self]
      · rw [if_neg hk, SafeMap.Get_Set_ne _ _ (Ne.symm hk), h]

/-- The MAC table of a reachable state is the record of last observations. -/
theorem runOps_hardwareAddr (name : String) (ops : List SwitchOp) (key : String) :
    (runOps name ops).hardwareAddr.Get key = lastObserved key ops :=
  foldl_apply_hardwareAddr key ops (NewSwitch name) none rfl

theorem foldl_observed (key : String) :
    ∀ (ops : List SwitchOp) (seen : Option Nat) (p : Nat),
      ops.foldl (fun seen op =>
            match op with
            | .transport frame sourcePortId _ =>
              if hardwareAddrString (Source frame) = key then some sourcePortId else seen
            | _ => seen) seen = some p →
      seen = some p ∨ ∃ frame keys, SwitchOp.transport frame p keys ∈ ops
        ∧ hardwareAddrString (Source frame) = key := by
  intro ops
  induction ops with
  | nil => intro seen p h; exact Or.inl h
  | cons op rest ih =>
    intro seen p h
    simp only [List.foldl_cons] at h
    rcases ih _ p h with h1 | ⟨frame, keys, hmem, hkey⟩
    · cases op with
      | addPort port => exact Or.inl h1
      | removePort portId => exact Or.inl h1
      | transport frame src keys =>
        simp only [] at h1
        by_cases hk : hardwareAddrString (Source frame) = key
        · rw [if_pos hk] at h1
          have : src = p := Option.some.inj h1
          subst this
          exact Or.inr ⟨frame, keys, List.mem_cons_self _ _, hk⟩
        · rw [if_neg hk] at h1
          exact Or.inl h1
    · exact Or.inr ⟨frame, keys, List.mem_cons_of_mem _ hmem, hkey⟩

theorem lastObserved_some (key : String) (ops : List SwitchOp) (p : Nat)
    (h : lastObserved key ops = some p) :
    ∃ frame keys, SwitchOp.transport frame p keys ∈ ops
      ∧ hardwareAddrString (Source frame) = key := by
  rcases foldl_observed key ops none p h with h1 | h1
  · cases h1
  · exact h1

theorem hexDigit_f (x : Fin 16) (h : hexDigit x.val = 'f') : x = 15 := by
  revert x
  decide

theorem byte_of_ff (b : Byte) (h1 : hexDigit (b.val / 16) = 'f')
    (h2 : hexDigit (b.val % 16) = 'f') : b = 255 := by
  have hb := b.isLt
  have a1 := hexDigit_f ⟨b.val / 16, by omega⟩ h1
  have a2 := hexDigit_f ⟨b.val % 16, by omega⟩ h2
  have c1 : b.val / 16 = 15 := congrArg Fin.val a1
  have c2 : b.val % 16 = 15 := congrArg Fin.val a2
  apply Fin.ext
  show b.val = 255
  omega

/-- Only the broadcast address is rendered as `ff:ff:ff:ff:ff:ff`. -/
theorem hardwareAddrString_broadcast (a : List Byte)
    (h : hardwareAddrString a = hardwareAddrString broadcastMac) : a = broadcastMac := by
  have hc : hardwareAddrChars a = hardwareAddrChars broadcastMac :=
    congrArg String.data h
  have hb : hardwareAddrChars broadcastMac
      = ['f', 'f', ':', 'f', 'f', ':', 'f', 'f', ':', 'f', 'f', ':', 'f', 'f', ':', 'f', 'f'] := by
    decide
  rw [hb] at hc
  rcases a with _ | ⟨b0, _ | ⟨b1, _ | ⟨b2, _ | ⟨b3, _ | ⟨b4, _ | ⟨b5, _ | ⟨b6, rest⟩⟩⟩⟩⟩⟩⟩
  all_goals simp only [hardwareAddrChars, List.cons.injEq, and_true, and_false, false_and,
    reduceCtorEq] at hc
  obtain ⟨h0, h0', -, h1, h1', -, h2, h2', -, h3, h3', -, h4, h4', -, h5, h5'⟩ := hc
  rw [byte_of_ff b0 h0 h0', byte_of_ff b1 h1 h1', byte_of_ff b2 h2 h2', byte_of_ff b3 h3 h3',
    byte_of_ff b4 h4 h4', byte_of_ff b5 h5 h5']
  rfl

theorem exampleSwitch_outgoingFrames (k : Nat) :
    exampleSwitch.outgoingFrames.Get k
      = if k = 2 then some (NewQueue 500) else if k = 1 then some (NewQueue 500)
        else if k = 0 then some (NewQueue 500) else none := rfl

theorem exampleSwitch_isKeys : exampleSwitch.outgoingFrames.IsKeys [2, 0, 1] := by
  refine ⟨by decide, fun k => ?_⟩
  have h := exampleSwitch_outgoingFrames k
  unfold SafeMap.Get at h
  rw [h]
  by_cases h2 : k = 2
  · simp [h2]
  · by_cases h1 : k = 1
    · simp [h1]
    · by_cases h0 : k = 0
      · simp [h0]
      · simp [h2, h1, h0]

theorem exampleSwitch_room (portId : Nat) (queue : Queue Frame)
    (hq : exampleSwitch.outgoingFrames.Get portId = some queue) :
    (queue.items.length : Int) < queue.maxItems := by
  rw [exampleSwitch_outgoingFrames] at hq
  have : queue = NewQueue 500 := by
    split_ifs at hq <;> exact (Option.some.inj hq).symm
  subst this
  decide

/-! ## Claims on the switch -/

/-- C7: broadcast flooding. For a frame (holding both addresses, so at least
12 bytes) with destination `ff:ff:ff:ff:ff:ff` and any key snapshot of the
egress-queue registry: in every switch state, wherever `transportFrame` stands
(returned, or waiting in `Queue.Add` on a full queue), no queue has received the
frame more than once and the queue of the source port is unchanged; and when
the egress queues have room (so that `Queue.Add` does not wait),
`transportFrame` returns and the queue of every port other than the source
that has an egress queue is its old content followed by the frame, once, while
a port without an egress queue still has none. -/
theorem broadcast_flooding (e : ethernetSwitch) (frame : Frame) (src : Nat) (keys : List Nat)
    (_h12 : 12 ≤ frame.length) (hdst : Destination frame = broadcastMac)
    (hkeys : e.outgoingFrames.IsKeys keys) :
    ((e.transportFrame frame src keys).state.outgoingFrames.Get src = e.outgoingFrames.Get src
      ∧ ∀ portId,
          (e.transportFrame frame src keys).state.outgoingFrames.Get portId
              = e.outgoingFrames.Get portId
          ∨ ∃ queue, e.outgoingFrames.Get portId = some queue
              ∧ (e.transportFrame frame src keys).state.outgoingFrames.Get portId
                  = some { queue with items := queue.items ++ [frame] })
    ∧ ((∀ portId queue, portId ≠ src → e.outgoingFrames.Get portId = some queue →
          (queue.items.length : Int) < queue.maxItems) →
        ∃ e2, e.transportFrame frame src keys = .done e2
          ∧ (∀ portId queue, portId ≠ src → e.outgoingFrames.Get portId = some queue →
              e2.outgoingFrames.Get portId = some { queue with items := queue.items ++ [frame] })
          ∧ e2.outgoingFrames.Get src = e.outgoingFrames.Get src
          ∧ (∀ portId, e.outgoingFrames.Get portId = none →
              e2.outgoingFrames.Get portId = none)) := by
  have htf : e.transportFrame frame src keys
      = broadcastFrame frame src keys
          { e with hardwareAddr := e.hardwareAddr.Set (hardwareAddrString (Source frame)) src } := by
    unfold ethernetSwitch.transportFrame
    simp only [if_pos hdst]
  rw [htf]
  refine ⟨⟨?_, fun portId => ?_⟩, fun hroom => ?_⟩
  · rcases broadcastFrame_safe frame src keys
        { e with hardwareAddr := e.hardwareAddr.Set (hardwareAddrString (Source frame)) src }
        hkeys.1 src with h | ⟨h, -⟩
    · exact h
    · exact absurd rfl h
  · rcases broadcastFrame_safe frame src keys
        { e with hardwareAddr := e.hardwareAddr.Set (hardwareAddrString (Source frame)) src }
        hkeys.1 portId with h | ⟨-, -, queue, h1, h2⟩
    · exact Or.inl h
    · exact Or.inr ⟨queue, h1, h2⟩
  · obtain ⟨e2, h1, -, h3⟩ := broadcastFrame_done frame src keys
      { e with hardwareAddr := e.hardwareAddr.Set (hardwareAddrString (Source frame)) src }
      hkeys.1 (fun k _ queue hk hq => hroom k queue hk hq)
    refine ⟨e2, h1, ?_, ?_, ?_⟩
    · intro portId queue hp hq
      have hmem : portId ∈ keys := (hkeys.2 portId).mpr (by
        have : e.outgoingFrames portId = some queue := hq
        rw [this]
        rfl)
      rw [h3 portId, if_pos ⟨hmem, hp⟩]
      show Option.map _ (e.outgoingFrames.Get portId) = _
      rw [hq]
      rfl
    · rw [h3 src, if_neg (fun h => h.2 rfl)]
    · intro portId hq
      rw [h3 portId]
      show (if _ then Option.map _ (e.outgoingFrames.Get portId)
        else e.outgoingFrames.Get portId) = none
      rw [hq]
      split <;> rfl

/-- Witness for C7: three ports with empty queues, a broadcast frame entering
on port 0, the snapshot in the order 2, 0, 1. -/
theorem broadcast_flooding_witness :
    ∃ e2, exampleSwitch.transportFrame exampleBroadcast 0 [2, 0, 1] = .done e2
      ∧ (∀ portId queue, portId ≠ 0 → exampleSwitch.outgoingFrames.Get portId = some queue →
          e2.outgoingFrames.Get portId
            = some { queue with items := queue.items ++ [exampleBroadcast] })
      ∧ e2.outgoingFrames.Get 0 = exampleSwitch.outgoingFrames.Get 0
      ∧ (∀ portId, exampleSwitch.outgoingFrames.Get portId = none →
          e2.outgoingFrames.Get portId = none) :=
  (broadcast_flooding exampleSwitch exampleBroadcast 0 [2, 0, 1] (by decide) (by decide)
    exampleSwitch_isKeys).2 (fun portId queue _ hq => exampleSwitch_room portId queue hq)

/-- C8: unicast forwarding. For a frame (holding both addresses, so at least
12 bytes) whose destination is not the broadcast address, a multicast group
address included, let `q` be the port the MAC table gives for the destination
once the frame's source has been learned. If `q` exists, differs from the
source port and has an egress queue with room, `transportFrame` returns with
the frame appended to the queue of `q` and every other queue unchanged. If the
destination is absent from the table, or `q` is the source port, or `q` has no
egress queue, `transportFrame` returns with no egress queue changed: an unknown
destination is not flooded. In every state, a full queue of `q` included, no
queue other than that of such a port `q` is touched. -/
theorem unicast_forwarding (e : ethernetSwitch) (frame : Frame) (src : Nat) (keys : List Nat)
    (_h12 : 12 ≤ frame.length) (hdst : Destination frame ≠ broadcastMac) :
    (∀ q queue,
        (e.hardwareAddr.Set (hardwareAddrString (Source frame)) src).Get
            (hardwareAddrString (Destination frame)) = some q →
        q ≠ src → e.outgoingFrames.Get q = some queue →
        (queue.items.length : Int) < queue.maxItems →
        ∃ e2, e.transportFrame frame src keys = .done e2
          ∧ e2.outgoingFrames.Get q = some { queue with items := queue.items ++ [frame] }
          ∧ ∀ k, k ≠ q → e2.outgoingFrames.Get k = e.outgoingFrames.Get k)
    ∧ (((e.hardwareAddr.Set (hardwareAddrString (Source frame)) src).Get
            (hardwareAddrString (Destination frame)) = none
        ∨ (e.hardwareAddr.Set (hardwareAddrString (Source frame)) src).Get
            (hardwareAddrString (Destination frame)) = some src
        ∨ ∃ q, (e.hardwareAddr.Set (hardwareAddrString (Source frame)) src).Get
            (hardwareAddrString (Destination frame)) = some q
          ∧ e.outgoingFrames.Get q = none) →
        ∃ e2, e.transportFrame frame src keys = .done e2
          ∧ e2.outgoingFrames = e.outgoingFrames)
    ∧ ∀ k,
        (e.transportFrame frame src keys).state.outgoingFrames.Get k = e.outgoingFrames.Get k
        ∨ ((e.hardwareAddr.Set (hardwareAddrString (Source frame)) src).Get
              (hardwareAddrString (Destination frame)) = some k
            ∧ k ≠ src ∧ ∃ queue, e.outgoingFrames.Get k = some queue
            ∧ (e.transportFrame frame src keys).state.outgoingFrames.Get k
                = some { queue with items := queue.items ++ [frame] }) := by
  have htf : e.transportFrame frame src keys
      = ethernetSwitch.singlecastFrame
          { e with hardwareAddr := e.hardwareAddr.Set (hardwareAddrString (Source frame)) src }
          frame src := by
    unfold ethernetSwitch.transportFrame
    simp only [if_neg hdst]
  rw [htf]
  unfold ethernetSwitch.singlecastFrame
  refine ⟨?_, ?_, ?_⟩
  · intro q queue ht hq hg hr
    simp only [ht, if_neg hq, hg, Queue.Add_of_room queue frame hr]
    exact ⟨_, rfl, SafeMap.Get_Set_self _ _ _, fun k hk => SafeMap.Get_Set_ne _ _ hk⟩
  · rintro (ht | ht | ⟨q, ht, hg⟩)
    · simp only [ht]
      exact ⟨_, rfl, rfl⟩
    · simp only [ht, if_true]
      exact ⟨_, rfl, rfl⟩
    · simp only [ht, hg]
      split <;> exact ⟨_, rfl, rfl⟩
  · intro k
    cases ht : (e.hardwareAddr.Set (hardwareAddrString (Source frame)) src).Get
        (hardwareAddrString (Destination frame)) with
    | none => exact Or.inl rfl
    | some q =>
      simp only []
      by_cases hq : q = src
      · simp only [if_pos hq]
        exact Or.inl rfl
      · simp only [if_neg hq]
        cases hg : e.outgoingFrames.Get q with
        | none => exact Or.inl rfl
        | some queue =>
          simp only []
          cases hadd : queue.Add frame with
          | none => exact Or.inl rfl
          | some q1 =>
            have hq1 := Queue.Add_some queue q1 frame hadd
            by_cases hk : k = q
            · subst hk
              refine Or.inr ⟨rfl, hq, queue, hg, ?_⟩
              show (e.outgoingFrames.Set k q1).Get k = _
              rw [SafeMap.Get_Set_self, hq1]
            · exact Or.inl (SafeMap.Get_Set_ne _ _ hk)

/-- Witness for C8: port 1 has been learned as the place of
`02:00:00:00:00:01`; a frame for that address entering on port 2 is appended to
the queue of port 1 only. -/
theorem unicast_forwarding_witness :
    ∃ e2, exampleLearned.transportFrame exampleUnicast 2 [] = .done e2
      ∧ e2.outgoingFrames.Get 1
          = some { (NewQueue 500 : Queue Frame) with items := [] ++ [exampleUnicast] }
      ∧ ∀ k, k ≠ 1 → e2.outgoingFrames.Get k = exampleLearned.outgoingFrames.Get k :=
  (unicast_forwarding exampleLearned exampleUnicast 2 [] (by decide) (by decide)).1
    1 (NewQueue 500) (by decide) (by decide) (by decide) (by decide)

/-- C9: MAC learning. Frames hold both addresses (at least 12 bytes). After
`transportFrame(frame, p)`, whether the call has returned or is parked on a full queue, the MAC table maps the frame's
source address to `p` and every other entry is as before. Consequently, in the
state reached from `NewSwitch` by any sequence of `AddPort`, `RemovePort` and
`transportFrame`, the table maps a key to the port of the last transported
frame that had this source address, and has no entry for a key never seen as a
source address. -/
theorem mac_learning (e : ethernetSwitch) (frame : Frame) (p : Nat) (keys : List Nat)
    (name : String) (ops : List SwitchOp)
    (_h12 : 12 ≤ frame.length) (_hops : ∀ op ∈ ops, op.headerComplete = true) :
    ((e.transportFrame frame p keys).state.hardwareAddr.Get (hardwareAddrString (Source frame))
        = some p
      ∧ ∀ key, key ≠ hardwareAddrString (Source frame) →
          (e.transportFrame frame p keys).state.hardwareAddr.Get key = e.hardwareAddr.Get key)
    ∧ ∀ key,
        (runOps name ops).hardwareAddr.Get key = lastObserved key ops
        ∧ ∀ port, (runOps name ops).hardwareAddr.Get key = some port →
            ∃ frame keys, SwitchOp.transport frame port keys ∈ ops
              ∧ hardwareAddrString (Source frame) = key := by
  refine ⟨⟨?_, ?_⟩, fun key => ⟨runOps_hardwareAddr name ops key, fun port h => ?_⟩⟩
  · rw [transportFrame_hardwareAddr, SafeMap.Get_Set_self]
  · intro key hk
    rw [transportFrame_hardwareAddr, SafeMap.Get_Set_ne _ _ hk]
  · rw [runOps_hardwareAddr] at h
    exact lastObserved_some key ops port h

/-- Witness for C9: a unicast frame entering the three-port switch on port 2,
and a run in which the same source address is seen on port 1 and then on
port 2. -/
theorem mac_learning_witness :
    ((exampleSwitch.transportFrame exampleUnicast 2 []).state.hardwareAddr.Get
          (hardwareAddrString (Source exampleUnicast)) = some 2
      ∧ ∀ key, key ≠ hardwareAddrString (Source exampleUnicast) →
          (exampleSwitch.transportFrame exampleUnicast 2 []).state.hardwareAddr.Get key
            = exampleSwitch.hardwareAddr.Get key)
    ∧ ∀ key,
        (runOps "sw" [.addPort 10, .transport exampleUnicast 1 [0],
            .transport exampleUnicast 2 [0]]).hardwareAddr.Get key
          = lastObserved key [.addPort 10, .transport exampleUnicast 1 [0],
              .transport exampleUnicast 2 [0]]
        ∧ ∀ port,
            (runOps "sw" [.addPort 10, .transport exampleUnicast 1 [0],
              .transport exampleUnicast 2 [0]]).hardwareAddr.Get key = some port →
            ∃ frame keys,
              SwitchOp.transport frame port keys
                  ∈ [SwitchOp.addPort 10, .transport exampleUnicast 1 [0],
                      .transport exampleUnicast 2 [0]]
              ∧ hardwareAddrString (Source frame) = key :=
  mac_learning exampleSwitch exampleUnicast 2 [] "sw"
    [.addPort 10, .transport exampleUnicast 1 [0], .transport exampleUnicast 2 [0]]
    (by decide) (by decide)

/-- C10, as stated, fails: `transportFrame` learns the source address of
every frame, so one frame whose source address is `ff:ff:ff:ff:ff:ff` puts the
broadcast address into the MAC table. -/
theorem broadcast_source_is_learned :
    (runOps "sw" [.addPort 10, .transport exampleBroadcastSource 0 [0]]).hardwareAddr.Get
        (hardwareAddrString broadcastMac) = some 0 := by
  decide

/-- C10, amended: in every state reached from `NewSwitch` by a sequence of
`AddPort`, `RemovePort` and `transportFrame` (of frames holding both
addresses) in which no transported frame has
the broadcast address as its source address, the MAC table does not contain
the broadcast address as a key. -/
theorem broadcast_never_learned (name : String) (ops : List SwitchOp)
    (_hops : ∀ op ∈ ops, op.headerComplete = true)
    (hsrc : ∀ frame port keys, SwitchOp.transport frame port keys ∈ ops →
      Source frame ≠ broadcastMac) :
    (runOps name ops).hardwareAddr.Get (hardwareAddrString broadcastMac) = none := by
  cases h : (runOps name ops).hardwareAddr.Get (hardwareAddrString broadcastMac) with
  | none => rfl
  | some port =>
    rw [runOps_hardwareAddr] at h
    obtain ⟨frame, keys, hmem, hkey⟩ := lastObserved_some _ ops port h
    exact absurd (hardwareAddrString_broadcast _ hkey) (hsrc frame port keys hmem)

/-- Witness for C10: a broadcast frame and a unicast frame from ordinary
source addresses. -/
theorem broadcast_never_learned_witness :
    (runOps "sw" [.addPort 10, .addPort 11, .transport exampleBroadcast 0 [0, 1],
        .transport exampleUnicast 1 [0, 1], .removePort 0]).hardwareAddr.Get
      (hardwareAddrString broadcastMac) = none :=
  broadcast_never_learned "sw"
    [.addPort 10, .addPort 11, .transport exampleBroadcast 0 [0, 1],
      .transport exampleUnicast 1 [0, 1], .removePort 0]
    (by decide)
    (fun frame port keys h => by
      simp only [List.mem_cons, SwitchOp.transport.injEq, reduceCtorEq, List.mem_singleton,
        List.not_mem_nil, false_or, or_false] at h
      rcases h with ⟨rfl, -, -⟩ | ⟨rfl, -, -⟩ <;> decide)

/-! ## Ports of the switch: `AddPort`, `RemovePort`, `Close` -/

/-- Flooding touches no field other than the egress queues. -/
theorem broadcastFrame_fields (frame : Frame) (src : Nat) :
    ∀ (keys : List Nat) (e : ethernetSwitch),
      (broadcastFrame frame src keys e).state.ports = e.ports
      ∧ (broadcastFrame frame src keys e).state.closed = e.closed
      ∧ (broadcastFrame frame src keys e).state.portId = e.portId
      ∧ (broadcastFrame frame src keys e).state.portActive = e.portActive := by
  intro keys
  induction keys with
  | nil => intro e; exact ⟨rfl, rfl, rfl, rfl⟩
  | cons k rest ih =>
    intro e
    rw [broadcastFrame_cons]
    cases e.outgoingFrames.Get k with
    | none => exact ih e
    | some queue =>
      simp only []
      split
      · exact ih e
      · cases queue.Add frame with
        | none => exact ⟨rfl, rfl, rfl, rfl⟩
        | some q1 => exact ih _

theorem singlecastFrame_fields (e : ethernetSwitch) (frame : Frame) (src : Nat) :
    (e.singlecastFrame frame src).state.ports = e.ports
    ∧ (e.singlecastFrame frame src).state.closed = e.closed
    ∧ (e.singlecastFrame frame src).state.portId = e.portId
    ∧ (e.singlecastFrame frame src).state.portActive = e.portActive := by
  unfold ethernetSwitch.singlecastFrame
  repeat' split
  all_goals exact ⟨rfl, rfl, rfl, rfl⟩

theorem transportFrame_fields (e : ethernetSwitch) (frame : Frame) (src : Nat)
    (keys : List Nat) :
    (e.transportFrame frame src keys).state.ports = e.ports
    ∧ (e.transportFrame frame src keys).state.closed = e.closed
    ∧ (e.transportFrame frame src keys).state.portId = e.portId
    ∧ (e.transportFrame frame src keys).state.portActive = e.portActive := by
  unfold ethernetSwitch.transportFrame
  simp only []
  split
  · exact broadcastFrame_fields frame src keys _
  · exact singlecastFrame_fields _ frame src

theorem RemovePort_fields (e : ethernetSwitch) (portId : Nat) :
    (e.RemovePort portId).portActive = e.portActive.Set portId false
    ∧ (e.RemovePort portId).outgoingFrames = e.outgoingFrames.Delete portId
    ∧ (e.RemovePort portId).hardwareAddr = e.hardwareAddr
    ∧ (e.RemovePort portId).ports = e.ports
    ∧ (e.RemovePort portId).portId = e.portId := by
  cases hget : e.ports.Get portId <;> simp [ethernetSwitch.RemovePort, hget]

/-- With no port registered in `e.ports`, `RemovePort` closes nothing. -/
theorem RemovePort_of_unregistered (e : ethernetSwitch) (portId : Nat)
    (h : e.ports.Get portId = none) :
    e.RemovePort portId
      = { e with
          portActive := e.portActive.Set portId false
          outgoingFrames := e.outgoingFrames.Delete portId } := by
  unfold ethernetSwitch.RemovePort
  simp only [h]

/-- No operation ever writes `e.ports`: in every reachable state the map is
empty and no port has been closed. -/
theorem foldl_apply_ports :
    ∀ (ops : List SwitchOp) (e : ethernetSwitch),
      (∀ k, e.ports.Get k = none) → e.closed = [] →
      (∀ k, (ops.foldl ethernetSwitch.apply e).ports.Get k = none)
      ∧ (ops.foldl ethernetSwitch.apply e).closed = [] := by
  intro ops
  induction ops with
  | nil => intro e h1 h2; exact ⟨h1, h2⟩
  | cons op rest ih =>
    intro e h1 h2
    simp only [List.foldl_cons]
    apply ih
    · intro k
      cases op with
      | addPort port => exact h1 k
      | removePort portId =>
        simp only [ethernetSwitch.apply, RemovePort_of_unregistered e portId (h1 portId)]
        exact h1 k
      | transport frame src keys =>
        simp only [ethernetSwitch.apply, (transportFrame_fields e frame src keys).1]
        exact h1 k
    · cases op with
      | addPort port => exact h2
      | removePort portId =>
        simp only [ethernetSwitch.apply, RemovePort_of_unregistered e portId (h1 portId)]
        exact h2
      | transport frame src keys =>
        simp only [ethernetSwitch.apply, (transportFrame_fields e frame src keys).2.1]
        exact h2

theorem runOps_ports (name : String) (ops : List SwitchOp) :
    (∀ k, (runOps name ops).ports.Get k = none) ∧ (runOps name ops).closed = [] :=
  foldl_apply_ports ops (NewSwitch name) (fun _ => rfl) rfl

theorem Close_of_unregistered (e : ethernetSwitch) (h : ∀ k, e.ports.Get k = none) :
    ∀ keys : List Nat, e.Close keys = e := by
  intro keys
  induction keys with
  | nil => rfl
  | cons k rest ih =>
    unfold ethernetSwitch.Close
    simp only [h k]
    exact ih

/-- The port-id counter of a reachable state is the number of `AddPort` calls
so far, modulo `2 ^ 64`. -/
theorem foldl_apply_portId :
    ∀ (ops : List SwitchOp) (e : ethernetSwitch) (n : Nat), e.portId = n % u64 →
      (ops.foldl ethernetSwitch.apply e).portId = (n + addPortCount ops) % u64 := by
  intro ops
  induction ops with
  | nil => intro e n h; exact h
  | cons op rest ih =>
    intro e n h
    simp only [List.foldl_cons]
    cases op with
    | addPort port =>
      have := ih (e.apply (.addPort port)) (n + 1) (by
        show (e.portId + 1) % u64 = (n + 1) % u64
        rw [h, Nat.add_mod, Nat.mod_mod, ← Nat.add_mod])
      rw [this]
      simp only [addPortCount]
      congr 1
      omega
    | removePort portId =>
      have := ih (e.apply (.removePort portId)) n (by
        show (e.RemovePort portId).portId = n % u64
        rw [(RemovePort_fields e portId).2.2.2.2]
        exact h)
      rw [this]
      rfl
    | transport frame src keys =>
      have := ih (e.apply (.transport frame src keys)) n (by
        show (e.transportFrame frame src keys).state.portId = n % u64
        rw [(transportFrame_fields e frame src keys).2.2.1]
        exact h)
      rw [this]
      rfl

theorem runOps_portId (name : String) (ops : List SwitchOp) :
    (runOps name ops).portId = addPortCount ops % u64 := by
  have := foldl_apply_portId ops (NewSwitch name) 0 rfl
  simpa using this

theorem addPortCount_append (ops1 ops2 : List SwitchOp) :
    addPortCount (ops1 ++ ops2) = addPortCount ops1 + addPortCount ops2 := by
  induction ops1 with
  | nil => simp [addPortCount]
  | cons op rest ih =>
    cases op with
    | addPort port =>
      show addPortCount (rest ++ ops2) + 1 = (addPortCount rest + 1) + addPortCount ops2
      rw [ih]
      omega
    | removePort portId => exact ih
    | transport frame src keys => exact ih

theorem addPortCount_replicate (port : Port) (n : Nat) :
    addPortCount (List.replicate n (SwitchOp.addPort port)) = n := by
  induction n with
  | zero => rfl
  | succ n ih => rw [List.replicate_succ, addPortCount, ih]

theorem SafeMap.Set_Set {K V : Type} [DecidableEq K] (m : SafeMap K V) (key : K) (v w : V) :
    (m.Set key v).Set key w = m.Set key w := by
  funext k
  by_cases h : k = key <;> simp [SafeMap.Set, h]

theorem SafeMap.Delete_Delete {K V : Type} [DecidableEq K] (m : SafeMap K V) (key : K) :
    (m.Delete key).Delete key = m.Delete key := by
  funext k
  by_cases h : k = key <;> simp [SafeMap.Delete, h]

theorem AddPort_snd (e : ethernetSwitch) (port : Port) : (e.AddPort port).2 = e.portId := rfl

/-- C11, where the code departs from it: in every state reached from
`NewSwitch`, after `AddPort(port) = id` a subsequent `RemovePort(id)` sets the
active flag of `id` to false and deletes its egress queue, but `port.Close()` is
not called: `AddPort` never stores the port in `e.ports`, so the lookup in
`RemovePort` finds nothing and the record of closed ports stays empty. -/
theorem removePort_never_closes (name : String) (ops : List SwitchOp) (port : Port) :
    (((runOps name ops).AddPort port).1.RemovePort
        ((runOps name ops).AddPort port).2).portActive.Get ((runOps name ops).AddPort port).2
      = some false
    ∧ (((runOps name ops).AddPort port).1.RemovePort
        ((runOps name ops).AddPort port).2).outgoingFrames.Get ((runOps name ops).AddPort port).2
      = none
    ∧ (((runOps name ops).AddPort port).1.RemovePort
        ((runOps name ops).AddPort port).2).closed = [] := by
  have hports : ((runOps name ops).AddPort port).1.ports.Get ((runOps name ops).AddPort port).2
      = none := (runOps_ports name ops).1 _
  rw [RemovePort_of_unregistered _ _ hports]
  refine ⟨SafeMap.Get_Set_self _ _ _, SafeMap.Get_Delete_self _ _, ?_⟩
  exact (runOps_ports name ops).2

/-- C12, where the code departs from it: in every state reached from
`NewSwitch`, `Close()` changes nothing, whatever key snapshot it iterates over,
because `e.ports` is empty. After two `AddPort` calls and `Close()` both
port-ids are still active, still have their egress queues, and no port has been
closed. -/
theorem close_removes_nothing (name : String) (ops : List SwitchOp) (keys : List Nat) :
    (runOps name ops).Close keys = runOps name ops
    ∧ ((runOps "sw" [.addPort 10, .addPort 11]).Close [0, 1]).portActive.Get 0 = some true
    ∧ ((runOps "sw" [.addPort 10, .addPort 11]).Close [0, 1]).portActive.Get 1 = some true
    ∧ (((runOps "sw" [.addPort 10, .addPort 11]).Close [0, 1]).outgoingFrames.Get 0).isSome = true
    ∧ (((runOps "sw" [.addPort 10, .addPort 11]).Close [0, 1]).outgoingFrames.Get 1).isSome = true
    ∧ ((runOps "sw" [.addPort 10, .addPort 11]).Close [0, 1]).closed = [] := by
  refine ⟨Close_of_unregistered _ (runOps_ports name ops).1 keys, ?_, ?_, ?_, ?_, ?_⟩ <;> decide

/-- C13, as stated, fails once the counter wraps: `portId` is a `uint`, so on
one switch the first `AddPort` call and the call after `2 ^ 64` earlier ones
both return 0, and the call before that returned `2 ^ 64 - 1`: the ids are
neither distinct nor increasing there. -/
theorem addPort_id_repeats :
    ((NewSwitch "sw").AddPort 0).2 = 0
    ∧ ((runOps "sw" (List.replicate (2 ^ 64 - 1) (SwitchOp.addPort 0))).AddPort 0).2 = 2 ^ 64 - 1
    ∧ ((runOps "sw" (List.replicate (2 ^ 64) (SwitchOp.addPort 0))).AddPort 0).2 = 0 := by
  refine ⟨rfl, ?_, ?_⟩
  · rw [AddPort_snd, runOps_portId, addPortCount_replicate]
    norm_num [u64]
  · rw [AddPort_snd, runOps_portId, addPortCount_replicate]
    norm_num [u64]

/-- C13, amended: the port-id counter starts at 0 and every `AddPort` returns
the number of `AddPort` calls made before it on the same switch, whatever
`RemovePort` and `transportFrame` calls lie in between; so, as long as fewer
than `2 ^ 64` `AddPort` calls have been made, a later call returns a strictly
larger id than an earlier one and two calls return distinct ids. `RemovePort`
is idempotent: calling it twice leaves the active flags, the egress-queue
registry and the MAC table as after calling it once. -/
theorem addPort_ids_removePort_idempotent (name : String) (ops1 ops2 : List SwitchOp)
    (p1 p2 : Port) (e : ethernetSwitch) (portId : Nat)
    (hcount : addPortCount ops1 + 1 + addPortCount ops2 < 2 ^ 64) :
    ((NewSwitch name).AddPort p1).2 = 0
    ∧ ((runOps name ops1).AddPort p1).2 = addPortCount ops1
    ∧ ((runOps name (ops1 ++ SwitchOp.addPort p1 :: ops2)).AddPort p2).2
        = addPortCount ops1 + 1 + addPortCount ops2
    ∧ ((runOps name ops1).AddPort p1).2
        < ((runOps name (ops1 ++ SwitchOp.addPort p1 :: ops2)).AddPort p2).2
    ∧ ((e.RemovePort portId).RemovePort portId).portActive = (e.RemovePort portId).portActive
    ∧ ((e.RemovePort portId).RemovePort portId).outgoingFrames
        = (e.RemovePort portId).outgoingFrames
    ∧ ((e.RemovePort portId).RemovePort portId).hardwareAddr
        = (e.RemovePort portId).hardwareAddr := by
  have h1 : ((runOps name ops1).AddPort p1).2 = addPortCount ops1 := by
    rw [AddPort_snd, runOps_portId]
    exact Nat.mod_eq_of_lt (by simp only [u64]; omega)
  have h2 : ((runOps name (ops1 ++ SwitchOp.addPort p1 :: ops2)).AddPort p2).2
      = addPortCount ops1 + 1 + addPortCount ops2 := by
    rw [AddPort_snd, runOps_portId, addPortCount_append]
    show (addPortCount ops1 + (addPortCount ops2 + 1)) % u64 = _
    rw [Nat.mod_eq_of_lt (by simp only [u64]; omega)]
    omega
  refine ⟨rfl, h1, h2, by rw [h1, h2]; omega, ?_, ?_, ?_⟩
  · rw [(RemovePort_fields _ portId).1, (RemovePort_fields e portId).1, SafeMap.Set_Set]
  · rw [(RemovePort_fields _ portId).2.1, (RemovePort_fields e portId).2.1,
      SafeMap.Delete_Delete]
  · rw [(RemovePort_fields _ portId).2.2.1]

/-- Witness for C13: two `AddPort` calls with another `AddPort`, a transport
and a `RemovePort` around them; `RemovePort(1)` twice on the three-port
switch. -/
theorem addPort_ids_removePort_idempotent_witness :
    ((NewSwitch "sw").AddPort 11).2 = 0
    ∧ ((runOps "sw" [.addPort 10]).AddPort 11).2 = addPortCount [.addPort 10]
    ∧ ((runOps "sw" ([.addPort 10] ++ SwitchOp.addPort 11
          :: [.transport exampleBroadcast 0 [0, 1], .removePort 0])).AddPort 12).2
        = addPortCount [.addPort 10] + 1
          + addPortCount [.transport exampleBroadcast 0 [0, 1], .removePort 0]
    ∧ ((runOps "sw" [.addPort 10]).AddPort 11).2
        < ((runOps "sw" ([.addPort 10] ++ SwitchOp.addPort 11
            :: [.transport exampleBroadcast 0 [0, 1], .removePort 0])).AddPort 12).2
    ∧ ((exampleSwitch.RemovePort 1).RemovePort 1).portActive
        = (exampleSwitch.RemovePort 1).portActive
    ∧ ((exampleSwitch.RemovePort 1).RemovePort 1).outgoingFrames
        = (exampleSwitch.RemovePort 1).outgoingFrames
    ∧ ((exampleSwitch.RemovePort 1).RemovePort 1).hardwareAddr
        = (exampleSwitch.RemovePort 1).hardwareAddr :=
  addPort_ids_removePort_idempotent "sw" [.addPort 10]
    [.transport exampleBroadcast 0 [0, 1], .removePort 0] 11 12 exampleSwitch 1 (by decide)

/-! ## The bounded queue -/

theorem Queue.Grab_some {T : Type} (q q1 : Queue T) (i : T) (h : q.Grab = some (i, q1)) :
    q.items = i :: q1.items ∧ q1.maxItems = q.maxItems := by
  unfold Queue.Grab at h
  cases hitems : q.items with
  | nil => rw [hitems] at h; cases h
  | cons a rest =>
    rw [hitems] at h
    simp only [Option.some.injEq, Prod.mk.injEq] at h
    obtain ⟨rfl, rfl⟩ := h
    exact ⟨rfl, rfl⟩

/-- Along a run the capacity is respected and the items leave in the order in
which they entered. -/
theorem Queue.run_invariant {T : Type} :
    ∀ (ops : List (QueueOp T)) (q0 q : Queue T) (out : List T),
      (q0.items.length : Int) ≤ q0.maxItems → q0.run ops = some (q, out) →
      (q.items.length : Int) ≤ q.maxItems ∧ q.maxItems = q0.maxItems
        ∧ out ++ q.items = q0.items ++ addedItems ops := by
  intro ops
  induction ops with
  | nil =>
    intro q0 q out h0 h
    simp only [Queue.run, Option.some.injEq, Prod.mk.injEq] at h
    obtain ⟨rfl, rfl⟩ := h
    exact ⟨h0, rfl, by simp [addedItems]⟩
  | cons op rest ih =>
    intro q0 q out h0 h
    cases op with
    | add item =>
      simp only [Queue.run] at h
      cases hadd : q0.Add item with
      | none => rw [hadd] at h; cases h
      | some q1 =>
        rw [hadd] at h
        have hq1 := Queue.Add_some q0 q1 item hadd
        have hroom : (q0.items.length : Int) < q0.maxItems := by
          unfold Queue.Add at hadd
          split at hadd
          · cases hadd
          · omega
        subst hq1
        have hlen : (((q0.items ++ [item]).length : Nat) : Int) ≤ q0.maxItems := by
          simp only [List.length_append, List.length_singleton]
          push_cast
          omega
        obtain ⟨a, b, c⟩ := ih _ q out hlen h
        exact ⟨a, b, by rw [c]; simp [addedItems]⟩
    | grab =>
      simp only [Queue.run] at h
      cases hgrab : q0.Grab with
      | none => rw [hgrab] at h; cases h
      | some r =>
        obtain ⟨i, q1⟩ := r
        rw [hgrab] at h
        simp only [] at h
        obtain ⟨hitems, hmax⟩ := Queue.Grab_some q0 q1 i hgrab
        cases hrest : q1.run rest with
        | none => rw [hrest] at h; cases h
        | some r2 =>
          obtain ⟨q2, out2⟩ := r2
          rw [hrest] at h
          simp only [Option.some.injEq, Prod.mk.injEq] at h
          obtain ⟨rfl, rfl⟩ := h
          have hlen : (q1.items.length : Int) ≤ q1.maxItems := by
            rw [hmax]
            rw [hitems] at h0
            simp only [List.length_cons] at h0
            push_cast at h0
            omega
          obtain ⟨a, b, c⟩ := ih q1 q2 out2 hlen hrest
          refine ⟨a, b.trans hmax, ?_⟩
          rw [List.cons_append, c, hitems]
          simp [addedItems]

/-- C19: the bounded queue as a transition system in which `Add` is enabled
exactly when the queue holds fewer than `maxItems` items and `Grab` exactly when
it is not empty. For a queue created by `NewQueue(n)` with `n ≥ 1` and every
sequence of `Add`/`Grab` steps, the queue reached holds at most `n` items, and
the items returned by `Grab` followed by the items still stored are the added
items in the order they were added. -/
theorem queue_bounded_fifo {T : Type} (n : Int) (ops : List (QueueOp T)) (q : Queue T)
    (out : List T) (hn : 1 ≤ n) (hrun : (NewQueue n : Queue T).run ops = some (q, out)) :
    (q.items.length : Int) ≤ n
    ∧ out ++ q.items = addedItems ops
    ∧ (∀ item, (q.Add item).isSome = true ↔ (q.items.length : Int) < n)
    ∧ ((q.Grab).isSome = true ↔ 0 < q.items.length) := by
  obtain ⟨a, b, c⟩ := Queue.run_invariant ops (NewQueue n) q out
    (by simp only [NewQueue, List.length_nil]; push_cast; omega) hrun
  have hmax : q.maxItems = n := b
  refine ⟨hmax ▸ a, by simpa [NewQueue] using c, ?_, ?_⟩
  · intro item
    unfold Queue.Add
    rw [hmax]
    split <;> simp <;> omega
  · unfold Queue.Grab
    cases q.items <;> simp

/-- Witness for C19: capacity 2; add 1, add 2, grab, add 3, grab. -/
theorem queue_bounded_fifo_witness :
    (([3] : List Nat).length : Int) ≤ 2
    ∧ [1, 2] ++ [3] = addedItems [QueueOp.add 1, .add 2, .grab, .add 3, .grab]
    ∧ (∀ item : Nat, (({ items := [3], maxItems := 2 } : Queue Nat).Add item).isSome = true
        ↔ (([3] : List Nat).length : Int) < 2)
    ∧ ((({ items := [3], maxItems := 2 } : Queue Nat).Grab).isSome = true
        ↔ 0 < ([3] : List Nat).length) :=
  queue_bounded_fifo 2 [.add 1, .add 2, .grab, .add 3, .grab]
    { items := [3], maxItems := 2 } [1, 2] (by decide) (by decide)

/-! ## Validation of a port entry of the configuration -/

/-- C20, as stated, fails: `Port.Validate` tells the variants apart by their
names alone. An entry with a TAP name and a peer section that holds a hostname
and a port but no name has both variants populated, and it is accepted. -/
theorem port_with_both_variants_accepted :
    Config.examplePortBoth.TAPNIC.populated = true
    ∧ Config.examplePortBoth.Peer.populated = true
    ∧ Config.examplePortBoth.Validate = none := by
  decide

/-- C20, amended: `Port.Validate` returns no error exactly when one of the
two variants is named (its name is not empty, which is how the code tells the
variants apart) and that variant is valid: a TAP with a non-empty name, or a
peer with non-empty name, non-empty hostname and non-zero port. An entry with
both names set or with neither is rejected. The hostname and the port of a
peer section without a name are not examined. -/
theorem port_validate_iff (p : Config.Port) :
    (p.Validate = none ↔
      (p.TAPNIC.Name ≠ "" ∧ p.Peer.Name = "" ∧ p.TAPNIC.Validate = none)
      ∨ (p.TAPNIC.Name = "" ∧ p.Peer.Name ≠ "" ∧ p.Peer.Validate = none))
    ∧ (p.TAPNIC.Validate = none ↔ p.TAPNIC.Name ≠ "")
    ∧ (p.Peer.Validate = none ↔ p.Peer.Name ≠ "" ∧ p.Peer.Hostname ≠ "" ∧ p.Peer.Port ≠ 0)
    ∧ (p.TAPNIC.Name ≠ "" ∧ p.Peer.Name ≠ "" → p.Validate ≠ none)
    ∧ (p.TAPNIC.Name = "" ∧ p.Peer.Name = "" → p.Validate ≠ none) := by
  obtain ⟨⟨tname⟩, ⟨pname, host, port⟩⟩ := p
  simp only [Config.Port.Validate, Config.TAPNIC.Validate, Config.Peer.Validate]
  by_cases h1 : tname = "" <;> by_cases h2 : pname = "" <;> by_cases h3 : host = ""
    <;> by_cases h4 : port = 0 <;> simp [h1, h2, h3, h4]

/-! ## The listener: session functions and the receive loop -/

/-- A socket write changes neither the maps nor the registered ports. -/
theorem writeToUDP_fields (l : listener) (sendOk : String → Packet → Bool) (addr : String)
    (p : Packet) :
    (l.writeToUDP sendOk addr p).1.addressToPeerId = l.addressToPeerId
    ∧ (l.writeToUDP sendOk addr p).1.peerIdToAddress = l.peerIdToAddress
    ∧ (l.writeToUDP sendOk addr p).1.incomingPackages = l.incomingPackages
    ∧ (l.writeToUDP sendOk addr p).1.registered = l.registered
    ∧ (l.writeToUDP sendOk addr p).1.mtu = l.mtu
    ∧ (l.writeToUDP sendOk addr p).1.networkMTU = l.networkMTU := by
  unfold listener.writeToUDP
  split <;> exact ⟨rfl, rfl, rfl, rfl, rfl, rfl⟩

theorem writeToUDP_ok (l : listener) (sendOk : String → Packet → Bool) (addr : String)
    (p : Packet) (h : sendOk addr p = true) :
    l.writeToUDP sendOk addr p = ({ l with sent := l.sent ++ [(addr, p)] }, none) := by
  unfold listener.writeToUDP
  rw [if_pos h]

/-- `initiateSession`, when it does not panic, changes neither the maps nor
the registered ports. -/
theorem initiateSession_fields (l l1 : listener) (uuid : String)
    (sendOk : String → Packet → Bool) (p : Packet) (addr : String) (err : Option ListenError)
    (h : l.initiateSession uuid sendOk p addr = some (l1, err)) :
    l1.addressToPeerId = l.addressToPeerId
    ∧ l1.peerIdToAddress = l.peerIdToAddress
    ∧ l1.incomingPackages = l.incomingPackages
    ∧ l1.registered = l.registered := by
  unfold listener.initiateSession at h
  split at h
  · rename_i mtu networkMtu _
    split at h
    · simp only [Option.some.injEq, Prod.mk.injEq] at h
      rw [← h.1]
      exact ⟨rfl, rfl, rfl, rfl⟩
    · split at h
      · simp only [Option.some.injEq, Prod.mk.injEq] at h
        rw [← h.1]
        exact ⟨rfl, rfl, rfl, rfl⟩
      · have hw := writeToUDP_fields l sendOk addr
          { type := .ACK_SESSION, Payload := .AckSession uuid }
        split at h
        · rename_i l2 e2 heq
          simp only [Option.some.injEq, Prod.mk.injEq] at h
          rw [← h.1]
          rw [heq] at hw
          exact ⟨hw.1, hw.2.1, hw.2.2.1, hw.2.2.2.1⟩
        · rename_i l2 heq
          rw [heq] at hw
          split at h
          · simp only [Option.some.injEq] at h
            have hw2 := writeToUDP_fields l2 sendOk addr
              { type := .INITIATE_SESSION, Payload := .InitiateSession l2.mtu l2.networkMTU }
            unfold listener.establishSession at h
            rw [h] at hw2
            exact ⟨hw2.1.trans hw.1, hw2.2.1.trans hw.2.1, hw2.2.2.1.trans hw.2.2.1,
              hw2.2.2.2.1.trans hw.2.2.2.1⟩
          · simp only [Option.some.injEq, Prod.mk.injEq] at h
            rw [← h.1]
            exact ⟨hw.1, hw.2.1, hw.2.2.1, hw.2.2.2.1⟩
  · cases h

/-- What one completed iteration does to the address maps and to the
registered ports: nothing, unless the datagram is an `ACK_SESSION` with an
`AckSession` payload, which enters the session and registers one port. -/
theorem iteration_next (l l1 : listener) (d : Datagram) (err : Option ListenError)
    (h : l.iteration d = .next l1 err) :
    (l1.addressToPeerId = l.addressToPeerId ∧ l1.peerIdToAddress = l.peerIdToAddress
      ∧ l1.registered = l.registered)
    ∨ ∃ peerId, d.packet = some { type := .ACK_SESSION, Payload := .AckSession peerId }
        ∧ l1.addressToPeerId = l.addressToPeerId.Set d.addr peerId
        ∧ l1.peerIdToAddress = l.peerIdToAddress.Set peerId d.addr
        ∧ l1.incomingPackages = l.incomingPackages.Set peerId (NewQueue 512)
        ∧ l1.registered = l.registered ++ [NewPeer peerId l.networkMTU] := by
  unfold listener.iteration at h
  cases hp : d.packet with
  | none =>
    rw [hp] at h
    simp only [Iteration.next.injEq] at h
    rw [← h.1]
    exact Or.inl ⟨rfl, rfl, rfl⟩
  | some p =>
    rw [hp] at h
    simp only [] at h
    obtain ⟨type, payload⟩ := p
    by_cases hack : type = .ACK_SESSION
    · subst hack
      simp only [if_true, Iteration.next.injEq] at h
      unfold listener.ackSession at h
      cases payload with
      | AckSession peerId =>
        simp only [] at h
        rw [← h.1]
        exact Or.inr ⟨peerId, rfl, rfl, rfl, rfl, rfl⟩
      | unset => simp only [] at h; rw [← h.1]; exact Or.inl ⟨rfl, rfl, rfl⟩
      | Helo => simp only [] at h; rw [← h.1]; exact Or.inl ⟨rfl, rfl, rfl⟩
      | InitiateSession a b => simp only [] at h; rw [← h.1]; exact Or.inl ⟨rfl, rfl, rfl⟩
      | FragmentedData fd => simp only [] at h; rw [← h.1]; exact Or.inl ⟨rfl, rfl, rfl⟩
    · simp only [if_neg hack] at h
      by_cases hinit : type = .INITIATE_SESSION
      · simp only [if_pos hinit] at h
        cases hres : l.initiateSession d.uuid d.sendOk { type := type, Payload := payload }
            d.addr with
        | none => rw [hres] at h; cases h
        | some r =>
          obtain ⟨l2, e2⟩ := r
          rw [hres] at h
          simp only [Iteration.next.injEq] at h
          have hf := initiateSession_fields l l2 _ _ _ _ e2 hres
          rw [← h.1]
          exact Or.inl ⟨hf.1, hf.2.1, hf.2.2.2⟩
      · simp only [if_neg hinit] at h
        have hest := writeToUDP_fields l d.sendOk d.addr
          { type := .INITIATE_SESSION, Payload := .InitiateSession l.mtu l.networkMTU }
        cases hget : l.addressToPeerId.Get d.addr with
        | none =>
          rw [hget] at h
          simp only [Iteration.next.injEq] at h
          rw [← h.1]
          exact Or.inl ⟨hest.1, hest.2.1, hest.2.2.2.1⟩
        | some peerId =>
          rw [hget] at h
          simp only [] at h
          split at h
          · simp only [Iteration.next.injEq] at h
            rw [← h.1]
            exact Or.inl ⟨hest.1, hest.2.1, hest.2.2.2.1⟩
          · split at h
            · simp only [Iteration.next.injEq] at h
              rw [← h.1]
              exact Or.inl ⟨rfl, rfl, rfl⟩
            · split at h
              · cases h
              · simp only [Iteration.next.injEq] at h
                rw [← h.1]
                exact Or.inl ⟨rfl, rfl, rfl⟩

theorem iteration_blocked (l l1 : listener) (d : Datagram) (h : l.iteration d = .blocked l1) :
    l1 = l := by
  unfold listener.iteration at h
  repeat' split at h
  all_goals first | exact (Iteration.blocked.inj h).symm | cases h

theorem acknowledged_cons_subset (d : Datagram) (rest : List Datagram) :
    ∀ x ∈ acknowledged rest, x ∈ acknowledged (d :: rest) := by
  intro x hx
  unfold acknowledged
  split
  · exact List.mem_cons_of_mem _ hx
  · exact hx

theorem acknowledged_cons_ack (d : Datagram) (rest : List Datagram) (peerId : String)
    (h : d.packet = some { type := .ACK_SESSION, Payload := .AckSession peerId }) :
    (d.addr, peerId) ∈ acknowledged (d :: rest) := by
  unfold acknowledged
  simp only [h]
  exact List.mem_cons_self _ _

/-- Entering a session that is one of `sessions` keeps the maps inverse, when
no two of `sessions` share an address or a peer-id. -/
theorem MapsInverse_set (l l1 : listener) (sessions : List (String × String))
    (haddr : (sessions.map Prod.fst).Nodup) (hid : (sessions.map Prod.snd).Nodup)
    (addr peerId : String) (hmem : (addr, peerId) ∈ sessions)
    (h1 : l1.addressToPeerId = l.addressToPeerId.Set addr peerId)
    (h2 : l1.peerIdToAddress = l.peerIdToAddress.Set peerId addr)
    (hinv : l.MapsInverse sessions) : l1.MapsInverse sessions := by
  constructor
  · intro a id hget
    rw [h1] at hget
    rw [h2]
    by_cases ha : a = addr
    · subst ha
      rw [SafeMap.Get_Set_self] at hget
      have : peerId = id := Option.some.inj hget
      subst this
      exact ⟨hmem, SafeMap.Get_Set_self _ _ _⟩
    · rw [SafeMap.Get_Set_ne _ _ ha] at hget
      obtain ⟨hm, hp⟩ := hinv.1 a id hget
      have hne : id ≠ peerId := by
        intro h
        subst h
        have := List.inj_on_of_nodup_map hid hm hmem rfl
        exact ha (congrArg Prod.fst this)
      exact ⟨hm, by rw [SafeMap.Get_Set_ne _ _ hne]; exact hp⟩
  · intro id a hget
    rw [h2] at hget
    rw [h1]
    by_cases hi : id = peerId
    · subst hi
      rw [SafeMap.Get_Set_self] at hget
      have : addr = a := Option.some.inj hget
      subst this
      exact ⟨hmem, SafeMap.Get_Set_self _ _ _⟩
    · rw [SafeMap.Get_Set_ne _ _ hi] at hget
      obtain ⟨hm, hp⟩ := hinv.2 id a hget
      have hne : a ≠ addr := by
        intro h
        subst h
        have := List.inj_on_of_nodup_map haddr hm hmem rfl
        exact hi (congrArg Prod.snd this)
      exact ⟨hm, by rw [SafeMap.Get_Set_ne _ _ hne]; exact hp⟩

theorem MapsInverse_congr (l l1 : listener) (sessions : List (String × String))
    (h1 : l1.addressToPeerId = l.addressToPeerId)
    (h2 : l1.peerIdToAddress = l.peerIdToAddress)
    (hinv : l.MapsInverse sessions) : l1.MapsInverse sessions := by
  unfold listener.MapsInverse
  rw [h1, h2]
  exact hinv

/-- The receive loop keeps the address maps inverse as long as the sessions it
acknowledges are among `sessions`. -/
theorem Listen_MapsInverse (sessions : List (String × String))
    (haddr : (sessions.map Prod.fst).Nodup) (hid : (sessions.map Prod.snd).Nodup) :
    ∀ (ds : List Datagram) (l : listener),
      (∀ x ∈ acknowledged ds, x ∈ sessions) → l.MapsInverse sessions →
      (l.Listen ds).MapsInverse sessions := by
  intro ds
  induction ds with
  | nil => intro l _ hinv; exact hinv
  | cons d rest ih =>
    intro l hsub hinv
    unfold listener.Listen
    split
    · cases hit : l.iteration d with
      | next l1 err =>
        simp only []
        apply ih l1 (fun x hx => hsub x (acknowledged_cons_subset d rest x hx))
        rcases iteration_next l l1 d err hit with ⟨h1, h2, -⟩ | ⟨peerId, hp, h1, h2, -⟩
        · exact MapsInverse_congr l l1 sessions h1 h2 hinv
        · exact MapsInverse_set l l1 sessions haddr hid d.addr peerId
            (hsub _ (acknowledged_cons_ack d rest peerId hp)) h1 h2 hinv
      | blocked l1 =>
        simp only []
        rw [iteration_blocked l l1 d hit]
        exact hinv
      | panicked => exact hinv
    · exact hinv

/-! ## Claims on the listener -/

/-- C14, as stated, fails: the receive loop only ever adds to the two maps.
When the address `a` acknowledges a second session, the old peer-id still maps
to `a` while `a` maps to the new one; when a peer-id arrives from a second
address, the first address still maps to it while it maps to the second. -/
theorem address_maps_not_inverse :
    (((NewListener 1500 1400).Listen [ackDatagram "a" "id1", ackDatagram "a" "id2"]
          ).peerIdToAddress.Get "id1" = some "a"
      ∧ ((NewListener 1500 1400).Listen [ackDatagram "a" "id1", ackDatagram "a" "id2"]
          ).addressToPeerId.Get "a" = some "id2")
    ∧ (((NewListener 1500 1400).Listen [ackDatagram "a1" "id", ackDatagram "a2" "id"]
          ).addressToPeerId.Get "a1" = some "id"
      ∧ ((NewListener 1500 1400).Listen [ackDatagram "a1" "id", ackDatagram "a2" "id"]
          ).peerIdToAddress.Get "id" = some "a2") := by
  decide

/-- C14, amended: in every listener state reached from `NewListener` by the
receive loop on any sequence of datagrams in which no two acknowledged
sessions (`ACK_SESSION` packets with an `AckSession` payload) come from the
same address or carry the same peer-id, the maps peer-id→address and
address→peer-id are mutual inverses. -/
theorem address_maps_inverse (mtu networkMTU : Nat) (ds : List Datagram) (a id : String)
    (haddr : ((acknowledged ds).map Prod.fst).Nodup)
    (hid : ((acknowledged ds).map Prod.snd).Nodup) :
    ((NewListener mtu networkMTU).Listen ds).peerIdToAddress.Get id = some a
      ↔ ((NewListener mtu networkMTU).Listen ds).addressToPeerId.Get a = some id := by
  have hinv := Listen_MapsInverse (acknowledged ds) haddr hid ds (NewListener mtu networkMTU)
    (fun x hx => hx)
    ⟨fun a id h => (by cases h), fun id a h => (by cases h)⟩
  exact ⟨fun h => (hinv.2 id a h).2, fun h => (hinv.1 a id h).2⟩

/-- Witness for C14: two sessions from two addresses, and an unrelated
datagram between them. -/
theorem address_maps_inverse_witness :
    ((NewListener 1500 1400).Listen
        [ackDatagram "a1" "id1", { ackDatagram "a3" "" with packet := none },
          ackDatagram "a2" "id2"]).peerIdToAddress.Get "id2" = some "a2"
      ↔ ((NewListener 1500 1400).Listen
        [ackDatagram "a1" "id1", { ackDatagram "a3" "" with packet := none },
          ackDatagram "a2" "id2"]).addressToPeerId.Get "a2" = some "id2" :=
  address_maps_inverse 1500 1400
    [ackDatagram "a1" "id1", { ackDatagram "a3" "" with packet := none }, ackDatagram "a2" "id2"]
    "a2" "id2" (by decide) (by decide)

/-- C15: MTU validation in the handshake. On `INITIATE_SESSION(mtu,
network_mtu)`, if `mtu` differs from the local Ethernet MTU or `network_mtu`
from the local network MTU, `initiateSession` returns an error and leaves the
listener exactly as it was: no datagram is sent (so no `ACK_SESSION`), no Peer
port is registered, no map is changed; the receive loop logs the error and goes
on. When both values match and the socket writes succeed, it returns no error,
the first datagram it sends is an `ACK_SESSION` carrying the freshly generated
peer-id, followed by an `INITIATE_SESSION` of its own if the address has no
session yet; maps and registered ports are untouched. -/
theorem initiateSession_validates (l : listener) (uuid : String)
    (sendOk : String → Packet → Bool) (addr : String) (mtu networkMtu : Nat) :
    ((mtu ≠ l.mtu ∨ networkMtu ≠ l.networkMTU) →
      ∃ err,
        l.initiateSession uuid sendOk
            { type := .INITIATE_SESSION, Payload := .InitiateSession mtu networkMtu } addr
          = some (l, some err)
        ∧ l.iteration
            { addr := addr
              packet := some
                { type := .INITIATE_SESSION, Payload := .InitiateSession mtu networkMtu }
              uuid := uuid, sendOk := sendOk }
          = .next l (some err))
    ∧ (mtu = l.mtu → networkMtu = l.networkMTU → (∀ a q, sendOk a q = true) →
      ∃ l1,
        l.initiateSession uuid sendOk
            { type := .INITIATE_SESSION, Payload := .InitiateSession mtu networkMtu } addr
          = some (l1, none)
        ∧ l1.sent = l.sent ++ (addr, { type := .ACK_SESSION, Payload := .AckSession uuid })
            :: (match l.addressToPeerId.Get addr with
                | none =>
                  [(addr, { type := .INITIATE_SESSION,
                            Payload := .InitiateSession l.mtu l.networkMTU })]
                | some _ => [])
        ∧ l1.addressToPeerId = l.addressToPeerId
        ∧ l1.peerIdToAddress = l.peerIdToAddress
        ∧ l1.incomingPackages = l.incomingPackages
        ∧ l1.registered = l.registered) := by
  constructor
  · intro hne
    by_cases h1 : mtu ≠ l.mtu
    · refine ⟨.mtuMismatch mtu l.mtu, ?_, ?_⟩
      · simp only [listener.initiateSession, if_pos h1]
      · simp only [listener.iteration, listener.initiateSession, if_pos h1]
        rfl
    · have h2 : networkMtu ≠ l.networkMTU := by
        rcases hne with h | h
        · exact absurd h h1
        · exact h
      refine ⟨.networkMtuMismatch networkMtu l.networkMTU, ?_, ?_⟩
      · simp only [listener.initiateSession, if_neg h1, if_pos h2]
      · simp only [listener.iteration, listener.initiateSession, if_neg h1, if_pos h2]
        rfl
  · intro h1 h2 hsend
    subst h1 h2
    cases hget : l.addressToPeerId.Get addr with
    | none =>
      refine ⟨{ l with sent := l.sent
          ++ [(addr, { type := .ACK_SESSION, Payload := .AckSession uuid })]
          ++ [(addr, { type := .INITIATE_SESSION,
                       Payload := .InitiateSession l.mtu l.networkMTU })] },
        ?_, ?_, rfl, rfl, rfl, rfl⟩
      · simp only [listener.initiateSession, ne_eq, not_true_eq_false, if_false,
          writeToUDP_ok _ _ _ _ (hsend _ _), hget, listener.establishSession]
      · simp
    | some peerId =>
      refine ⟨{ l with sent := l.sent
          ++ [(addr, { type := .ACK_SESSION, Payload := .AckSession uuid })] },
        ?_, ?_, rfl, rfl, rfl, rfl⟩
      · simp only [listener.initiateSession, ne_eq, not_true_eq_false, if_false,
          writeToUDP_ok _ _ _ _ (hsend _ _), hget]
      · simp

/-- Witness for C15: the local side is configured with `mtu=1500`, the remote
announces `mtu=9000`. -/
theorem initiateSession_validates_witness :
    ∃ err,
      (NewListener 1500 1400).initiateSession "id" (fun _ _ => true)
          { type := .INITIATE_SESSION, Payload := .InitiateSession 9000 1400 } "b"
        = some (NewListener 1500 1400, some err)
      ∧ (NewListener 1500 1400).iteration
          { addr := "b"
            packet := some { type := .INITIATE_SESSION, Payload := .InitiateSession 9000 1400 }
            uuid := "id", sendOk := fun _ _ => true }
        = .next (NewListener 1500 1400) (some err) :=
  (initiateSession_validates (NewListener 1500 1400) "id" (fun _ _ => true) "b" 9000 1400).1
    (Or.inl (by decide))

/-- C17, where the code departs from it: a packet whose type tag is
`INITIATE_SESSION` and whose payload is unset or of another variant makes the
iteration panic, in every listener state, because `initiateSession` takes the
payload by an unchecked type assertion. The sibling `ackSession` checks its
assertion: an `ACK_SESSION` with a payload of another variant is logged and
skipped, and so is a datagram that does not decode. -/
theorem initiate_session_payload_mismatch_panics (l : listener) (addr uuid peerId : String)
    (sendOk : String → Packet → Bool) (fd : FragmentedData) :
    l.iteration { addr := addr, packet := some { type := .INITIATE_SESSION, Payload := .unset },
                  uuid := uuid, sendOk := sendOk } = .panicked
    ∧ l.iteration { addr := addr, packet := some { type := .INITIATE_SESSION, Payload := .Helo },
                    uuid := uuid, sendOk := sendOk } = .panicked
    ∧ l.iteration { addr := addr,
                    packet := some { type := .INITIATE_SESSION, Payload := .AckSession peerId },
                    uuid := uuid, sendOk := sendOk } = .panicked
    ∧ l.iteration { addr := addr,
                    packet := some { type := .INITIATE_SESSION, Payload := .FragmentedData fd },
                    uuid := uuid, sendOk := sendOk } = .panicked
    ∧ l.iteration { addr := addr, packet := some { type := .ACK_SESSION, Payload := .unset },
                    uuid := uuid, sendOk := sendOk } = .next l (some .invalidAckPayload)
    ∧ l.iteration { addr := addr, packet := none, uuid := uuid, sendOk := sendOk }
        = .next l (some .unmarshal) :=
  ⟨rfl, rfl, rfl, rfl, rfl, rfl⟩

/-- C18: a `FRAGMENTED_DATA` packet from an address that has no entry in
address→peer-id is dropped. The iteration completes; the packet is put on no
incoming queue (the queue map is as before), no Peer port is registered, and
the three listener maps are unchanged. -/
theorem fragmented_data_without_session_dropped (l : listener) (d : Datagram) (p : Packet)
    (hp : d.packet = some p) (htype : p.type = .FRAGMENTED_DATA)
    (hunknown : l.addressToPeerId.Get d.addr = none) :
    ∃ l1 err, l.iteration d = .next l1 err
      ∧ l1.addressToPeerId = l.addressToPeerId
      ∧ l1.peerIdToAddress = l.peerIdToAddress
      ∧ l1.incomingPackages = l.incomingPackages
      ∧ l1.registered = l.registered := by
  have hf := writeToUDP_fields l d.sendOk d.addr
    { type := .INITIATE_SESSION, Payload := .InitiateSession l.mtu l.networkMTU }
  refine ⟨(l.establishSession d.sendOk d.addr).1, (l.establishSession d.sendOk d.addr).2, ?_,
    hf.1, hf.2.1, hf.2.2.1, hf.2.2.2.1⟩
  simp only [listener.iteration, hp, htype, hunknown, reduceCtorEq, if_false]

/-- Witness for C18: a fragment arrives at a listener that knows one other
address. -/
theorem fragmented_data_without_session_dropped_witness :
    ∃ l1 err,
      ((NewListener 1500 1400).Listen [ackDatagram "a" "id1"]).iteration
          { ackDatagram "b" "" with packet := some (exampleFragment 0 [1]) } = .next l1 err
      ∧ l1.addressToPeerId
          = ((NewListener 1500 1400).Listen [ackDatagram "a" "id1"]).addressToPeerId
      ∧ l1.peerIdToAddress
          = ((NewListener 1500 1400).Listen [ackDatagram "a" "id1"]).peerIdToAddress
      ∧ l1.incomingPackages
          = ((NewListener 1500 1400).Listen [ackDatagram "a" "id1"]).incomingPackages
      ∧ l1.registered = ((NewListener 1500 1400).Listen [ackDatagram "a" "id1"]).registered :=
  fragmented_data_without_session_dropped
    ((NewListener 1500 1400).Listen [ackDatagram "a" "id1"])
    { ackDatagram "b" "" with packet := some (exampleFragment 0 [1]) }
    (exampleFragment 0 [1]) rfl rfl (by decide)

theorem Link.step_quiescent (addrA addrB uuid : String) (n : Link) (h1 : n.toA = [])
    (h2 : n.toB = []) : Link.step addrA addrB uuid n = n := by
  unfold Link.step
  simp only [h1, h2]

theorem Link.run_add (addrA addrB : String) (uuids : Nat → String) (n : Link) (j : Nat)
    (h1 : (Link.run addrA addrB uuids j n).toA = [])
    (h2 : (Link.run addrA addrB uuids j n).toB = []) :
    ∀ k, Link.run addrA addrB uuids (j + k) n = Link.run addrA addrB uuids j n := by
  intro k
  induction k with
  | zero => rfl
  | succ k ih =>
    show Link.step addrA addrB (uuids (j + k)) (Link.run addrA addrB uuids (j + k) n) = _
    rw [ih, Link.step_quiescent _ _ _ _ h1 h2]

/-! ## The handshake between two listeners -/

theorem unmarshal_of_fits (l : listener) (p : Packet) (h : p.encodedSize ≤ l.networkMTU) :
    l.unmarshal p = some p := by
  unfold listener.unmarshal
  rw [if_pos h]

theorem helo_encodedSize :
    Packet.encodedSize { type := .HELO, Payload := .Helo } = 4 := by decide

theorem varintSize_le_ten (x : Nat) : varintSize x ≤ 10 := by
  unfold varintSize
  split_ifs <;> omega

theorem initiateSession_encodedSize_le (mtu networkMTU : Nat) :
    Packet.encodedSize
      { type := .INITIATE_SESSION, Payload := .InitiateSession mtu networkMTU } ≤ 26 := by
  have h1 := varintSize_le_ten mtu
  have h2 := varintSize_le_ten networkMTU
  have h3 : varintFieldSize mtu ≤ 11 := by unfold varintFieldSize; split_ifs <;> omega
  have h4 : varintFieldSize networkMTU ≤ 11 := by unfold varintFieldSize; split_ifs <;> omega
  have h5 := (varintSize_le (varintFieldSize mtu + varintFieldSize networkMTU)).2.1 (by omega)
  have h6 : varintFieldSize PacketType.INITIATE_SESSION.number = 2 := by decide
  simp only [Packet.encodedSize, PacketPayload.encodedSize, messageFieldSize, h6]
  omega

theorem ackSession_encodedSize (id : String) (h : id.utf8ByteSize = 36) :
    Packet.encodedSize { type := .ACK_SESSION, Payload := .AckSession id } = 42 := by
  simp only [Packet.encodedSize, PacketPayload.encodedSize, h]
  decide

theorem unmarshal_helo (l : listener) (h : 4 ≤ l.networkMTU) :
    l.unmarshal { type := .HELO, Payload := .Helo }
      = some { type := .HELO, Payload := .Helo } :=
  unmarshal_of_fits l _ (by rw [helo_encodedSize]; exact h)

theorem unmarshal_ack_cut (l : listener) (id : String) (hid : id.utf8ByteSize = 36)
    (h1 : 4 ≤ l.networkMTU) (h2 : l.networkMTU < 42) :
    l.unmarshal { type := .ACK_SESSION, Payload := .AckSession id } = none := by
  unfold listener.unmarshal
  rw [ackSession_encodedSize id hid, if_neg (by omega), if_neg (by omega)]

theorem Link.step_unacknowledged (mtu networkMTU : Nat) (addrA addrB uuid : String) (n : Link)
    (h4 : 4 ≤ networkMTU) (h42 : networkMTU < 42)
    (hInit : Packet.encodedSize
      { type := .INITIATE_SESSION, Payload := .InitiateSession mtu networkMTU } ≤ networkMTU)
    (huuid : uuid.utf8ByteSize = 36)
    (hinv : Link.Unacknowledged mtu networkMTU addrA addrB n) :
    Link.Unacknowledged mtu networkMTU addrA addrB (Link.step addrA addrB uuid n) := by
  obtain ⟨A, B, toA, toB⟩ := n
  obtain ⟨hAm, hAn, hBm, hBn, hAs, hBs, hAr, hBr, hshape⟩ := hinv
  simp only at hAm hAn hBm hBn hAs hBs hAr hBr hshape
  have hBhelo := unmarshal_helo B (by omega)
  have hBinit := unmarshal_of_fits B
    { type := .INITIATE_SESSION, Payload := .InitiateSession mtu networkMTU } (by omega)
  have hAinit := unmarshal_of_fits A
    { type := .INITIATE_SESSION, Payload := .InitiateSession mtu networkMTU } (by omega)
  have hBack := fun id hid => unmarshal_ack_cut B id hid (by omega) (by omega)
  have hAack := fun id hid => unmarshal_ack_cut A id hid (by omega) (by omega)
  rcases hshape with ⟨rfl, rfl⟩ | ⟨rfl, rfl⟩ | ⟨rfl, id, hid, rfl⟩ | ⟨rfl, rfl⟩
    | ⟨rfl, id, hid, rfl⟩
  · simp [Link.Unacknowledged, Link.step, listener.iteration, hBhelo, hBs,
      listener.establishSession, listener.writeToUDP, listener.sentSince, hAm, hAn, hBm, hBn,
      hAs, hAr, hBr]
  · simp [Link.Unacknowledged, Link.step, listener.iteration, hBinit, hBs,
      listener.initiateSession, listener.establishSession, listener.writeToUDP,
      listener.sentSince, hAm, hAn, hBm, hBn, hAs, hAr, hBr, huuid]
  · simp [Link.Unacknowledged, Link.step, listener.iteration, hBack id hid, hBs,
      hAm, hAn, hBm, hBn, hAs, hAr, hBr, listener.sentSince]
  · simp [Link.Unacknowledged, Link.step, listener.iteration, hAinit, hAs,
      listener.initiateSession, listener.establishSession, listener.writeToUDP,
      listener.sentSince, hAm, hAn, hBm, hBn, hBs, hAr, hBr, huuid]
  · simp [Link.Unacknowledged, Link.step, listener.iteration, hAack id hid, hAs,
      hAm, hAn, hBm, hBn, hBs, hAr, hBr, listener.sentSince]

theorem Link.connected_unacknowledged (mtu networkMTU : Nat) (addrA addrB : String) :
    Link.Unacknowledged mtu networkMTU addrA addrB (Link.connected mtu networkMTU addrB) := by
  simp [Link.Unacknowledged, Link.connected, listener.Connect, listener.writeToUDP,
    listener.sentSince, NewListener, SafeMap.Get, SafeMap.empty]

theorem Link.run_unacknowledged (mtu networkMTU : Nat) (addrA addrB : String)
    (uuids : Nat → String) (h4 : 4 ≤ networkMTU) (h42 : networkMTU < 42)
    (hInit : Packet.encodedSize
      { type := .INITIATE_SESSION, Payload := .InitiateSession mtu networkMTU } ≤ networkMTU)
    (huuid : ∀ i, (uuids i).utf8ByteSize = 36) :
    ∀ k, Link.Unacknowledged mtu networkMTU addrA addrB
      (Link.run addrA addrB uuids k (Link.connected mtu networkMTU addrB)) := by
  intro k
  induction k with
  | zero => exact Link.connected_unacknowledged mtu networkMTU addrA addrB
  | succ k ih =>
    exact Link.step_unacknowledged mtu networkMTU addrA addrB (uuids k) _ h4 h42 hInit
      (huuid k) ih

theorem Link.unacknowledged_in_flight (mtu networkMTU : Nat) (addrA addrB : String) (n : Link)
    (h : Link.Unacknowledged mtu networkMTU addrA addrB n) :
    n.A.registered = [] ∧ n.B.registered = [] ∧ (n.toA ≠ [] ∨ n.toB ≠ []) := by
  obtain ⟨-, -, -, -, -, -, hAr, hBr, hshape⟩ := h
  refine ⟨hAr, hBr, ?_⟩
  rcases hshape with ⟨-, h⟩ | ⟨-, h⟩ | ⟨-, id, -, h⟩ | ⟨-, h⟩ | ⟨-, id, -, h⟩
  · exact Or.inr (by rw [h]; exact List.cons_ne_nil _ _)
  · exact Or.inr (by rw [h]; exact List.cons_ne_nil _ _)
  · exact Or.inr (by rw [h]; exact List.cons_ne_nil _ _)
  · exact Or.inl (by rw [h]; exact List.cons_ne_nil _ _)
  · exact Or.inl (by rw [h]; exact List.cons_ne_nil _ _)

theorem exampleUuids_size (i : Nat) : (exampleUuids i).utf8ByteSize = 36 := by
  unfold exampleUuids
  split_ifs <;> rfl

/-- C16, as stated, fails when the receive buffer is smaller than an
`ACK_SESSION`. The configuration accepts `network_mtu: 30`; an `ACK_SESSION`
with a 36-byte UUID is a datagram of 42 bytes, which a buffer of 30 bytes cuts
and the receive loop fails to decode. With MTU 1500 and network MTU 30 on both
sides, whatever the addresses and the UUIDs, after `A` calls `Connect(B)` and
after any number of deliveries neither side has registered a port and
datagrams are still in flight: every `INITIATE_SESSION` is answered by an
`ACK_SESSION` that is lost and by a new `INITIATE_SESSION`. -/
theorem handshake_ack_cut :
    (Config.exampleSwitchConfig 30).Validate = none
    ∧ (∀ id : String, id.utf8ByteSize = 36 →
        Packet.encodedSize { type := .ACK_SESSION, Payload := .AckSession id } = 42
        ∧ (NewListener 1500 30).unmarshal { type := .ACK_SESSION, Payload := .AckSession id }
            = none)
    ∧ ∀ (addrA addrB : String) (uuids : Nat → String), (∀ i, (uuids i).utf8ByteSize = 36) →
        ∀ k,
          (Link.run addrA addrB uuids k (Link.connected 1500 30 addrB)).A.registered = []
          ∧ (Link.run addrA addrB uuids k (Link.connected 1500 30 addrB)).B.registered = []
          ∧ ((Link.run addrA addrB uuids k (Link.connected 1500 30 addrB)).toA ≠ []
            ∨ (Link.run addrA addrB uuids k (Link.connected 1500 30 addrB)).toB ≠ []) := by
  refine ⟨by decide, fun id hid => ⟨ackSession_encodedSize id hid, ?_⟩, ?_⟩
  · exact unmarshal_ack_cut _ id hid (by decide) (by decide)
  · intro addrA addrB uuids huuid k
    exact Link.unacknowledged_in_flight 1500 30 addrA addrB _
      (Link.run_unacknowledged 1500 30 addrA addrB uuids (by decide) (by decide) (by decide)
        huuid k)

/-- C16, amended: the symmetric handshake, for a network MTU of at least 42
bytes (the size of an `ACK_SESSION` datagram with the 36-byte id
`uuid.New().String()` returns, the longest datagram of the handshake). Two
listeners `A` and `B` with the same MTU configuration and no session; every
datagram is delivered, in order, and every socket write succeeds. After `A`
calls `Connect(B)` the exchange is `HELO`, `INITIATE_SESSION`, `ACK_SESSION` and
`INITIATE_SESSION`, `ACK_SESSION`: at every moment only one direction holds
datagrams in flight, so the order of processing is forced; after five
deliveries nothing is in flight and nothing changes any more; `A` has
registered exactly one Peer port, under the peer-id `B` generated and the
address of `B`, and `B` exactly one under the peer-id `A` generated and the
address of `A`. In any listener state an iteration of the receive loop
registers a Peer port only if the datagram is an `ACK_SESSION` with an
`AckSession` payload. -/
theorem symmetric_handshake (mtu networkMTU : Nat) (addrA addrB : String)
    (uuids : Nat → String) (hnet : 42 ≤ networkMTU)
    (huuid : ∀ i, (uuids i).utf8ByteSize = 36) :
    (∀ k, k ≤ 5 →
      (Link.run addrA addrB uuids k (Link.connected mtu networkMTU addrB)).toA = []
      ∨ (Link.run addrA addrB uuids k (Link.connected mtu networkMTU addrB)).toB = [])
    ∧ (Link.run addrA addrB uuids 5 (Link.connected mtu networkMTU addrB)).toA = []
    ∧ (Link.run addrA addrB uuids 5 (Link.connected mtu networkMTU addrB)).toB = []
    ∧ (∀ k, Link.run addrA addrB uuids (5 + k) (Link.connected mtu networkMTU addrB)
        = Link.run addrA addrB uuids 5 (Link.connected mtu networkMTU addrB))
    ∧ (Link.run addrA addrB uuids 5 (Link.connected mtu networkMTU addrB)).A.sent
        = [(addrB, { type := .HELO, Payload := .Helo }),
           (addrB, { type := .ACK_SESSION, Payload := .AckSession (uuids 1) }),
           (addrB, { type := .INITIATE_SESSION, Payload := .InitiateSession mtu networkMTU })]
    ∧ (Link.run addrA addrB uuids 5 (Link.connected mtu networkMTU addrB)).B.sent
        = [(addrA, { type := .INITIATE_SESSION, Payload := .InitiateSession mtu networkMTU }),
           (addrA, { type := .ACK_SESSION, Payload := .AckSession (uuids 3) })]
    ∧ (Link.run addrA addrB uuids 5 (Link.connected mtu networkMTU addrB)).A.registered
        = [NewPeer (uuids 3) networkMTU]
    ∧ (Link.run addrA addrB uuids 5 (Link.connected mtu networkMTU addrB)).B.registered
        = [NewPeer (uuids 1) networkMTU]
    ∧ (Link.run addrA addrB uuids 5
        (Link.connected mtu networkMTU addrB)).A.peerIdToAddress.Get (uuids 3) = some addrB
    ∧ (Link.run addrA addrB uuids 5
        (Link.connected mtu networkMTU addrB)).B.peerIdToAddress.Get (uuids 1) = some addrA
    ∧ ∀ (l l1 : listener) (d : Datagram) (err : Option ListenError),
        l.iteration d = .next l1 err → l1.registered ≠ l.registered →
        ∃ peerId, d.packet = some { type := .ACK_SESSION, Payload := .AckSession peerId } := by
  have hHelo : Packet.encodedSize { type := .HELO, Payload := .Helo } ≤ networkMTU := by
    rw [helo_encodedSize]
    omega
  have hInit : Packet.encodedSize
      { type := .INITIATE_SESSION, Payload := .InitiateSession mtu networkMTU } ≤ networkMTU :=
    le_trans (initiateSession_encodedSize_le mtu networkMTU) (by omega)
  have hAck : ∀ i, Packet.encodedSize
      { type := .ACK_SESSION, Payload := .AckSession (uuids i) } ≤ networkMTU := by
    intro i
    rw [ackSession_encodedSize _ (huuid i)]
    exact hnet
  have hA : (Link.run addrA addrB uuids 5 (Link.connected mtu networkMTU addrB)).toA = [] := by
    simp [Link.run, Link.step, Link.connected, listener.iteration, listener.Connect,
      listener.writeToUDP, listener.establishSession, listener.initiateSession,
      listener.ackSession, listener.sentSince, NewListener, SafeMap.Get, SafeMap.Set,
      SafeMap.empty, listener.unmarshal, hHelo, hInit, hAck]
  have hB : (Link.run addrA addrB uuids 5 (Link.connected mtu networkMTU addrB)).toB = [] := by
    simp [Link.run, Link.step, Link.connected, listener.iteration, listener.Connect,
      listener.writeToUDP, listener.establishSession, listener.initiateSession,
      listener.ackSession, listener.sentSince, NewListener, SafeMap.Get, SafeMap.Set,
      SafeMap.empty, listener.unmarshal, hHelo, hInit, hAck]
  refine ⟨?_, hA, hB, Link.run_add addrA addrB uuids _ 5 hA hB, ?_, ?_, ?_, ?_, ?_, ?_, ?_⟩
  · intro k hk
    interval_cases k <;>
      simp [Link.run, Link.step, Link.connected, listener.iteration, listener.Connect,
        listener.writeToUDP, listener.establishSession, listener.initiateSession,
        listener.ackSession, listener.sentSince, NewListener, SafeMap.Get, SafeMap.Set,
        SafeMap.empty, listener.unmarshal, hHelo, hInit, hAck]
  · simp [Link.run, Link.step, Link.connected, listener.iteration, listener.Connect,
      listener.writeToUDP, listener.establishSession, listener.initiateSession,
      listener.ackSession, listener.sentSince, NewListener, SafeMap.Get, SafeMap.Set,
      SafeMap.empty, listener.unmarshal, hHelo, hInit, hAck]
  · simp [Link.run, Link.step, Link.connected, listener.iteration, listener.Connect,
      listener.writeToUDP, listener.establishSession, listener.initiateSession,
      listener.ackSession, listener.sentSince, NewListener, SafeMap.Get, SafeMap.Set,
      SafeMap.empty, listener.unmarshal, hHelo, hInit, hAck]
  · simp [Link.run, Link.step, Link.connected, listener.iteration, listener.Connect,
      listener.writeToUDP, listener.establishSession, listener.initiateSession,
      listener.ackSession, listener.sentSince, NewListener, SafeMap.Get, SafeMap.Set,
      SafeMap.empty, listener.unmarshal, hHelo, hInit, hAck]
  · simp [Link.run, Link.step, Link.connected, listener.iteration, listener.Connect,
      listener.writeToUDP, listener.establishSession, listener.initiateSession,
      listener.ackSession, listener.sentSince, NewListener, SafeMap.Get, SafeMap.Set,
      SafeMap.empty, listener.unmarshal, hHelo, hInit, hAck]
  · simp [Link.run, Link.step, Link.connected, listener.iteration, listener.Connect,
      listener.writeToUDP, listener.establishSession, listener.initiateSession,
      listener.ackSession, listener.sentSince, NewListener, SafeMap.Get, SafeMap.Set,
      SafeMap.empty, listener.unmarshal, hHelo, hInit, hAck]
  · simp [Link.run, Link.step, Link.connected, listener.iteration, listener.Connect,
      listener.writeToUDP, listener.establishSession, listener.initiateSession,
      listener.ackSession, listener.sentSince, NewListener, SafeMap.Get, SafeMap.Set,
      SafeMap.empty, listener.unmarshal, hHelo, hInit, hAck]
  · intro l l1 d err hit hreg
    rcases iteration_next l l1 d err hit with ⟨-, -, h⟩ | ⟨peerId, hp, -⟩
    · exact absurd h hreg
    · exact ⟨peerId, hp⟩

/-- Witness for C16: MTU 1500 and network MTU 1400 on both sides; after five
deliveries nothing is in flight and each side has registered the one Peer port
under the id the other side generated. -/
theorem symmetric_handshake_witness :
    42 ≤ 1400
    ∧ (∀ i, (exampleUuids i).utf8ByteSize = 36)
    ∧ (Link.run "10.0.0.1:4000" "10.0.0.2:4000" exampleUuids 5
        (Link.connected 1500 1400 "10.0.0.2:4000")).toA = []
    ∧ (Link.run "10.0.0.1:4000" "10.0.0.2:4000" exampleUuids 5
        (Link.connected 1500 1400 "10.0.0.2:4000")).toB = []
    ∧ (Link.run "10.0.0.1:4000" "10.0.0.2:4000" exampleUuids 5
        (Link.connected 1500 1400 "10.0.0.2:4000")).A.registered
        = [NewPeer "6ba7b813-9dad-41d1-80b4-00c04fd430c8" 1400]
    ∧ (Link.run "10.0.0.1:4000" "10.0.0.2:4000" exampleUuids 5
        (Link.connected 1500 1400 "10.0.0.2:4000")).B.registered
        = [NewPeer "6ba7b810-9dad-41d1-80b4-00c04fd430c8" 1400] :=
  ⟨by decide, exampleUuids_size,
   (symmetric_handshake 1500 1400 "10.0.0.1:4000" "10.0.0.2:4000" exampleUuids (by decide)
      exampleUuids_size).2.1,
   (symmetric_handshake 1500 1400 "10.0.0.1:4000" "10.0.0.2:4000" exampleUuids (by decide)
      exampleUuids_size).2.2.1,
   (symmetric_handshake 1500 1400 "10.0.0.1:4000" "10.0.0.2:4000" exampleUuids (by decide)
      exampleUuids_size).2.2.2.2.2.2.1,
   (symmetric_handshake 1500 1400 "10.0.0.1:4000" "10.0.0.2:4000" exampleUuids (by decide)
      exampleUuids_size).2.2.2.2.2.2.2.1⟩

/-! ## The packet-id counter and the max payload of a configured peer -/

/-- With a max payload of zero the slicing loop does not advance: whatever the
bound on its iterations, it is still inside a non-empty frame when the bound is
reached. -/
theorem fragmentLoop_zero (frame : Frame) (packetId : Nat) (i : Nat) (hi : i < frame.length) :
    ∀ (fuel k : Nat) (acc : List Packet),
      fragmentLoop 0 frame packetId fuel i k acc = none := by
  intro fuel
  induction fuel with
  | zero => intro k acc; rfl
  | succ fuel ih =>
    intro k acc
    unfold fragmentLoop
    rw [if_pos hi]
    exact ih _ _

theorem fragment_zero_payload (p : peer) (frame : Frame) (hm : p.maxPayloadSize = 0)
    (hframe : 0 < frame.length) : p.fragment frame = none := by
  unfold peer.fragment
  simp only [hm, fragmentLoop_zero frame p.packedId 0 hframe]

theorem writeLoop_subset (sendOk : Packet → Bool) :
    ∀ (fragments : List Packet), ∀ x ∈ (writeLoop sendOk fragments).1, x ∈ fragments := by
  intro fragments
  induction fragments with
  | nil => intro x hx; simp [writeLoop] at hx
  | cons f rest ih =>
    intro x hx
    unfold writeLoop at hx
    split at hx
    · rcases List.mem_cons.mp hx with h | h
      · exact h ▸ List.mem_cons_self _ _
      · exact List.mem_cons_of_mem _ (ih x h)
    · rw [List.mem_singleton.mp hx]
      exact List.mem_cons_self _ _

/-- Every fragment of one call carries the packet-id the counter had at the
call. -/
theorem fragment_ids (p : peer) (frame : Frame) (hm : 0 < p.maxPayloadSize) :
    ∃ (p1 : peer) (fragments : List Packet),
      p.fragment frame = some (p1, fragments)
      ∧ p1.packedId = (p.packedId + 1) % u32
      ∧ p1.maxPayloadSize = p.maxPayloadSize
      ∧ ∀ pack ∈ fragments, ∃ fd, pack.Payload = .FragmentedData fd ∧ fd.Id = p.packedId := by
  refine ⟨_, _, fragment_eq p frame hm, rfl, rfl, ?_⟩
  intro pack hpack
  obtain ⟨t, -, rfl⟩ := List.mem_map.mp hpack
  exact ⟨_, rfl, rfl⟩

theorem Writes_ids (sendOk : Packet → Bool) :
    ∀ (frames : List Frame) (p : peer), 0 < p.maxPayloadSize → p.packedId < u32 →
      ∃ (p2 : peer) (sent : List (List Packet)),
        p.Writes sendOk frames = some (p2, sent)
        ∧ sent.length = frames.length
        ∧ p2.packedId = (p.packedId + frames.length) % u32
        ∧ ∀ (i : Nat) (h : i < sent.length), ∀ pack ∈ sent[i],
            ∃ fd, pack.Payload = .FragmentedData fd ∧ fd.Id = (p.packedId + i) % u32 := by
  intro frames
  induction frames with
  | nil =>
    intro p _ hid
    refine ⟨p, [], rfl, rfl, (Nat.mod_eq_of_lt hid).symm, ?_⟩
    intro i h
    cases h
  | cons frame rest ih =>
    intro p hm hid
    obtain ⟨p1, fragments, hfrag, hp1, hm1, hids⟩ := fragment_ids p frame hm
    obtain ⟨p2, more, hrest, hlen, hp2, hmore⟩ := ih p1 (hm1 ▸ hm)
      (hp1 ▸ Nat.mod_lt _ (by decide))
    refine ⟨p2, (writeLoop sendOk fragments).1 :: more, ?_, ?_, ?_, ?_⟩
    · simp only [peer.Writes, peer.Write, hfrag, hrest]
    · simp only [List.length_cons, hlen]
    · rw [hp2, hp1, List.length_cons, Nat.add_mod, Nat.mod_mod, ← Nat.add_mod]
      congr 1
      omega
    · intro i h pack hpack
      cases i with
      | zero =>
        simp only [List.getElem_cons_zero] at hpack
        obtain ⟨fd, h1, h2⟩ := hids pack (writeLoop_subset sendOk fragments pack hpack)
        exact ⟨fd, h1, by rw [h2]; exact (Nat.mod_eq_of_lt hid).symm⟩
      | succ j =>
        simp only [List.getElem_cons_succ] at hpack
        obtain ⟨fd, h1, h2⟩ := hmore j (by simpa using h) pack hpack
        refine ⟨fd, h1, ?_⟩
        rw [h2, hp1, Nat.add_mod, Nat.mod_mod, ← Nat.add_mod]
        congr 1
        omega

/-- C21: packet-id assignment, for a peer with max payload at least 1 (so
that `fragment` returns) whose counter is a `uint32`. Each call of
`peer.fragment` returns, stamps every fragment with the current value of the
counter and leaves the counter increased by one modulo `2 ^ 32`; after the
value `2 ^ 32 - 1` the counter is 0. In `k` successive `Write` calls, every
packet passed to the listener by the `i`-th call (counted from 0) carries the
id `(start + i) mod 2 ^ 32`, which on a fresh peer is `i mod 2 ^ 32`, and the
counter ends at `(start + k) mod 2 ^ 32`. -/
theorem packet_id_assignment (p : peer) (frame : Frame) (frames : List Frame)
    (sendOk : Packet → Bool) (hm : 1 ≤ p.maxPayloadSize) (hid : p.packedId < 2 ^ 32) :
    (∃ (p1 : peer) (fragments : List Packet),
      p.fragment frame = some (p1, fragments)
      ∧ p1.packedId = (p.packedId + 1) % 2 ^ 32
      ∧ (p.packedId = 2 ^ 32 - 1 → p1.packedId = 0)
      ∧ ∀ pack ∈ fragments, ∃ fd, pack.Payload = .FragmentedData fd ∧ fd.Id = p.packedId)
    ∧ (∃ (p2 : peer) (sent : List (List Packet)),
        p.Writes sendOk frames = some (p2, sent)
        ∧ sent.length = frames.length
        ∧ p2.packedId = (p.packedId + frames.length) % 2 ^ 32
        ∧ ∀ (i : Nat) (h : i < sent.length), ∀ pack ∈ sent[i],
            ∃ fd, pack.Payload = .FragmentedData fd ∧ fd.Id = (p.packedId + i) % 2 ^ 32)
    ∧ (NewPeer p.id 1400).packedId = 0 := by
  obtain ⟨p1, fragments, h1, h2, -, h4⟩ := fragment_ids p frame hm
  refine ⟨⟨p1, fragments, h1, h2, ?_, h4⟩, Writes_ids sendOk frames p hm hid, rfl⟩
  intro hmax
  rw [h2, hmax]
  decide

/-- Witness for C21: three writes on a fresh peer with max payload 8: a frame
of two fragments, an empty frame, a frame of one fragment. -/
theorem packet_id_assignment_witness :
    (∃ (p1 : peer) (fragments : List Packet),
      (NewPeer "peer" 30).fragment [1, 2, 3, 4, 5, 6, 7, 8, 9] = some (p1, fragments)
      ∧ p1.packedId = ((NewPeer "peer" 30).packedId + 1) % 2 ^ 32
      ∧ ((NewPeer "peer" 30).packedId = 2 ^ 32 - 1 → p1.packedId = 0)
      ∧ ∀ pack ∈ fragments,
          ∃ fd, pack.Payload = .FragmentedData fd ∧ fd.Id = (NewPeer "peer" 30).packedId)
    ∧ (∃ (p2 : peer) (sent : List (List Packet)),
        (NewPeer "peer" 30).Writes (fun _ => true) [[1, 2, 3, 4, 5, 6, 7, 8, 9], [], [1]]
          = some (p2, sent)
        ∧ sent.length = [[1, 2, 3, 4, 5, 6, 7, 8, 9], [], ([1] : Frame)].length
        ∧ p2.packedId = ((NewPeer "peer" 30).packedId
            + [[1, 2, 3, 4, 5, 6, 7, 8, 9], [], ([1] : Frame)].length) % 2 ^ 32
        ∧ ∀ (i : Nat) (h : i < sent.length), ∀ pack ∈ sent[i],
            ∃ fd, pack.Payload = .FragmentedData fd
              ∧ fd.Id = ((NewPeer "peer" 30).packedId + i) % 2 ^ 32)
    ∧ (NewPeer (NewPeer "peer" 30).id 1400).packedId = 0 :=
  packet_id_assignment (NewPeer "peer" 30) [1, 2, 3, 4, 5, 6, 7, 8, 9]
    [[1, 2, 3, 4, 5, 6, 7, 8, 9], [], [1]] (fun _ => true) (by decide) (by decide)

/-- C22, where the code departs from it: the configuration is accepted for
every non-zero network MTU, but the `uint32` subtraction of `maxPayloadSize` is
not guarded. With `network_mtu: 22` the max payload is 0 and the slicing loop of
`peer.fragment` never leaves a non-empty frame, whatever the number of
iterations allowed; with a network MTU from 1 to 21 the subtraction wraps and
the max payload exceeds the network MTU. Only from 23 on is the max payload at
least 1 and below the network MTU. -/
theorem max_payload_unguarded (name : String) :
    (Config.exampleSwitchConfig 22).Validate = none
    ∧ maxPayloadSize 22 = 0
    ∧ (∀ fuel, fragmentLoop (NewPeer name 22).maxPayloadSize exampleUnicast
          (NewPeer name 22).packedId fuel 0 0 [] = none)
    ∧ (NewPeer name 22).fragment exampleUnicast = none
    ∧ (Config.exampleSwitchConfig 10).Validate = none
    ∧ (∀ mtu, 1 ≤ mtu → mtu ≤ 21 → maxPayloadSize mtu = 2 ^ 32 - 22 + mtu)
    ∧ (∀ mtu, 23 ≤ mtu → mtu < 2 ^ 16 →
        1 ≤ maxPayloadSize mtu ∧ maxPayloadSize mtu < mtu) := by
  have h22 : maxPayloadSize 22 = 0 := by decide
  refine ⟨by decide, h22, ?_, ?_, by decide, ?_, ?_⟩
  · intro fuel
    show fragmentLoop (maxPayloadSize 22) exampleUnicast 0 fuel 0 0 [] = none
    rw [h22]
    exact fragmentLoop_zero exampleUnicast 0 0 (by decide) fuel 0 []
  · exact fragment_zero_payload _ _ h22 (by decide)
  · intro mtu h1 h2
    unfold maxPayloadSize
    rw [headerProbe_encodedSize]
    simp only [u32]
    omega
  · intro mtu h1 h2
    rw [maxPayloadSize_eq (by omega) (by omega)]
    omega

end Trestle
